import Mathlib

/-!
Verification of the Open Paper web-document-extraction pipeline.

This file gives a shallow embedding, in Lean 4, of the core of the
`jobs/src/web_extract` package (orchestrator, quality scorer, URL safety
guard, JSON-LD strategy, LLM-adaptive rule application and promotion,
rule store, arXiv inline-run normalization and reference-link detection),
and proves or refutes the behavioural claims made about it.

Modelling conventions:
* Python `float` quantities are modelled as `ℚ`; the properties proved
  (clamping to `[0,1]`, threshold comparisons) are exact under any
  faithful numeric interpretation.
* Python strings are modelled as `String` / `List Char`; Python slicing
  `s[:n]` is by code points, matching `List.take` on `String.data`.
* Calls into the Python standard library whose behaviour the claims do
  not depend on (the `re` regex engine applied to *data-supplied*
  patterns, `json.loads`, `urljoin`, DNS resolution) are modelled as
  explicit oracle parameters, so every theorem is quantified over their
  behaviour.  Fixed-pattern regular expressions appearing in the source
  are implemented directly as scanners.
* `Char.toLower` / `Char.isAlpha` are ASCII-only in Lean; the Python
  originals are Unicode-wide.  All concrete inputs used in closed
  theorems are ASCII, where the two agree.
-/

set_option linter.unusedVariables false
set_option maxRecDepth 100000

/- Batteries marks the `Rat` arithmetic operations `@[irreducible]`;
re-allow unfolding so that concrete score computations evaluate by
`decide`. -/
set_option allowUnsafeReducibility true
attribute [semireducible] Rat.add Rat.mul Rat.inv Rat.sub Rat.ofScientific

namespace OpenPaper

/-! ## Python-style character and string helpers -/

/-!
Scanners over character lists are written with an explicit fuel
argument (structural recursion on the fuel), so that every definition
evaluates inside the kernel; each scanning step consumes at least one
character, so a fuel equal to the list length is always sufficient and
the fuel-exhausted branches are unreachable from the wrappers.
-/

/-- Whitespace as recognised by Python `str.split` / `str.strip` / `re \s`
(ASCII whitespace, the C1 separators, and the Unicode space separators). -/
def isPySpace (c : Char) : Bool :=
  c.toNat == 32 || c.toNat == 9 || c.toNat == 10 || c.toNat == 13 ||
  c.toNat == 11 || c.toNat == 12 ||
  c.toNat == 28 || c.toNat == 29 || c.toNat == 30 || c.toNat == 31 ||
  c.toNat == 0x85 || c.toNat == 0xa0 || c.toNat == 0x1680 ||
  (0x2000 ≤ c.toNat && c.toNat ≤ 0x200a) ||
  c.toNat == 0x2028 || c.toNat == 0x2029 || c.toNat == 0x202f ||
  c.toNat == 0x205f || c.toNat == 0x3000

/-- Decimal value of an all-digit character list (the evaluable
equivalent of `String.toNat!` on the guarded call sites below). -/
def digitsToNat (l : List Char) : Nat :=
  l.foldl (fun acc c => acc * 10 + (c.toNat - 48)) 0

/-- Python `str.split()` with no separator: maximal runs of
non-whitespace, empty pieces dropped. -/
def pySplitWsF : Nat → List Char → List (List Char)
  | 0, _ => []
  | _ + 1, [] => []
  | fuel + 1, c :: rest =>
    if isPySpace c then pySplitWsF fuel rest
    else
      (c :: rest.takeWhile (fun d => !isPySpace d)) ::
        pySplitWsF fuel (rest.dropWhile (fun d => !isPySpace d))

def pySplitWs (l : List Char) : List (List Char) := pySplitWsF l.length l

/-- `re.sub(r"\s+", " ", text).strip()`, i.e. Python
`" ".join(text.split())`. -/
def normalizeWhitespaceL (l : List Char) : List Char :=
  List.intercalate [' '] (pySplitWs l)

/-- Python `str.strip()` on a character list. -/
def pyStripL (l : List Char) : List Char :=
  ((l.dropWhile isPySpace).reverse.dropWhile isPySpace).reverse

/-- Python `str.strip()`. -/
def pyStrip (s : String) : String := ⟨pyStripL s.data⟩

/-- Python `s.rstrip(chars)` with an explicit character set. -/
def pyRstripChars (chars : List Char) (s : String) : String :=
  ⟨(s.data.reverse.dropWhile (fun c => chars.contains c)).reverse⟩

/-- Python `s.lower()` (ASCII case mapping). -/
def pyLower (s : String) : String := ⟨s.data.map Char.toLower⟩

/-- Python slicing `s[:n]` (by code points). -/
def pySlice (s : String) (n : Nat) : String := ⟨s.data.take n⟩

/-- Python substring containment `pat in l` on character lists. -/
def hasSubList (pat : List Char) : List Char → Bool
  | [] => pat.isEmpty
  | c :: rest => pat.isPrefixOf (c :: rest) || hasSubList pat rest

/-- Python substring containment `pat in s`. -/
def pyContains (s pat : String) : Bool := hasSubList pat.data s.data

/-- Python `str.replace(old, new)` on lists, replacing every
(leftmost, non-overlapping) occurrence; `old` is assumed non-empty. -/
def replaceSubListF (old new : List Char) : Nat → List Char → List Char
  | 0, l => l
  | _ + 1, [] => []
  | fuel + 1, c :: rest =>
    if old.isPrefixOf (c :: rest) ∧ old ≠ [] then
      new ++ replaceSubListF old new fuel ((c :: rest).drop old.length)
    else
      c :: replaceSubListF old new fuel rest

def replaceSubList (old new : List Char) (l : List Char) : List Char :=
  replaceSubListF old new l.length l

/-- Python `str.replace(old, new)`. -/
def pyReplace (s old new : String) : String :=
  ⟨replaceSubList old.data new.data s.data⟩

/-- Python `"sep".join(parts)`. -/
def pyJoin (sep : String) (parts : List String) : String :=
  String.intercalate sep parts

/-! ## `html_utils.py`: whitespace-preserving normalisation -/

/-- Modelled subset of the CPython stdlib `html.unescape`: the basic
named entities (`amp`, `lt`, `gt`, `quot`, `nbsp`) and numeric character
references terminated by a semicolon.  Other ampersand sequences pass
through unchanged; none of the theorems below depend on the full HTML5
entity table. -/
def htmlUnescapeF : Nat → List Char → List Char
  | 0, l => l
  | _ + 1, [] => []
  | fuel + 1, c :: rest =>
    if c == '&' then
      if "amp;".data.isPrefixOf rest then
        '&' :: htmlUnescapeF fuel (rest.drop 4)
      else if "lt;".data.isPrefixOf rest then
        '<' :: htmlUnescapeF fuel (rest.drop 3)
      else if "gt;".data.isPrefixOf rest then
        '>' :: htmlUnescapeF fuel (rest.drop 3)
      else if "quot;".data.isPrefixOf rest then
        '"' :: htmlUnescapeF fuel (rest.drop 5)
      else if "nbsp;".data.isPrefixOf rest then
        Char.ofNat 0xa0 :: htmlUnescapeF fuel (rest.drop 5)
      else if rest.head? = some '#' then
        let digits := (rest.drop 1).takeWhile Char.isDigit
        let after := (rest.drop 1).dropWhile Char.isDigit
        if digits ≠ [] ∧ after.head? = some ';' then
          let n := digitsToNat digits
          (if n < 0x110000 then Char.ofNat n else '�') ::
            htmlUnescapeF fuel (after.drop 1)
        else
          c :: htmlUnescapeF fuel rest
      else
        c :: htmlUnescapeF fuel rest
    else
      c :: htmlUnescapeF fuel rest

def htmlUnescapeL (l : List Char) : List Char := htmlUnescapeF l.length l

/-- Replace `\r\n` and bare `\r` by `\n`
(Python `text.replace("\r\n", "\n").replace("\r", "\n")`). -/
def normalizeNewlines : List Char → List Char
  | [] => []
  | '\r' :: '\n' :: rest => '\n' :: normalizeNewlines rest
  | '\r' :: rest => '\n' :: normalizeNewlines rest
  | c :: rest => c :: normalizeNewlines rest

/-- `normalize_text_preserve_paragraphs` (html_utils.py): normalise each
line, collapse runs of blank lines to a single one, trim blank lines at
both ends. -/
def normalize_text_preserve_paragraphs (text : String) : String :=
  let lines := (normalizeNewlines text.data).splitOnP (· == '\n')
  let step := fun (acc : List (List Char)) (line : List Char) =>
    let cleaned := normalizeWhitespaceL (htmlUnescapeL line)
    if cleaned ≠ [] then acc ++ [cleaned]
    else if acc ≠ [] ∧ acc.getLast? ≠ some [] then acc ++ [[]]
    else acc
  let normalizedLines := lines.foldl step []
  let trimmed :=
    ((normalizedLines.dropWhile (· == [])).reverse.dropWhile (· == [])).reverse
  ⟨List.intercalate ['\n'] trimmed⟩

/-- `normalize_whitespace` (html_utils.py). -/
def normalize_whitespace (text : String) : String :=
  ⟨normalizeWhitespaceL text.data⟩

/-! ## Data model (`models.py`) -/

/-- A reader block (`build_reader_blocks` output and the generic block
shape consumed by the scorer: only `id`, `type`, `text`). -/
structure ReaderBlock where
  bid : String
  btype : String
  text : String
deriving DecidableEq, Repr

/-- Values stored in `extraction_meta` (a Python `dict[str, Any]`);
only the shapes actually written by the modelled strategies. -/
inductive MetaVal where
  | str (v : String)
  | flag (v : Bool)
  | num (v : ℚ)
  | feats (flength paragraphDensity noiseLevel titleCoherence
      languageContinuity dedup structureDiversity : ℚ)
deriving DecidableEq, Repr

/-- Python `{**meta, key: value}`: replace the value at `key` if present
(keeping its position), else append. -/
def metaSet (meta : List (String × MetaVal)) (key : String) (value : MetaVal) :
    List (String × MetaVal) :=
  if meta.any (fun p => p.1 == key) then
    meta.map (fun p => if p.1 == key then (key, value) else p)
  else
    meta ++ [(key, value)]

/-- `ExtractionCandidate` (models.py). -/
structure ExtractionCandidate where
  strategyName : String
  url : String
  canonicalUrl : String
  title : Option String
  contentFormat : String
  rawContent : String
  extractionMeta : List (String × MetaVal) := []
  blocks : List ReaderBlock := []
  qualityScore : ℚ := 0
  qualityConfidence : ℚ := 0
deriving DecidableEq, Repr

/-! ## Quality scorer (`scoring.py`) -/

/-- `_clamp` (scoring.py), at the default bounds `[0, 1]`. -/
def clamp (value : ℚ) : ℚ := max 0 (min 1 value)

/-- First character class of the token regex `[a-z0-9][a-z0-9_-]{1,}`. -/
def tokFirst (c : Char) : Bool :=
  ('a' ≤ c && c ≤ 'z') || ('0' ≤ c && c ≤ '9')

/-- Continuation class of the token regex. -/
def tokRest (c : Char) : Bool := tokFirst c || c == '_' || c == '-'

/-- Scanner equivalent of `re.findall(r"[a-z0-9][a-z0-9_-]{1,}", s)`:
leftmost, non-overlapping, greedy matches of length at least two. -/
def tokenizeF : Nat → List Char → List (List Char)
  | 0, _ => []
  | _ + 1, [] => []
  | fuel + 1, c :: rest =>
    if tokFirst c then
      if ((rest.head?.map tokRest).getD false) then
        (c :: rest.takeWhile tokRest) :: tokenizeF fuel (rest.dropWhile tokRest)
      else
        tokenizeF fuel rest
    else
      tokenizeF fuel rest

def tokenizeL (l : List Char) : List (List Char) := tokenizeF l.length l

/-- `_tokenize` (scoring.py): tokens of the lower-cased text. -/
def tokenize (text : String) : List String :=
  (tokenizeL (text.data.map Char.toLower)).map (fun l => String.mk l)

/-- Scanner equivalent of `re.split(r"\n{2,}", text)`: split at maximal
runs of two or more newlines. -/
def splitBlankRunsF : Nat → List Char → List (List Char)
  | 0, _ => [[]]
  | _ + 1, [] => [[]]
  | fuel + 1, c :: rest =>
    if c == '\n' ∧ rest.head? = some '\n' then
      [] :: splitBlankRunsF fuel (rest.dropWhile (· == '\n'))
    else
      match splitBlankRunsF fuel rest with
      | [] => [[c]]
      | hd :: tl => (c :: hd) :: tl

def splitBlankRuns (l : List Char) : List (List Char) :=
  splitBlankRunsF l.length l

/-- The paragraph pieces of `re.split(r"\n{2,}", text)`, as strings. -/
def splitParagraphPieces (text : String) : List String :=
  (splitBlankRuns text.data).map (fun l => String.mk l)

/-- `_score_length` (scoring.py). -/
def score_length (text : String) : ℚ :=
  clamp ((text.length : ℚ) / 8000)

/-- `_score_paragraph_density` (scoring.py). -/
def score_paragraph_density (text : String) : ℚ :=
  let paragraphs := (splitParagraphPieces text).filter (fun item => pyStrip item ≠ "")
  clamp ((paragraphs.length : ℚ) / 18)

/-- Noise markers of `_score_noise_ratio` (scoring.py). -/
def noiseMarkers : List String :=
  ["cookie", "subscribe", "javascript", "privacy", "advertisement"]

/-- `_score_noise_ratio` (scoring.py); named without the source suffix. -/
def score_noise (text : String) : ℚ :=
  let tokens := tokenize text
  if tokens = [] then 0
  else
    let noisy := tokens.countP (fun token =>
      noiseMarkers.contains token || "http".data.isPrefixOf token.data ||
        pyContains token ".com")
    let frac : ℚ := (noisy : ℚ) / (max 1 tokens.length : ℚ)
    clamp (1 - frac * 3)

/-- `_score_title_coherence` (scoring.py). -/
def score_title_coherence (title : Option String) (text : String) : ℚ :=
  match title with
  | none => 2/5
  | some t =>
    let titleTokens := (tokenize t).dedup
    if titleTokens = [] then 2/5
    else
      let lead := pySlice text 1200
      let leadTokens := (tokenize lead).dedup
      let overlap := titleTokens.countP (fun tok => leadTokens.contains tok)
      clamp ((overlap : ℚ) / (max 2 titleTokens.length : ℚ))

/-- Python `str.isprintable` for a single character, restricted to the
character classes occurring here (controls and separators are not
printable, the space is). -/
def pyIsPrintable (c : Char) : Bool :=
  c == ' ' ||
  (!isPySpace c && decide (0x20 ≤ c.toNat) && c.toNat != 0x7f &&
    !(0x80 ≤ c.toNat && c.toNat ≤ 0x9f))

/-- `_score_language_continuity` (scoring.py).  `Char.isAlpha` is the
ASCII restriction of Python `str.isalpha`. -/
def score_language_continuity (text : String) : ℚ :=
  if text = "" then 0
  else
    let letters := text.data.countP Char.isAlpha
    let printable := text.data.countP pyIsPrintable
    let frac : ℚ := (letters : ℚ) / (max 1 printable : ℚ)
    clamp (frac * 2)

/-- `_score_dedup` (scoring.py). -/
def score_dedup (text : String) : ℚ :=
  let paragraphs := ((splitParagraphPieces text).map pyStrip).filter (· ≠ "")
  if paragraphs = [] then 0
  else clamp ((paragraphs.dedup.length : ℚ) / (paragraphs.length : ℚ))

/-- `_score_structure_diversity` (scoring.py). -/
def score_structure_diversity (candidate : ExtractionCandidate) : ℚ :=
  if candidate.blocks = [] then 1/4
  else
    let blockTypes := (candidate.blocks.map (·.btype)).dedup
    if 3 ≤ blockTypes.length then 1
    else if blockTypes.length = 2 then 7/10
    else 9/20

/-- Blocked-content markers of `_penalty_for_blocked_content`
(scoring.py). -/
def blockedMarkers : List String :=
  ["verify you are human", "access denied", "captcha", "request blocked"]

/-- `_penalty_for_blocked_content` (scoring.py). -/
def penalty_for_blocked_content (text : String) : ℚ :=
  let lowered := pyLower text
  if blockedMarkers.any (fun marker => pyContains lowered marker) then 7/20
  else 0

/-- The seven features of `score_candidate` (scoring.py). -/
structure FeatureSet where
  flength : ℚ
  paragraphDensity : ℚ
  noiseLevel : ℚ
  titleCoherence : ℚ
  languageContinuity : ℚ
  dedup : ℚ
  structureDiversity : ℚ
deriving DecidableEq, Repr

/-- `ScoreResult` (scoring.py). -/
structure ScoreResult where
  score : ℚ
  confidence : ℚ
  features : FeatureSet
deriving DecidableEq, Repr

/-- `score_candidate` (scoring.py). -/
def score_candidate (candidate : ExtractionCandidate) : ScoreResult :=
  let text := candidate.rawContent
  let features : FeatureSet :=
    { flength := score_length text
      paragraphDensity := score_paragraph_density text
      noiseLevel := score_noise text
      titleCoherence := score_title_coherence candidate.title text
      languageContinuity := score_language_continuity text
      dedup := score_dedup text
      structureDiversity := score_structure_diversity candidate }
  let weighted :=
    (20/100) * features.flength
    + (15/100) * features.paragraphDensity
    + (20/100) * features.noiseLevel
    + (15/100) * features.titleCoherence
    + (10/100) * features.languageContinuity
    + (10/100) * features.dedup
    + (10/100) * features.structureDiversity
  let score := clamp (weighted - penalty_for_blocked_content text)
  let confidence := clamp
    (40/100 + (45/100) * score
      + (15/100) * max features.flength features.paragraphDensity)
  { score := score, confidence := confidence, features := features }

/-! ## Orchestrator (`orchestrator.py`) -/

/-- Constructor defaults of `WebDocumentExtractionOrchestrator.__init__`. -/
structure OrchestratorConfig where
  acceptanceThreshold : ℚ := 78/100
  minimumAcceptableScore : ℚ := 55/100
  timeoutSeconds : Nat := 30
  maxChars : Nat := 120000
deriving DecidableEq, Repr

def defaultOrchestratorConfig : OrchestratorConfig := {}

/-- The `name` attributes of the strategies in the default list built by
`WebDocumentExtractionOrchestrator.__init__` (orchestrator.py lines
36-42), in declared order: `XStatusApiStrategy`, `DomainAdapterStrategy`,
`JsonLdStrategy`, `HttpReadabilityStrategy`, `LlmAdaptiveStrategy`. -/
def defaultStrategyNames : List String :=
  ["x_status_api", "domain_adapter", "json_ld", "http_readability", "llm_adaptive"]

/-- `ArxivHtmlStrategy.name` (strategies.py line 563); the class is
defined but does not appear in the default strategy list. -/
def arxivHtmlStrategyName : String := "arxiv_html"

/-- The outcome of one strategy's `extract(context)` call within a fixed
orchestration: either a candidate or the stringified raised exception,
paired with the strategy's `name`. -/
abbrev StrategyOutcome := String × Except String ExtractionCandidate

/-- `ExtractionAttempt` (models.py); `duration_ms` is wall-clock
bookkeeping and is not modelled. -/
structure Attempt where
  strategyName : String
  success : Bool
  score : Option ℚ := none
  confidence : Option ℚ := none
  reason : Option String := none
deriving DecidableEq, Repr

/-- Scoring and stamping of a successful candidate
(orchestrator.py lines 71-77). -/
def stampCandidate (c : ExtractionCandidate) : ExtractionCandidate :=
  let r := score_candidate c
  { c with
    qualityScore := r.score
    qualityConfidence := r.confidence
    extractionMeta := metaSet c.extractionMeta "quality_features"
      (.feats r.features.flength r.features.paragraphDensity
        r.features.noiseLevel r.features.titleCoherence
        r.features.languageContinuity r.features.dedup
        r.features.structureDiversity) }

/-- The attempt record produced for one strategy outcome
(orchestrator.py lines 79-104). -/
def attemptOf (o : StrategyOutcome) : Attempt :=
  match o.2 with
  | .ok c =>
    let r := score_candidate c
    { strategyName := o.1, success := true,
      score := some r.score, confidence := some r.confidence }
  | .error e =>
    { strategyName := o.1, success := false, reason := some e }

/-- The best-candidate update of one successful step
(orchestrator.py lines 90-91): replace only on a strictly greater
score. -/
def bestAfter (best0 : Option ExtractionCandidate) (c : ExtractionCandidate) :
    Option ExtractionCandidate :=
  match best0 with
  | none => some (stampCandidate c)
  | some b0 =>
    if b0.qualityScore < (score_candidate c).score then some (stampCandidate c)
    else some b0

/-- The strategy loop of `WebDocumentExtractionOrchestrator.run`
(orchestrator.py lines 64-104): score each successful candidate, track
attempts, keep the best candidate under strict improvement, and stop as
soon as a score reaches the acceptance threshold. -/
def orchLoop (cfg : OrchestratorConfig) :
    List StrategyOutcome → Option ExtractionCandidate →
    List Attempt × Option ExtractionCandidate
  | [], best => ([], best)
  | o :: rest, best =>
    match o.2 with
    | .error e =>
      let r := orchLoop cfg rest best
      (attemptOf o :: r.1, r.2)
    | .ok c =>
      if cfg.acceptanceThreshold ≤ (score_candidate c).score then
        ([attemptOf o], bestAfter best c)
      else
        let r := orchLoop cfg rest (bestAfter best c)
        (attemptOf o :: r.1, r.2)

/-- The reason text used for one failed attempt in the terminal error
message (orchestrator.py lines 107-111). -/
def failureReasonText (a : Attempt) : String :=
  a.strategyName ++ ": " ++
    (match a.reason with
     | some r => if r = "" then "unknown error" else r
     | none => "unknown error")

/-- The joined failure reasons (orchestrator.py lines 107-111). -/
def joinFailureReasons (attempts : List Attempt) : String :=
  pyJoin "; " ((attempts.filter (fun a => !a.success)).map failureReasonText)

/-- The two terminal failures of `run` (orchestrator.py lines 106-117);
the quality message's `%.3f` formatting is carried as the raw scores. -/
inductive RunFailure where
  | extractionFailed (message : String)
  | qualityBelowThreshold (score minimum : ℚ)
deriving DecidableEq, Repr

/-- `ExtractionDecision` (models.py); `duration_seconds` is wall-clock
bookkeeping and is not modelled. -/
structure ExtractionDecision where
  candidate : ExtractionCandidate
  attempts : List Attempt
deriving DecidableEq, Repr

/-- `WebDocumentExtractionOrchestrator.run` after URL validation and
context construction, as a function of the strategies' outcomes
(orchestrator.py lines 60-124). -/
def orchestratorRun (cfg : OrchestratorConfig) (outcomes : List StrategyOutcome) :
    Except RunFailure ExtractionDecision :=
  match (orchLoop cfg outcomes none).2 with
  | none =>
    .error (.extractionFailed
      ("Failed to extract readable article content. " ++
        joinFailureReasons (orchLoop cfg outcomes none).1))
  | some best =>
    if best.qualityScore < cfg.minimumAcceptableScore then
      .error (.qualityBelowThreshold best.qualityScore cfg.minimumAcceptableScore)
    else
      .ok { candidate := best, attempts := (orchLoop cfg outcomes none).1 }

/-- Whether one strategy outcome triggers the early-accept break of the
strategy loop (orchestrator.py lines 86-88). -/
def acceptsAt (cfg : OrchestratorConfig) (o : StrategyOutcome) : Bool :=
  match o.2 with
  | .ok c => decide (cfg.acceptanceThreshold ≤ (score_candidate c).score)
  | .error _ => false

/-- The running best candidate after folding the strict-improvement
update over a list of processed outcomes (orchestrator.py lines
79-91). -/
def orchFoldBest (best0 : Option ExtractionCandidate) :
    List StrategyOutcome → Option ExtractionCandidate
  | [] => best0
  | o :: rest =>
    match o.2 with
    | .ok c => orchFoldBest (bestAfter best0 c) rest
    | .error _ => orchFoldBest best0 rest

/-! ## Fetcher predicates (`fetcher.py`) -/

/-- `BINARY_CONTENT_TYPE_MARKERS` (fetcher.py). -/
def binaryContentTypeMarkers : List String :=
  ["application/pdf", "application/octet-stream", "application/zip",
   "application/x-zip", "application/x-gzip", "application/gzip",
   "image/", "audio/", "video/"]

/-- `FetchedPage` (models.py); `status_code` and `headers` are not
consumed by the modelled strategies. -/
structure FetchedPage where
  requestedUrl : String
  finalUrl : String
  contentType : String
  payload : String
deriving DecidableEq, Repr

/-- `is_binary_content_type` (fetcher.py). -/
def is_binary_content_type (contentType : String) : Bool :=
  let lowered := pyLower contentType
  binaryContentTypeMarkers.any (fun marker => pyContains lowered marker)

/-- Blocked-page markers of `is_probably_blocked_page` (fetcher.py). -/
def blockedPageMarkers : List String :=
  ["captcha", "verify you are human", "access denied", "request blocked",
   "cloudflare", "robot check", "are you a robot"]

/-- `is_probably_blocked_page` (fetcher.py). -/
def is_probably_blocked_page (payload contentType : String) : Bool :=
  let lowered := pyLower payload
  if ¬pyContains contentType "text/html" ∧ ¬pyContains lowered "<html" then false
  else blockedPageMarkers.any (fun marker => pyContains lowered marker)

/-! ## URL parsing (CPython `urllib.parse`, the parts the sources use) -/

/-- Index of the first element satisfying `p`, Python `str.find` style. -/
def findIdxOpt {α : Type} (p : α → Bool) : List α → Option Nat
  | [] => none
  | c :: rest =>
    if p c then some 0 else (findIdxOpt p rest).map (· + 1)

/-- Result shape of `urllib.parse.urlparse`. -/
structure UrlParts where
  scheme : String := ""
  netloc : String := ""
  path : String := ""
  params : String := ""
  query : String := ""
  fragment : String := ""
deriving DecidableEq, Repr

def schemeChar (c : Char) : Bool :=
  c.isAlphanum || c == '+' || c == '-' || c == '.'

/-- Python `str.partition(sep)` for a single-character separator. -/
def pyPartitionChar (sep : Char) (l : List Char) : List Char × Bool × List Char :=
  match findIdxOpt (· == sep) l with
  | none => (l, false, [])
  | some i => (l.take i, true, l.drop (i + 1))

/-- Python `str.rpartition(sep)` for a single-character separator. -/
def pyRpartitionChar (sep : Char) (l : List Char) : List Char × Bool × List Char :=
  let (a, found, b) := pyPartitionChar sep l.reverse
  if found then (b.reverse, true, a.reverse) else ([], false, l)

/-- `urllib.parse.urlsplit` restricted to what the sources consume
(scheme, netloc, path/query/fragment split); the WHATWG pre-strip of
control characters and removal of tab/CR/LF are included. -/
def pyUrlsplit (url : String) : UrlParts :=
  let cleaned := (url.data.dropWhile (fun c => c.toNat ≤ 0x20)).filter
    (fun c => !(c == '\t' || c == '\r' || c == '\n'))
  let (scheme, rest) :=
    match findIdxOpt (· == ':') cleaned with
    | some i =>
      if 0 < i ∧ (cleaned.take 1).all (fun c => c.toNat < 128 ∧ c.isAlpha) ∧
          (cleaned.take i).all schemeChar then
        (((cleaned.take i).map Char.toLower), cleaned.drop (i + 1))
      else ([], cleaned)
    | none => ([], cleaned)
  let (netloc, rest) :=
    if "//".data.isPrefixOf rest then
      let after := rest.drop 2
      let n := after.takeWhile (fun c => !(c == '/' || c == '?' || c == '#'))
      (n, after.drop n.length)
    else ([], rest)
  let (rest, fragment) :=
    match findIdxOpt (· == '#') rest with
    | some i => (rest.take i, rest.drop (i + 1))
    | none => (rest, [])
  let (rest, query) :=
    match findIdxOpt (· == '?') rest with
    | some i => (rest.take i, rest.drop (i + 1))
    | none => (rest, [])
  { scheme := ⟨scheme⟩, netloc := ⟨netloc⟩, path := ⟨rest⟩,
    query := ⟨query⟩, fragment := ⟨fragment⟩ }

/-- `urllib.parse.urlparse`: `urlsplit` plus the `;params` split on the
last path segment. -/
def pyUrlparse (url : String) : UrlParts :=
  let s := pyUrlsplit url
  let path := s.path.data
  if path.contains ';' then
    let searchFrom :=
      match findIdxOpt (· == '/') path.reverse with
      | some ri => path.length - ri - 1
      | none => 0
    match findIdxOpt (· == ';') (path.drop searchFrom) with
    | some j =>
      let i := searchFrom + j
      { s with path := ⟨path.take i⟩, params := ⟨path.drop (i + 1)⟩ }
    | none => s
  else s

/-- The `hostname` property of a parse result: part of the netloc after
the userinfo, inside brackets when present, before the port,
lower-cased; the empty string stands for Python `None`. -/
def urlHostname (parts : UrlParts) : String :=
  let hostinfo := (pyRpartitionChar '@' parts.netloc.data).2.2
  let (beforeBr, haveBr, bracketed) := pyPartitionChar '[' hostinfo
  if haveBr then
    ⟨((pyPartitionChar ']' bracketed).1.map Char.toLower)⟩
  else
    ⟨((pyPartitionChar ':' hostinfo).1.map Char.toLower)⟩

/-- The `port` property: digits after the final `:` of the host part;
`none` both for an absent and (deviating from Python, which raises) for
a malformed port. -/
def urlPort (parts : UrlParts) : Option Nat :=
  let hostinfo := (pyRpartitionChar '@' parts.netloc.data).2.2
  let (beforeBr, haveBr, bracketed) := pyPartitionChar '[' hostinfo
  let portStr :=
    if haveBr then
      (pyPartitionChar ':' (pyPartitionChar ']' bracketed).2.2).2.2
    else
      (pyPartitionChar ':' hostinfo).2.2
  if portStr ≠ [] ∧ portStr.all Char.isDigit then
    let n := digitsToNat portStr
    if n ≤ 65535 then some n else none
  else none

/-- `urllib.parse.urlunsplit`. -/
def pyUrlunsplit (scheme netloc path query fragment : String) : String :=
  let url₁ :=
    if netloc ≠ "" ∨ "//".data.isPrefixOf path.data then
      "//" ++ netloc ++
        (if path ≠ "" ∧ ¬"/".data.isPrefixOf path.data then "/" ++ path else path)
    else path
  let url₂ := if scheme ≠ "" then scheme ++ ":" ++ url₁ else url₁
  let url₃ := if query ≠ "" then url₂ ++ "?" ++ query else url₂
  if fragment ≠ "" then url₃ ++ "#" ++ fragment else url₃

/-- `urllib.parse.urlunparse`. -/
def pyUrlunparse (scheme netloc path params query fragment : String) : String :=
  let url := if params ≠ "" then path ++ ";" ++ params else path
  pyUrlunsplit scheme netloc url query fragment

/-- Oracle type for the stdlib `urllib.parse.urljoin`
(base, url ↦ joined). -/
abbrev UrlJoinFn := String → String → String

/-! ## HTML utilities (`html_utils.py`): fixed-pattern scanners -/

/-- Case-insensitive prefix test against an already lower-cased
pattern. -/
def ciHasPrefix (lowPat : List Char) (l : List Char) : Bool :=
  lowPat.isPrefixOf ((l.take lowPat.length).map Char.toLower)

/-- Index of the first case-insensitive occurrence of `lowPat`. -/
def ciFindSub (lowPat : List Char) : List Char → Option Nat
  | [] => if lowPat.isEmpty then some 0 else none
  | c :: rest =>
    if ciHasPrefix lowPat (c :: rest) then some 0
    else (ciFindSub lowPat rest).map (· + 1)

/-- Python regex `\w` (ASCII part). -/
def isWordChar (c : Char) : Bool := c.isAlphanum || c == '_'

/-- Try to match an opening tag `<name[^>]*>` for one of the given
lower-cased names right after a `<` (with a `\b` boundary after the name
when `requireBoundary`); returns the matched name and the number of
characters of `rest` consumed through the closing `>`. -/
def tryOpenTag (names : List (List Char)) (requireBoundary : Bool)
    (rest : List Char) : Option (List Char × Nat) :=
  names.firstM (fun name =>
    if ciHasPrefix name rest then
      let after := rest.drop name.length
      if requireBoundary ∧ (after.head?.map isWordChar).getD false then none
      else
        let attrs := after.takeWhile (· != '>')
        if (after.drop attrs.length).head? = some '>' then
          some (name, name.length + attrs.length + 1)
        else none
    else none)

/-- One pass of
`re.sub(r"<(script|style|svg|noscript)\b[^>]*>.*?</\1>", " ", html)`
(IGNORECASE | DOTALL): drop whole script/style/svg/noscript elements. -/
def stripBlockPairsF : Nat → List Char → List Char
  | 0, l => l
  | _ + 1, [] => []
  | fuel + 1, c :: rest =>
    if c == '<' then
      match tryOpenTag
          ["script".data, "style".data, "svg".data, "noscript".data] true rest with
      | some (name, k) =>
        let closing := ('<' :: '/' :: name) ++ ['>']
        match ciFindSub closing (rest.drop k) with
        | some i => ' ' :: stripBlockPairsF fuel (rest.drop (k + i + closing.length))
        | none => c :: stripBlockPairsF fuel rest
      | none => c :: stripBlockPairsF fuel rest
    else
      c :: stripBlockPairsF fuel rest

def stripBlockPairs (l : List Char) : List Char := stripBlockPairsF l.length l

/-- `re.sub(r"<!--.*?-->", " ", html)` (DOTALL). -/
def stripCommentsF : Nat → List Char → List Char
  | 0, l => l
  | _ + 1, [] => []
  | fuel + 1, c :: rest =>
    if c == '<' ∧ "!--".data.isPrefixOf rest then
      match ciFindSub "-->".data (rest.drop 3) with
      | some i => ' ' :: stripCommentsF fuel (rest.drop (3 + i + 3))
      | none => c :: stripCommentsF fuel rest
    else
      c :: stripCommentsF fuel rest

def stripComments (l : List Char) : List Char := stripCommentsF l.length l

/-- The closing tag names of the line-break substitution
`</(p|div|li|h\d|br|tr|section|article|main|blockquote|pre)>`. -/
def isBlockCloseName (l : List Char) : Bool :=
  ["p", "div", "li", "br", "tr", "section", "article", "main",
    "blockquote", "pre"].any (fun s => s.data == l) ||
  (match l with
   | ['h', d] => d.isDigit
   | _ => false)

/-- `re.sub(r"</(p|div|...|pre)>", "\n", html)` (IGNORECASE). -/
def closingToNewlineF : Nat → List Char → List Char
  | 0, l => l
  | _ + 1, [] => []
  | fuel + 1, c :: rest =>
    if c == '<' ∧ rest.head? = some '/' then
      let inner := rest.drop 1
      let body := inner.takeWhile (· != '>')
      if (inner.drop body.length).head? = some '>' ∧
          isBlockCloseName (body.map Char.toLower) then
        '\n' :: closingToNewlineF fuel (inner.drop (body.length + 1))
      else
        c :: closingToNewlineF fuel rest
    else
      c :: closingToNewlineF fuel rest

def closingToNewline (l : List Char) : List Char := closingToNewlineF l.length l

/-- `re.sub(r"<[^>]+>", " ", html)`. -/
def tagsToSpaceF : Nat → List Char → List Char
  | 0, l => l
  | _ + 1, [] => []
  | fuel + 1, c :: rest =>
    if c == '<' then
      let body := rest.takeWhile (· != '>')
      if body ≠ [] ∧ (rest.drop body.length).head? = some '>' then
        ' ' :: tagsToSpaceF fuel (rest.drop (body.length + 1))
      else
        c :: tagsToSpaceF fuel rest
    else
      c :: tagsToSpaceF fuel rest

def tagsToSpace (l : List Char) : List Char := tagsToSpaceF l.length l

/-- `strip_html_to_text` (html_utils.py). -/
def strip_html_to_text (pageHtml : String) : String :=
  normalize_text_preserve_paragraphs
    ⟨tagsToSpace (closingToNewline (stripComments (stripBlockPairs pageHtml.data)))⟩

/-- The inner text of the first `<title[^>]*>(.*?)</title>` match. -/
def findTitleInner : List Char → Option (List Char)
  | [] => none
  | c :: rest =>
    if c == '<' ∧ ciHasPrefix "title".data rest then
      let after := rest.drop 5
      let attrs := after.takeWhile (· != '>')
      if (after.drop attrs.length).head? = some '>' then
        let body := after.drop (attrs.length + 1)
        match ciFindSub "</title>".data body with
        | some i => some (body.take i)
        | none => none
      else none
    else findTitleInner rest

/-- `extract_title` (html_utils.py). -/
def extract_title (pageHtml : String) : Option String :=
  match findTitleInner pageHtml.data with
  | none => none
  | some inner =>
    let value := normalize_whitespace ⟨htmlUnescapeL inner⟩
    if value = "" then none else some value

/-- Try an `<article|main>` (or `<p>`) container match at a `<`; returns
(inner body, full match, consumed length of `rest`). -/
def tryContainerAt (name : List Char) (rest : List Char) :
    Option (List Char × List Char × Nat) :=
  match tryOpenTag [name] false rest with
  | none => none
  | some (_, k) =>
    let closing := ('<' :: '/' :: name) ++ ['>']
    match ciFindSub closing (rest.drop k) with
    | some i =>
      let inner := (rest.drop k).take i
      let consumed := k + i + closing.length
      some (inner, '<' :: rest.take consumed, consumed)
    | none => none

/-- All matches of `ARTICLE_CONTAINER_REGEX`
(`<(article|main)[^>]*>(.*?)</\1>`): the group-2 inner bodies, in
document order. -/
def articleMainBodiesF : Nat → List Char → List (List Char)
  | 0, _ => []
  | _ + 1, [] => []
  | fuel + 1, c :: rest =>
    if c == '<' then
      match tryContainerAt "article".data rest with
      | some (inner, _, k) => inner :: articleMainBodiesF fuel (rest.drop k)
      | none =>
        match tryContainerAt "main".data rest with
        | some (inner, _, k) => inner :: articleMainBodiesF fuel (rest.drop k)
        | none => articleMainBodiesF fuel rest
    else articleMainBodiesF fuel rest

def articleMainBodies (l : List Char) : List (List Char) :=
  articleMainBodiesF l.length l

/-- The group-1 body of the first `BODY_REGEX` match
(`<body[^>]*>(.*?)</body>`). -/
def findBodyInner : List Char → Option (List Char)
  | [] => none
  | c :: rest =>
    if c == '<' ∧ ciHasPrefix "body".data rest then
      let after := rest.drop 4
      let attrs := after.takeWhile (· != '>')
      if (after.drop attrs.length).head? = some '>' then
        let body := after.drop (attrs.length + 1)
        match ciFindSub "</body>".data body with
        | some i => some (body.take i)
        | none => none
      else none
    else findBodyInner rest

/-- All full matches of `PARAGRAPH_REGEX` (`<p[^>]*>.*?</p>`). -/
def paragraphMatchesF : Nat → List Char → List (List Char)
  | 0, _ => []
  | _ + 1, [] => []
  | fuel + 1, c :: rest =>
    if c == '<' then
      match tryContainerAt "p".data rest with
      | some (_, full, k) => full :: paragraphMatchesF fuel (rest.drop k)
      | none => paragraphMatchesF fuel rest
    else paragraphMatchesF fuel rest

def paragraphMatches (l : List Char) : List (List Char) :=
  paragraphMatchesF l.length l

/-- `extract_primary_html_candidates` (html_utils.py). -/
def extract_primary_html_candidates (pageHtml : String) : List String :=
  let tl := pageHtml.data
  let fromContainers :=
    (articleMainBodies tl).filterMap (fun inner =>
      let fragment := pyStripL inner
      if fragment ≠ [] then some (String.mk fragment) else none)
  let withBody :=
    match findBodyInner tl with
    | some inner => if inner ≠ [] then fromContainers ++ [String.mk inner]
        else fromContainers
    | none => fromContainers
  let paragraphBlock := List.intercalate ['\n'] (paragraphMatches tl)
  let withParagraphs :=
    if paragraphBlock ≠ [] then withBody ++ [String.mk paragraphBlock] else withBody
  if withParagraphs = [] then [pageHtml] else withParagraphs

/-- Quote characters of the canonical-link regex. -/
def isQuoteChar (c : Char) : Bool := c.toNat == 34 || c.toNat == 39

/-- Does `rel=["']canonical["']` match at the head of `l`?
(15 characters; the two quotes are independent). -/
def matchRelCanonical (l : List Char) : Bool :=
  ciHasPrefix "rel=".data l &&
  ((l.drop 4).head?.map isQuoteChar).getD false &&
  ciHasPrefix "canonical".data (l.drop 5) &&
  ((l.drop 14).head?.map isQuoteChar).getD false

/-- Does `href=["']` match at the head of `l`? (6 characters). -/
def matchHrefQuote (l : List Char) : Bool :=
  ciHasPrefix "href=".data l &&
  ((l.drop 5).head?.map isQuoteChar).getD false

/-- The `[^>]*href=["\']([^"\']+)["\']` tail of `CANONICAL_REGEX`,
starting at `l`; greedy `[^>]*`, so the latest viable `href=` wins. -/
def hrefCaptureFrom (l : List Char) : Option (List Char) :=
  let nonGt := l.takeWhile (· != '>')
  (List.range (nonGt.length + 1)).reverse.firstM (fun j =>
    if matchHrefQuote (l.drop j) then
      let afterQuote := l.drop (j + 6)
      let cap := afterQuote.takeWhile (fun c => !isQuoteChar c)
      if cap ≠ [] ∧ ((afterQuote.drop cap.length).head?.map isQuoteChar).getD false
      then some cap else none
    else none)

/-- The `[^>]+rel=["\']canonical["\']…` part of `CANONICAL_REGEX`,
starting just after `<link`; greedy `[^>]+` (length at least one), so
the latest viable `rel=` wins, backtracking to earlier ones. -/
def canonicalHrefAfterLink (rest : List Char) : Option (List Char) :=
  let nonGt := rest.takeWhile (· != '>')
  (List.range (nonGt.length + 1)).reverse.firstM (fun i =>
    if 1 ≤ i ∧ matchRelCanonical (rest.drop i) then
      hrefCaptureFrom (rest.drop (i + 15))
    else none)

/-- The group-1 capture of the first `CANONICAL_REGEX` match
(`<link[^>]+rel=["\']canonical["\'][^>]*href=["\']([^"\']+)["\']`). -/
def findCanonicalHref : List Char → Option (List Char)
  | [] => none
  | c :: rest =>
    if c == '<' ∧ ciHasPrefix "link".data rest then
      match canonicalHrefAfterLink (rest.drop 4) with
      | some cap => some cap
      | none => findCanonicalHref rest
    else findCanonicalHref rest

/-- `_resolve_url_without_fragment` (html_utils.py); `uj` is the
`urljoin` oracle. -/
def resolveUrlWithoutFragment (uj : UrlJoinFn) (url fallbackUrl : String) : String :=
  let baseUrl := if pyStrip fallbackUrl ≠ "" then pyStrip fallbackUrl else pyStrip url
  let resolvedUrl := uj baseUrl (if pyStrip url ≠ "" then pyStrip url else fallbackUrl)
  let parsed := pyUrlparse resolvedUrl
  pyUrlunparse parsed.scheme parsed.netloc parsed.path parsed.params parsed.query ""

/-- `ARXIV_HTML_PATH_REGEX` (`^/html/(?P<identifier>[^/?#]+)$`,
IGNORECASE), as a full-path match. -/
def arxivHtmlPathId (path : String) : Option String :=
  if ciHasPrefix "/html/".data path.data then
    let idPart := path.data.drop 6
    if idPart ≠ [] ∧ idPart.all (fun c => !(c == '/' || c == '?' || c == '#')) then
      some ⟨idPart⟩
    else none
  else none

/-- `ARXIV_VERSION_SUFFIX_REGEX.search` (`v\d+$`, IGNORECASE). -/
def hasVersionSuffix (s : String) : Bool :=
  let r := s.data.reverse
  let ds := r.takeWhile Char.isDigit
  ds ≠ [] && (((r.drop ds.length).head?.map (fun c => c.toLower == 'v')).getD false)

/-- `ARXIV_VERSION_SUFFIX_REGEX.sub("", s)`. -/
def stripVersionSuffix (s : String) : String :=
  if hasVersionSuffix s then
    ⟨((s.data.reverse.dropWhile Char.isDigit).drop 1).reverse⟩
  else s

/-- Characters allowed in an `ARXIV_HTML_REFERENCE_REGEX` identifier
(`[^"'\s<>?#]`). -/
def arxivRefIdChar (c : Char) : Bool :=
  !(isQuoteChar c || isPySpace c || c == '<' || c == '>' || c == '?' || c == '#')

/-- All identifier captures of `ARXIV_HTML_REFERENCE_REGEX.finditer`
(`/html/(?P<identifier>[^"'\s<>?#]+)`, IGNORECASE). -/
def arxivRefIdsF : Nat → List Char → List String
  | 0, _ => []
  | _ + 1, [] => []
  | fuel + 1, c :: rest =>
    if ciHasPrefix "/html/".data (c :: rest) then
      let ident := (rest.drop 5).takeWhile arxivRefIdChar
      if ident ≠ [] then
        String.mk ident :: arxivRefIdsF fuel ((rest.drop 5).drop ident.length)
      else arxivRefIdsF fuel rest
    else arxivRefIdsF fuel rest

def arxivRefIds (l : List Char) : List String := arxivRefIdsF l.length l

/-- Python `str.endswith`. -/
def pyEndsWith (s suffixStr : String) : Bool :=
  suffixStr.data.isSuffixOf s.data

/-- `_normalize_arxiv_canonical_url` (html_utils.py). -/
def normalizeArxivCanonicalUrl (pageHtml fallbackUrl : String) : String :=
  let parsed := pyUrlparse fallbackUrl
  let host := pyStrip (pyLower parsed.netloc)
  if host ≠ "arxiv.org" ∧ ¬pyEndsWith host ".arxiv.org" then fallbackUrl
  else
    match arxivHtmlPathId parsed.path with
    | none => fallbackUrl
    | some ident =>
      let currentIdentifier := pyStrip ident
      if currentIdentifier = "" then fallbackUrl
      else if hasVersionSuffix currentIdentifier then
        pyUrlunparse parsed.scheme parsed.netloc parsed.path "" "" ""
      else
        let currentBase := stripVersionSuffix currentIdentifier
        let versioned := (arxivRefIds pageHtml.data).find? (fun cand =>
          let c := pyStrip cand
          c ≠ "" && stripVersionSuffix c == currentBase && hasVersionSuffix c)
        match versioned with
        | some cand =>
          pyUrlunparse parsed.scheme parsed.netloc ("/html/" ++ pyStrip cand) "" "" ""
        | none => fallbackUrl

/-- `extract_canonical_url` (html_utils.py). -/
def extract_canonical_url (uj : UrlJoinFn) (pageHtml fallbackUrl : String) : String :=
  let resolvedUrl :=
    match findCanonicalHref pageHtml.data with
    | some cap =>
      let value := pyStrip ⟨cap⟩
      resolveUrlWithoutFragment uj (if value ≠ "" then value else fallbackUrl) fallbackUrl
    | none => resolveUrlWithoutFragment uj fallbackUrl fallbackUrl
  normalizeArxivCanonicalUrl pageHtml resolvedUrl

/-- `build_reader_blocks` (html_utils.py). -/
def build_reader_blocks (rawContent : String) : List ReaderBlock :=
  let normalized := normalize_text_preserve_paragraphs rawContent
  if normalized = "" then []
  else
    let chunks := ((splitParagraphPieces normalized).map pyStrip).filter (· ≠ "")
    (List.enumFrom 1 chunks).map (fun p =>
      let chunk := p.2
      let isHeadingLike :=
        chunk.length ≤ 90 ∧
        ¬".".data.isSuffixOf chunk.data ∧
        ¬"!".data.isSuffixOf chunk.data ∧
        ¬"?".data.isSuffixOf chunk.data
      { bid := "b" ++ toString p.1
        btype := if isHeadingLike then "heading" else "paragraph"
        text := chunk })

/-! ## Rule store (`rules_store.py`), as the in-memory state guarded by
the exclusive file lock; every mutation is modelled as a pure
read-modify-write of `RuleStoreState`. -/

/-- A replay sample entry (`record_replay_sample`). -/
structure ReplaySample where
  url : String
  contentType : String
  payload : String
  capturedAt : ℚ
deriving DecidableEq, Repr

/-- `AdaptiveRule` (llm_adaptive.py). -/
structure AdaptiveRule where
  host : String
  containerRegexes : List String
  dropTextPatterns : List String
  confidence : ℚ
  model : String
  generatedAt : ℚ
deriving DecidableEq, Repr

/-- The promotion evaluation dict built by `evaluate_and_promote_rule`
(llm_adaptive.py lines 347-355). -/
structure PromotionEvaluation where
  promoted : Bool
  sampleCount : Nat
  successful : Nat
  errors : Nat
  successRate : ℚ
  avgScore : ℚ
  evaluatedAt : ℚ
deriving DecidableEq, Repr

/-- The adapter payload written by a promotion
(llm_adaptive.py lines 358-370), with the `host` / `promoted_at` fields
stamped by `save_promoted_adapter` (rules_store.py lines 118-122). -/
structure PromotedAdapter where
  name : String
  hostSuffixes : List String
  containerRegexes : List String
  dropTextPatterns : List String
  sourceModel : String
  sourceConfidence : ℚ
  generatedAt : ℚ
  evaluation : PromotionEvaluation
  host : String := ""
  promotedAt : ℚ := 0
deriving DecidableEq, Repr

/-- The JSON state of the rule store (`_default_state`,
rules_store.py); dicts become association lists with unique keys. -/
structure RuleStoreState where
  version : Nat := 1
  generatedRules : List (String × AdaptiveRule) := []
  promotedAdapters : List (String × PromotedAdapter) := []
  replaySamples : List (String × List ReplaySample) := []
deriving DecidableEq, Repr

/-- Python dict lookup on an association list (first matching key). -/
def assocFind {β : Type} (m : List (String × β)) (key : String) : Option β :=
  (m.find? (fun p => p.1 == key)).map (·.2)

/-- Python dict assignment `d[key] = value`: replace in place, else
append. -/
def assocSet {β : Type} (m : List (String × β)) (key : String) (value : β) :
    List (String × β) :=
  if m.any (fun p => p.1 == key) then
    m.map (fun p => if p.1 == key then (key, value) else p)
  else m ++ [(key, value)]

/-- `(host or "").strip().lower()`, as used throughout
rules_store.py / llm_adaptive.py. -/
def hostKey (host : String) : String := pyLower (pyStrip host)

/-- `get_promoted_adapter_for_host` (rules_store.py): direct hit first,
then a suffix match over the stored keys in order. -/
def get_promoted_adapter_for_host (state : RuleStoreState) (host : String) :
    Option PromotedAdapter :=
  let lowered := hostKey host
  if lowered = "" then none
  else
    match assocFind state.promotedAdapters lowered with
    | some direct => some direct
    | none =>
      (state.promotedAdapters.find? (fun p =>
        lowered == p.1 || pyEndsWith lowered ("." ++ p.1))).map (·.2)

/-- `save_promoted_adapter` (rules_store.py); `now` models
`time.time()` for the `promoted_at` stamp. -/
def save_promoted_adapter (now : ℚ) (state : RuleStoreState) (host : String)
    (adapterPayload : PromotedAdapter) : RuleStoreState :=
  let lowered := hostKey host
  if lowered = "" then state
  else
    let promotedPayload := { adapterPayload with host := lowered, promotedAt := now }
    { state with
      promotedAdapters := assocSet state.promotedAdapters lowered promotedPayload }

/-- Replay bounds of rules_store.py
(`REPLAY_MAX_SAMPLES_PER_HOST`, `REPLAY_MAX_HTML_CHARS`). -/
structure ReplayConfig where
  maxSamplesPerHost : Nat := 20
  maxHtmlChars : Nat := 120000
deriving DecidableEq, Repr

/-- `record_replay_sample` (rules_store.py). -/
def record_replay_sample (cfg : ReplayConfig) (now : ℚ) (state : RuleStoreState)
    (host url contentType payload : String) : RuleStoreState :=
  let lowered := hostKey host
  if lowered = "" then state
  else
    let sample : ReplaySample :=
      { url := url, contentType := contentType,
        payload := pySlice payload cfg.maxHtmlChars, capturedAt := now }
    let samples := ((assocFind state.replaySamples lowered).getD []) ++ [sample]
    let trimmed :=
      if cfg.maxSamplesPerHost < samples.length then
        samples.drop (samples.length - cfg.maxSamplesPerHost)
      else samples
    { state with replaySamples := assocSet state.replaySamples lowered trimmed }

/-- `get_replay_samples` (rules_store.py): the newest `limit` samples
(`samples[-limit:]`), everything when `limit` is absent or
non-positive. -/
def get_replay_samples (state : RuleStoreState) (host : String)
    (limit : Option Nat) : List ReplaySample :=
  let lowered := hostKey host
  if lowered = "" then []
  else
    let samples := (assocFind state.replaySamples lowered).getD []
    match limit with
    | none => samples
    | some n => if n = 0 then samples else samples.drop (samples.length - n)

/-! ## LLM-adaptive rule application and promotion (`llm_adaptive.py`) -/

/-- Oracle bundle for the stdlib `re` module applied to *data-supplied*
patterns in `apply_rule`:
`findFragments pattern payload` is `none` when `re.finditer` raises
`re.error`, otherwise the list, per match of
`re.finditer(pattern, payload, re.IGNORECASE | re.DOTALL)`, of
`match.group(1) if match.lastindex else match.group(0)`;
`subEmpty pattern text` is `none` on `re.error`, otherwise
`re.sub(pattern, "", text, flags=re.IGNORECASE)`. -/
structure ReOracles where
  findFragments : String → String → Option (List String)
  subEmpty : String → String → Option String

/-- Python `max(strings, key=len)` on a non-empty list: the first
element of maximal length. -/
def maxByLenFirst : List String → String
  | [] => ""
  | x :: xs => xs.foldl (fun best s => if best.length < s.length then s else best) x

/-- Promotion thresholds of llm_adaptive.py
(`LLM_PROMOTION_*` configuration, with their defaults). -/
structure PromotionConfig where
  enabled : Bool := true
  minSamples : Nat := 3
  maxSamples : Nat := 6
  minSuccessRate : ℚ := 8/10
  minAvgScore : ℚ := 72/100
  minSampleScore : ℚ := 60/100
deriving DecidableEq, Repr

def defaultPromotionConfig : PromotionConfig := {}

/-- `apply_rule` (llm_adaptive.py). -/
def apply_rule (reo : ReOracles) (uj : UrlJoinFn)
    (url payload contentType : String) (rule : AdaptiveRule)
    (generated : Bool) (maxChars : Nat) : Except String ExtractionCandidate :=
  let fragments := rule.containerRegexes.foldl (fun acc pattern =>
    match reo.findFragments pattern payload with
    | none => acc
    | some frs => acc ++ frs.filterMap (fun f =>
        let g := pyStrip f
        if g ≠ "" then some g else none)) []
  if fragments = [] then
    .error "LLM rule produced no matching content fragments."
  else
    let textCandidates := fragments.map strip_html_to_text
    let rawContent0 := pyStrip (maxByLenFirst textCandidates)
    let rawContent1 := rule.dropTextPatterns.foldl (fun cur pattern =>
      match reo.subEmpty pattern cur with
      | none => cur
      | some r => r) rawContent0
    let rawContent := normalize_text_preserve_paragraphs rawContent1
    if rawContent.length < 120 then
      .error "LLM rule content too short."
    else
      let canonicalUrl := extract_canonical_url uj payload url
      let title := extract_title payload
      let host := (pyUrlparse (if canonicalUrl ≠ "" then canonicalUrl else url)).netloc
      .ok
        { strategyName :=
            if generated then "llm_adaptive_generated" else "llm_adaptive_cached"
          url := url
          canonicalUrl := canonicalUrl
          title := title
          contentFormat := "text"
          rawContent := pySlice rawContent maxChars
          extractionMeta :=
            [("method", .str "llm_adaptive"), ("host", .str host),
             ("content_type", .str contentType),
             ("rule_confidence", .num rule.confidence),
             ("rule_model", .str rule.model),
             ("rule_generated", .flag generated)]
          blocks := build_reader_blocks rawContent }

/-- The result of `evaluate_and_promote_rule`, one constructor per
return-dict shape (llm_adaptive.py lines 298-371). -/
inductive PromotionOutcome where
  | invalidHost
  | promotionDisabled
  | alreadyPromoted
  | insufficientSamples (sampleCount : Nat)
  | evaluated (e : PromotionEvaluation)
deriving DecidableEq, Repr

/-- The evaluation record computed by `evaluate_and_promote_rule` over
the replay samples (llm_adaptive.py lines 318-355): replay each sample
through `apply_rule`, score the successes, and compare the success rate
and average score with the thresholds. -/
def promotionEvaluation (cfg : PromotionConfig) (reo : ReOracles)
    (uj : UrlJoinFn) (now : ℚ) (rule : AdaptiveRule) (maxChars : Nat)
    (samples : List ReplaySample) : PromotionEvaluation :=
  let results := samples.map (fun sample =>
    apply_rule reo uj sample.url sample.payload sample.contentType rule
      false maxChars)
  let scores := results.filterMap (fun r =>
    match r with
    | .ok c => some (score_candidate c).score
    | .error _ => none)
  let successful := scores.countP (fun s => decide (cfg.minSampleScore ≤ s))
  let errorCount := results.countP (fun r =>
    match r with
    | .error _ => true
    | .ok _ => false)
  let sampleCount := samples.length
  let successRate := (successful : ℚ) / (max 1 sampleCount : ℚ)
  let avgScore := if scores ≠ [] then scores.sum / (scores.length : ℚ) else 0
  { promoted :=
      decide (cfg.minSuccessRate ≤ successRate) &&
      decide (cfg.minAvgScore ≤ avgScore)
    sampleCount := sampleCount, successful := successful,
    errors := errorCount, successRate := successRate, avgScore := avgScore,
    evaluatedAt := now }

/-- `evaluate_and_promote_rule` (llm_adaptive.py), returning the
evaluation outcome together with the (possibly) updated store state. -/
def evaluate_and_promote_rule (cfg : PromotionConfig) (reo : ReOracles)
    (uj : UrlJoinFn) (now : ℚ) (state : RuleStoreState) (host : String)
    (rule : AdaptiveRule) (maxChars : Nat) :
    PromotionOutcome × RuleStoreState :=
  let lowered := hostKey host
  if lowered = "" then (.invalidHost, state)
  else if ¬cfg.enabled then (.promotionDisabled, state)
  else if (get_promoted_adapter_for_host state lowered).isSome then
    (.alreadyPromoted, state)
  else
    let samples := get_replay_samples state lowered (some cfg.maxSamples)
    if samples.length < cfg.minSamples then
      (.insufficientSamples samples.length, state)
    else
      let evaluation :=
        promotionEvaluation cfg reo uj now rule maxChars samples
      if evaluation.promoted then
        (.evaluated evaluation,
         save_promoted_adapter now state lowered
           { name := "llm-promoted:" ++ lowered
             hostSuffixes := [lowered]
             containerRegexes := rule.containerRegexes
             dropTextPatterns := rule.dropTextPatterns
             sourceModel := rule.model
             sourceConfidence := rule.confidence
             generatedAt := rule.generatedAt
             evaluation := evaluation })
      else (.evaluated evaluation, state)

/-! ## URL safety guard (`safety.py`), over a model of the CPython
`ipaddress` module (version 3.11 semantics). -/

/-- An IP address as parsed by `ipaddress.ip_address`: the version tag
plus the numeric value. -/
inductive IpAddr where
  | v4 (n : Nat)
  | v6 (n : Nat)
deriving DecidableEq, Repr

/-- Is `addr` in the network `base/prefixLen` of an address family with
`bits` total bits? -/
def inNet (bits : Nat) (base prefixLen addr : Nat) : Bool :=
  addr >>> (bits - prefixLen) == base >>> (bits - prefixLen)

/-- Shorthand for a numeric IPv4 address. -/
def v4Addr (a b c d : Nat) : Nat := ((a * 256 + b) * 256 + c) * 256 + d

/-- One IPv4 dotted-quad octet (CPython ≥ 3.9: one to three ASCII
digits, no leading zero, value at most 255). -/
def parseOctet (part : List Char) : Option Nat :=
  if part ≠ [] ∧ part.length ≤ 3 ∧ part.all Char.isDigit ∧
      (part.head? ≠ some '0' ∨ part.length = 1) then
    let n := digitsToNat part
    if n ≤ 255 then some n else none
  else none

/-- `IPv4Address` parsing from a string (dotted quad). -/
def parseIPv4 (s : String) : Option Nat :=
  match (s.data.splitOnP (· == '.')).mapM parseOctet with
  | some [a, b, c, d] => some (v4Addr a b c d)
  | _ => none

/-- Numeric value of a hexadecimal digit. -/
def hexDigitVal (c : Char) : Nat :=
  if c.isDigit then c.toNat - 48 else c.toLower.toNat - 97 + 10

/-- One IPv6 hextet: one to four hexadecimal digits. -/
def parseHextet (part : List Char) : Option Nat :=
  if part ≠ [] ∧ part.length ≤ 4 ∧
      part.all (fun c => c.isDigit || ('a' ≤ c.toLower && c.toLower ≤ 'f')) then
    some (part.foldl (fun acc c => acc * 16 + hexDigitVal c) 0)
  else none

/-- `IPv6Address` parsing from a string, following the CPython
algorithm (`::` compression, optional embedded dotted-quad in the last
part); zone identifiers (`%zone`) are not modelled. -/
def parseIPv6 (s : String) : Option Nat :=
  let rawParts := s.data.splitOnP (· == ':')
  if rawParts.length < 3 ∨ 9 < rawParts.length ∨ s.data.contains '%' then none
  else
    let lastPart := (rawParts.getLast?).getD []
    let expanded :=
      if lastPart.contains '.' then
        match parseIPv4 (String.mk lastPart) with
        | some n =>
          some (rawParts.dropLast ++
            [Nat.toDigits 16 (n >>> 16), Nat.toDigits 16 (n % 65536)])
        | none => none
      else some rawParts
    match expanded with
    | none => none
    | some parts =>
      let innerEmpties :=
        (List.range parts.length).filter
          (fun i => 1 ≤ i ∧ i + 1 < parts.length ∧ parts.get? i = some [])
      match innerEmpties with
      | [] =>
        if parts.length = 8 ∧ parts.head? ≠ some [] ∧ parts.getLast? ≠ some [] then
          (parts.mapM parseHextet).map (fun hs =>
            hs.foldl (fun acc h => acc * 65536 + h) 0)
        else none
      | [skipIdx] =>
        let headEmpty := parts.head? = some []
        let lastEmpty := parts.getLast? = some []
        let partsHi := if headEmpty then skipIdx - 1 else skipIdx
        let partsLo0 := parts.length - skipIdx - 1
        let partsLo := if lastEmpty then partsLo0 - 1 else partsLo0
        if (headEmpty ∧ partsHi ≠ 0) ∨ (lastEmpty ∧ partsLo ≠ 0) ∨
            8 - (partsHi + partsLo) < 1 then none
        else
          let skipped := 8 - (partsHi + partsLo)
          let hiParts := parts.take partsHi
          let loParts := parts.drop (parts.length - partsLo)
          match hiParts.mapM parseHextet, loParts.mapM parseHextet with
          | some his, some los =>
            let hiVal := his.foldl (fun acc h => acc * 65536 + h) 0
            some (los.foldl (fun acc h => acc * 65536 + h)
              (hiVal <<< (16 * skipped)))
          | _, _ => none
      | _ => none

/-- `ipaddress.ip_address(value)`: IPv4 first, then IPv6. -/
def parseIpAddress (s : String) : Option IpAddr :=
  match parseIPv4 s with
  | some n => some (.v4 n)
  | none =>
    match parseIPv6 s with
    | some n => some (.v6 n)
    | none => none

/-- The IPv4 `_private_networks` of CPython 3.11 `ipaddress`. -/
def v4PrivateNetworks : List (Nat × Nat) :=
  [(v4Addr 0 0 0 0, 8), (v4Addr 10 0 0 0, 8), (v4Addr 127 0 0 0, 8),
   (v4Addr 169 254 0 0, 16), (v4Addr 172 16 0 0, 12), (v4Addr 192 0 0 0, 29),
   (v4Addr 192 0 0 170, 31), (v4Addr 192 0 2 0, 24), (v4Addr 192 168 0 0, 16),
   (v4Addr 198 18 0 0, 15), (v4Addr 198 51 100 0, 24),
   (v4Addr 203 0 113 0, 24), (v4Addr 240 0 0 0, 4),
   (v4Addr 255 255 255 255, 32)]

/-- `IPv4Address.is_private`. -/
def isPrivateV4 (n : Nat) : Bool :=
  v4PrivateNetworks.any (fun net => inNet 32 net.1 net.2 n)

/-- `IPv4Address.is_loopback` / `is_link_local` / `is_multicast` /
`is_reserved` / `is_unspecified`. -/
def isLoopbackV4 (n : Nat) : Bool := inNet 32 (v4Addr 127 0 0 0) 8 n
def isLinkLocalV4 (n : Nat) : Bool := inNet 32 (v4Addr 169 254 0 0) 16 n
def isMulticastV4 (n : Nat) : Bool := inNet 32 (v4Addr 224 0 0 0) 4 n
def isReservedV4 (n : Nat) : Bool := inNet 32 (v4Addr 240 0 0 0) 4 n
def isUnspecifiedV4 (n : Nat) : Bool := n == 0

/-- The IPv6 `_private_networks` of CPython 3.11 `ipaddress`. -/
def v6PrivateNetworks : List (Nat × Nat) :=
  [(1, 128), (0, 128), (0xffff <<< 32, 96), (0x100 <<< 112, 64),
   (0x2001 <<< 112, 23), ((0x2001 <<< 112) + (0x2 <<< 96), 48),
   ((0x2001 <<< 112) + (0xdb8 <<< 96), 32),
   ((0x2001 <<< 112) + (0x10 <<< 96), 28),
   (0xfc00 <<< 112, 7), (0xfe80 <<< 112, 10)]

/-- The IPv6 `_reserved_networks` of CPython 3.11 `ipaddress`. -/
def v6ReservedNetworks : List (Nat × Nat) :=
  [(0, 8), (0x100 <<< 112, 8), (0x200 <<< 112, 7), (0x400 <<< 112, 6),
   (0x800 <<< 112, 5), (0x1000 <<< 112, 4), (0x4000 <<< 112, 3),
   (0x6000 <<< 112, 3), (0x8000 <<< 112, 3), (0xa000 <<< 112, 3),
   (0xc000 <<< 112, 3), (0xe000 <<< 112, 4), (0xf000 <<< 112, 5),
   (0xf800 <<< 112, 6), (0xfe00 <<< 112, 9)]

/-- `IPv6Address.ipv4_mapped`: the embedded IPv4 address when the
address lies in `::ffff:0:0/96`. -/
def v6Ipv4Mapped (n : Nat) : Option Nat :=
  if inNet 128 (0xffff <<< 32) 96 n then some (n % (2 ^ 32)) else none

/-- `IPv6Address.is_private` (CPython 3.11: an IPv4-mapped address
defers to the mapped address). -/
def isPrivateV6 (n : Nat) : Bool :=
  match v6Ipv4Mapped n with
  | some m => isPrivateV4 m
  | none => v6PrivateNetworks.any (fun net => inNet 128 net.1 net.2 n)

def isLoopbackV6 (n : Nat) : Bool := n == 1
def isLinkLocalV6 (n : Nat) : Bool := inNet 128 (0xfe80 <<< 112) 10 n
def isMulticastV6 (n : Nat) : Bool := inNet 128 (0xff00 <<< 112) 8 n
def isReservedV6 (n : Nat) : Bool :=
  v6ReservedNetworks.any (fun net => inNet 128 net.1 net.2 n)
def isUnspecifiedV6 (n : Nat) : Bool := n == 0

/-- `_is_ip_literal` (safety.py). -/
def is_ip_literal (value : String) : Bool :=
  (parseIpAddress value).isSome

/-- The disjunction of `_is_non_public_ip` (safety.py) for a parsed
address. -/
def isNonPublicAddr : IpAddr → Bool
  | .v4 n =>
    isPrivateV4 n || isLoopbackV4 n || isLinkLocalV4 n || isMulticastV4 n ||
      isReservedV4 n || isUnspecifiedV4 n
  | .v6 n =>
    isPrivateV6 n || isLoopbackV6 n || isLinkLocalV6 n || isMulticastV6 n ||
      isReservedV6 n || isUnspecifiedV6 n

/-- `_is_non_public_ip` (safety.py): `False` when the string is not an
IP literal. -/
def is_non_public_ip (hostOrIp : String) : Bool :=
  match parseIpAddress hostOrIp with
  | none => false
  | some addr => isNonPublicAddr addr

/-- `ipaddress.ip_network(value, strict=False)` restricted to the
`a.b.c.d/p` and bare-address shapes used for the allow-list; the host
bits are masked off (`strict=False`). -/
def parseIpNetworkV4 (value : String) : Option (Nat × Nat) :=
  match findIdxOpt (· == '/') value.data with
  | none => (parseIPv4 value).map (fun n => (n, 32))
  | some i =>
    let addrPart := String.mk (value.data.take i)
    let prefixPart := value.data.drop (i + 1)
    match parseIPv4 addrPart with
    | none => none
    | some n =>
      if prefixPart ≠ [] ∧ prefixPart.all Char.isDigit then
        let p := digitsToNat prefixPart
        if p ≤ 32 then some ((n >>> (32 - p)) <<< (32 - p), p) else none
      else none

/-- `DEFAULT_ALLOWED_PRIVATE_RESOLUTION_CIDRS` (safety.py). -/
def defaultAllowedPrivateResolutionCidrs : List String := ["198.18.0.0/15"]

/-- `_load_allowed_private_resolution_networks` (safety.py), as a
function of the configured CIDR strings (the `URL_SAFETY_ALLOWED_PRIVATE_CIDRS`
environment override, defaulting to `198.18.0.0/15`); unparsable entries
are skipped. -/
def loadAllowedNetworks (cidrs : List String) : List (Nat × Nat) :=
  cidrs.filterMap parseIpNetworkV4

/-- `_is_allowed_private_resolution_ip` (safety.py).  The allow-list
CIDRs in this deployment are IPv4; a v6 address is in none of them
(matching `ip in network`, which is version-aware). -/
def is_allowed_private_resolution_ip (cidrs : List String) (hostOrIp : String) :
    Bool :=
  match parseIpAddress hostOrIp with
  | none => false
  | some (.v4 n) => (loadAllowedNetworks cidrs).any (fun net => inNet 32 net.1 net.2 n)
  | some (.v6 _) => false

/-- Oracle for `socket.getaddrinfo`: hostname and optional port to
either a DNS failure (`gaierror`) or the list of resolved address
strings (`info[4][0]`, already deduplicated as the Python set). -/
abbrev DnsFn := String → Option Nat → Except Unit (List String)

/-- `validate_public_http_url` (safety.py): `Except.error` carries the
`ValueError` message. -/
def validate_public_http_url (dns : DnsFn) (cidrs : List String)
    (url : String) : Except String Unit :=
  let parsed := pyUrlparse url
  if parsed.scheme ≠ "http" ∧ parsed.scheme ≠ "https" then
    .error "Only http/https URLs are supported."
  else
    let hostname := pyStrip (urlHostname parsed)
    if hostname = "" then .error "URL host is missing."
    else
      let lowered := pyLower hostname
      if lowered = "localhost" ∨ lowered = "127.0.0.1" ∨ lowered = "::1" then
        .error "Localhost URLs are not allowed."
      else if is_ip_literal hostname then
        if is_non_public_ip hostname then
          .error "Private or non-public IP addresses are not allowed."
        else .ok ()
      else if is_non_public_ip hostname then
        .error "Private or non-public IP addresses are not allowed."
      else
        match dns hostname (urlPort parsed) with
        | .error _ => .error "Could not resolve URL host."
        | .ok infos =>
          let resolvedIps := infos.dedup
          if resolvedIps = [] then .error "Could not resolve URL host."
          else if resolvedIps.any is_non_public_ip then
            if resolvedIps.any (fun ip =>
                is_non_public_ip ip ∧ ¬is_allowed_private_resolution_ip cidrs ip)
            then .error "Resolved host maps to a private or non-public IP."
            else .ok ()
          else .ok ()

/-! ## JSON-LD strategy (`strategies.py`) -/

/-- A decoded JSON value (the output shape of `json.loads`). -/
inductive PyVal where
  | pstr (s : String)
  | pnum (q : ℚ)
  | pbool (b : Bool)
  | pnull
  | pdict (entries : List (String × PyVal))
  | plist (elems : List PyVal)

/-- Python dict `.get` on a decoded JSON object. -/
def pyGet (entries : List (String × PyVal)) (key : String) : Option PyVal :=
  (entries.find? (fun p => p.1 == key)).map (·.2)

/-- The key-priority probe of `_find_long_text_field` (strategies.py):
the first of `articleBody` / `text` / `description` whose value is a
string of stripped length at least 120. -/
def interestingKeyHit (entries : List (String × PyVal)) : Option String :=
  ["articleBody", "text", "description"].firstM (fun key =>
    match pyGet entries key with
    | some (.pstr v) => if 120 ≤ (pyStrip v).length then some v else none
    | _ => none)

mutual

/-- `_find_long_text_field` (strategies.py). -/
def find_long_text_field : PyVal → Option String
  | .pdict entries =>
    match interestingKeyHit entries with
    | some v => some v
    | none => findLongInEntries entries
  | .plist items => findLongInItems items
  | _ => none

/-- The `for value in node.values()` recursion of
`_find_long_text_field`; a falsy (empty) nested result is skipped. -/
def findLongInEntries : List (String × PyVal) → Option String
  | [] => none
  | (_, v) :: rest =>
    match find_long_text_field v with
    | some nested => if nested ≠ "" then some nested else findLongInEntries rest
    | none => findLongInEntries rest

/-- The list recursion of `_find_long_text_field`. -/
def findLongInItems : List PyVal → Option String
  | [] => none
  | v :: rest =>
    match find_long_text_field v with
    | some nested => if nested ≠ "" then some nested else findLongInItems rest
    | none => findLongInItems rest

end

/-- Does `type=["']application/ld+json["']` match at the head of `l`?
(26 characters.) -/
def matchLdJsonTypeMarker (l : List Char) : Bool :=
  ciHasPrefix "type=".data l &&
  ((l.drop 5).head?.map isQuoteChar).getD false &&
  ciHasPrefix "application/ld+json".data (l.drop 6) &&
  ((l.drop 25).head?.map isQuoteChar).getD false

/-- All group-1 bodies of `JSONLD_SCRIPT_REGEX.finditer`
(`<script[^>]+type=["\']application/ld\+json["\'][^>]*>(.*?)</script>`,
IGNORECASE | DOTALL). -/
def jsonLdScriptBodiesF : Nat → List Char → List (List Char)
  | 0, _ => []
  | _ + 1, [] => []
  | fuel + 1, c :: rest =>
    if c == '<' ∧ ciHasPrefix "script".data rest then
      let afterName := rest.drop 6
      let span := afterName.takeWhile (· != '>')
      let hasMarker := (List.range (span.length + 1)).any (fun i =>
        1 ≤ i && matchLdJsonTypeMarker (afterName.drop i))
      if hasMarker ∧ (afterName.drop span.length).head? = some '>' then
        let body := afterName.drop (span.length + 1)
        match ciFindSub "</script>".data body with
        | some j =>
          body.take j ::
            jsonLdScriptBodiesF fuel (afterName.drop (span.length + 1 + j + 9))
        | none => jsonLdScriptBodiesF fuel rest
      else jsonLdScriptBodiesF fuel rest
    else jsonLdScriptBodiesF fuel rest

def jsonLdScriptBodies (l : List Char) : List (List Char) :=
  jsonLdScriptBodiesF l.length l

/-- Oracle for `json.loads` on a script body: `none` models a
`JSONDecodeError`. -/
abbrev JsonParseFn := String → Option PyVal

/-- The contribution of one script body to `_iter_json_candidates`
(strategies.py): a blank or unparseable body contributes nothing (the
scan continues), a decoded dict itself, a decoded list its dict
elements. -/
def jsonCandidatesOfBody (parse : JsonParseFn) (body : List Char) :
    List (List (String × PyVal)) :=
  let scriptBody := pyStrip ⟨body⟩
  if scriptBody = "" then []
  else
    match parse scriptBody with
    | none => []
    | some (.pdict d) => [d]
    | some (.plist items) =>
      items.filterMap (fun it =>
        match it with
        | .pdict d => some d
        | _ => none)
    | some _ => []

/-- `_iter_json_candidates` (strategies.py): decode every
`application/ld+json` script block, tolerating parse errors. -/
def iter_json_candidates (parse : JsonParseFn) (payload : String) :
    List (List (String × PyVal)) :=
  (jsonLdScriptBodies payload.data).foldl
    (fun acc body => acc ++ jsonCandidatesOfBody parse body) []

/-- Python truthiness of the running `title` variable
(`None` and `""` are falsy). -/
def titleFalsy : Option String → Bool
  | none => true
  | some t => t = ""

/-- The `for title_key in ("headline", "name", "title")` probe of
`JsonLdStrategy.extract`. -/
def firstTitleKey (entries : List (String × PyVal)) : Option String :=
  ["headline", "name", "title"].firstM (fun key =>
    match pyGet entries key with
    | some (.pstr v) => some v
    | _ => none)

/-- `page.final_url or context.url`. -/
def finalOr (page : FetchedPage) (ctxUrl : String) : String :=
  if page.finalUrl ≠ "" then page.finalUrl else ctxUrl

/-- The title/best-text accumulation loop of `JsonLdStrategy.extract`
(strategies.py lines 662-670). -/
def jsonLdFoldStep (acc : Option String × Option String)
    (candidate : List (String × PyVal)) : Option String × Option String :=
  let title := acc.1
  let bestText := acc.2
  let title' :=
    if titleFalsy title then
      match firstTitleKey candidate with
      | some t => some t
      | none => title
    else title
  let bestText' :=
    match find_long_text_field (.pdict candidate) with
    | some text =>
      if text ≠ "" then
        match bestText with
        | none => some text
        | some b => if b.length < text.length then some text else some b
      else bestText
    | none => bestText
  (title', bestText')

def jsonLdFold (candidates : List (List (String × PyVal))) :
    Option String × Option String :=
  candidates.foldl jsonLdFoldStep (none, none)

/-- `JsonLdStrategy.extract` (strategies.py), over the shared fetched
page. -/
def jsonLdExtract (parse : JsonParseFn) (uj : UrlJoinFn) (page : FetchedPage)
    (ctxUrl : String) (maxChars : Nat) : Except String ExtractionCandidate :=
  let payload := page.payload
  let jsonCandidates := iter_json_candidates parse payload
  if jsonCandidates.isEmpty then .error "No JSON-LD payload found."
  else
    let folded := jsonLdFold jsonCandidates
    match folded.2 with
    | none => .error "JSON-LD did not contain a usable article body."
    | some bestText =>
      let rawContent := normalize_text_preserve_paragraphs bestText
      if rawContent.length < 120 then .error "JSON-LD content too short."
      else
        .ok
          { strategyName := "json_ld"
            url := ctxUrl
            canonicalUrl := extract_canonical_url uj payload (finalOr page ctxUrl)
            title :=
              if titleFalsy folded.1 then extract_title payload else folded.1
            contentFormat := "text"
            rawContent := pySlice rawContent maxChars
            extractionMeta :=
              [("method", .str "json_ld"),
               ("host", .str (pyUrlparse (finalOr page ctxUrl)).netloc),
               ("content_type", .str page.contentType)]
            blocks := build_reader_blocks rawContent }

/-! ## HTTP readability strategy (`strategies.py`) -/

/-- `HttpReadabilityStrategy.extract` (strategies.py), over the shared
fetched page. -/
def httpReadabilityExtract (uj : UrlJoinFn) (page : FetchedPage)
    (ctxUrl : String) (maxChars : Nat) : Except String ExtractionCandidate :=
  let payload := page.payload
  let contentType := page.contentType
  if is_binary_content_type contentType then
    .error "Binary payload cannot be extracted as readable article text."
  else if is_probably_blocked_page payload contentType then
    .error "Page appears to be blocked by anti-bot protections."
  else
    let htmlMode :=
      pyContains contentType "text/html" || pyContains (pyLower payload) "<html"
    let rawContent :=
      if htmlMode then
        let fragments := extract_primary_html_candidates payload
        let textCandidates := fragments.map strip_html_to_text
        if textCandidates = [] then "" else pyStrip (maxByLenFirst textCandidates)
      else normalize_text_preserve_paragraphs payload
    let title := if htmlMode then extract_title payload else none
    let canonicalUrl :=
      if htmlMode then extract_canonical_url uj payload (finalOr page ctxUrl)
      else finalOr page ctxUrl
    if rawContent.length < 120 then
      .error "Could not extract enough readable article content from URL."
    else
      .ok
        { strategyName := "http_readability"
          url := ctxUrl
          canonicalUrl := canonicalUrl
          title := title
          contentFormat := "text"
          rawContent := pySlice rawContent maxChars
          extractionMeta :=
            [("method", .str "http_readability"),
             ("host", .str (pyUrlparse (finalOr page ctxUrl)).netloc),
             ("content_type", .str contentType)]
          blocks := build_reader_blocks rawContent }

/-! ## ArXiv structural parser (`arxiv_html_blocks.py`): inline runs,
their normalisation, and the text-bearing block constructors.  The
BeautifulSoup DOM traversal (`_extract_inline_runs_node`) produces only
run dicts of the shapes `text`, `math`, `link` and the eight style
wrappers, so inline runs are modelled by a typed inductive of exactly
those shapes; the defensive branches of the Python for non-dict or
unknown-type entries are outside the typed model. -/

/-- The eight style wrapper kinds. -/
inductive WrapKind where
  | em | strong | code | sub | sup | underline | strike | smallcaps
deriving DecidableEq, Repr

/-- An inline run (`InlineRun` of the data model). -/
inductive InlineRun where
  | text (s : String)
  | math (tex : String)
  | link (href : String) (children : List InlineRun)
  | wrap (kind : WrapKind) (children : List InlineRun)

/-- The per-character action of `_sanitize_inline_text`
(arxiv_html_blocks.py): non-breaking space to space, zero-width space
and BOM removed. -/
def sanitizeChar (c : Char) : Option Char :=
  if c.toNat = 0xa0 then some ' '
  else if c.toNat = 0x200b ∨ c.toNat = 0xfeff then none
  else some c

/-- `_sanitize_inline_text` (arxiv_html_blocks.py). -/
def sanitize_inline_text (value : String) : String :=
  ⟨value.data.filterMap sanitizeChar⟩

/-- `_clean_equation_tex` (arxiv_html_blocks.py): remove zero-width
characters, strip, then peel one outer `$$…$$` pair and one outer
`\[…\]` pair (each only when the result stays non-trivial). -/
def clean_equation_tex (value : String) : String :=
  let cleaned := pyStrip
    ⟨value.data.filter (fun c => !(c.toNat = 0x200b ∨ c.toNat = 0xfeff))⟩
  let peel := fun (markL markR : String) (s : String) =>
    if markL.data.isPrefixOf s.data ∧ markR.data.isSuffixOf s.data ∧
        4 < s.length then
      pyStrip ⟨(s.data.drop 2).take (s.data.length - 4)⟩
    else s
  peel "\\[" "\\]" (peel "$$" "$$" cleaned)

/-- Collapse each maximal run of characters satisfying `p` to the
single character `r` (`re.sub(p+, r, s)`). -/
def collapseRunsToF (p : Char → Bool) (r : Char) : Nat → List Char → List Char
  | 0, l => l
  | _ + 1, [] => []
  | fuel + 1, c :: rest =>
    if p c then r :: collapseRunsToF p r fuel (rest.dropWhile p)
    else c :: collapseRunsToF p r fuel rest

def collapseRunsTo (p : Char → Bool) (r : Char) (l : List Char) : List Char :=
  collapseRunsToF p r l.length l

/-- `re.sub(r"\s+(X)", r"\1", s)` for a character class `X`: drop
whitespace runs immediately preceding an `X` character. -/
def dropWsBeforeF (punct : Char → Bool) : Nat → List Char → List Char
  | 0, l => l
  | _ + 1, [] => []
  | fuel + 1, c :: rest =>
    if isPySpace c then
      let wsRest := rest.dropWhile isPySpace
      match wsRest.head? with
      | some d =>
        if punct d then d :: dropWsBeforeF punct fuel (wsRest.drop 1)
        else (c :: rest.takeWhile isPySpace) ++ dropWsBeforeF punct fuel wsRest
      | none => c :: rest
    else c :: dropWsBeforeF punct fuel rest

def dropWsBefore (punct : Char → Bool) (l : List Char) : List Char :=
  dropWsBeforeF punct l.length l

/-- `re.sub(r"(X)\s+", r"\1", s)` for a character class `X`: drop
whitespace runs immediately following an `X` character. -/
def dropWsAfterF (opens : Char → Bool) : Nat → List Char → List Char
  | 0, l => l
  | _ + 1, [] => []
  | fuel + 1, c :: rest =>
    if opens c then c :: dropWsAfterF opens fuel (rest.dropWhile isPySpace)
    else c :: dropWsAfterF opens fuel rest

def dropWsAfter (opens : Char → Bool) (l : List Char) : List Char :=
  dropWsAfterF opens l.length l

/-- The closing punctuation class `[,.;:!?%)\]\}]`. -/
def isClosePunct (c : Char) : Bool :=
  c == ',' || c == '.' || c == ';' || c == ':' || c == '!' || c == '?' ||
  c == '%' || c == ')' || c == ']' || c.toNat == 125

/-- The opening bracket class `[(\[\{]`. -/
def isOpenBracket (c : Char) : Bool :=
  c == '(' || c == '[' || c.toNat == 123

/-- Right curly quotes `’ ”`. -/
def isRightCurlyQuote (c : Char) : Bool :=
  c.toNat == 0x2019 || c.toNat == 0x201d

/-- Left curly quotes `‘ “`. -/
def isLeftCurlyQuote (c : Char) : Bool :=
  c.toNat == 0x2018 || c.toNat == 0x201c

/-- `_normalize_inline_spacing` (arxiv_html_blocks.py). -/
def normalize_inline_spacing (value : String) : String :=
  let s0 := (sanitize_inline_text value).data
  let s1 := collapseRunsTo isPySpace ' ' s0
  let s2 := dropWsBefore isClosePunct s1
  let s3 := dropWsAfter isOpenBracket s2
  let s4 := dropWsBefore isRightCurlyQuote s3
  let s5 := dropWsAfter isLeftCurlyQuote s4
  ⟨pyStripL s5⟩

/-- Appending a text run to the accumulator, merging with a trailing
text run (the `normalized[-1]["text"] += text` branch). -/
def pushTextRun (acc : List InlineRun) (t : String) : List InlineRun :=
  match acc.getLast? with
  | some (.text t0) => acc.dropLast ++ [.text (t0 ++ t)]
  | _ => acc ++ [.text t]

mutual

/-- One step of `_normalize_inline_run_list` (arxiv_html_blocks.py):
process one run against the accumulated output. -/
def normStep (acc : List InlineRun) : InlineRun → List InlineRun
  | .text t =>
    let t' := sanitize_inline_text t
    if t' = "" then acc else pushTextRun acc t'
  | .math tex =>
    let t' := clean_equation_tex tex
    if t' = "" then acc else acc ++ [.math t']
  | .link href children =>
    let cs := normGo [] children
    let href' := pyStrip href
    if href' = "" then (if cs.isEmpty then acc else acc ++ cs)
    else if cs.isEmpty then acc
    else acc ++ [.link href' cs]
  | .wrap kind children =>
    let cs := normGo [] children
    if cs.isEmpty then acc else acc ++ [.wrap kind cs]

/-- The accumulating loop of `_normalize_inline_run_list`. -/
def normGo (acc : List InlineRun) : List InlineRun → List InlineRun
  | [] => acc
  | r :: rest => normGo (normStep acc r) rest

end

/-- `_normalize_inline_run_list` (arxiv_html_blocks.py). -/
def normalizeInlineRunList (runs : List InlineRun) : List InlineRun :=
  normGo [] runs

mutual

/-- The per-run case of `_inline_runs_to_text`
(arxiv_html_blocks.py). -/
def runToText : InlineRun → String
  | .text t => sanitize_inline_text t
  | .math tex => clean_equation_tex tex
  | .link _ children => if children.isEmpty then "" else inline_runs_to_text children
  | .wrap _ children => if children.isEmpty then "" else inline_runs_to_text children

/-- `_inline_runs_to_text` (arxiv_html_blocks.py). -/
def inline_runs_to_text : List InlineRun → String
  | [] => ""
  | r :: rest => runToText r ++ inline_runs_to_text rest

end

/-- `_escape_markdown_text` (arxiv_html_blocks.py). -/
def escape_markdown_text (value : String) : String :=
  [("\\", "\\\\"), ("\x60", "\\\x60"), ("*", "\\*"), ("_", "\\_"),
   ("[", "\\["), ("]", "\\]"), ("<", "\\<"), (">", "\\>"),
   ("$", "\\$")].foldl
    (fun s p => pyReplace s p.1 p.2) value

/-- `_escape_markdown_link_label` (arxiv_html_blocks.py). -/
def escape_markdown_link_label (value : String) : String :=
  pyReplace (pyReplace (pyReplace value "\\" "\\\\") "[" "\\[") "]" "\\]"

mutual

/-- The per-run case of `_inline_runs_to_markdown`
(arxiv_html_blocks.py). -/
def runToMarkdown : InlineRun → String
  | .text t => escape_markdown_text t
  | .math tex =>
    let v := clean_equation_tex tex
    if v ≠ "" then "$" ++ v ++ "$" else ""
  | .link href children =>
    let href' := pyStrip href
    let label := normalize_inline_spacing (inline_runs_to_text children)
    if href' ≠ "" ∧ label ≠ "" then
      "[" ++ escape_markdown_link_label label ++ "](<" ++ href' ++ ">)"
    else if label ≠ "" then escape_markdown_text label
    else ""
  | .wrap kind children =>
    let content := inline_runs_to_markdown children
    if content = "" then ""
    else
      match kind with
      | .em => "*" ++ content ++ "*"
      | .strong => "**" ++ content ++ "**"
      | .code => "\x60" ++ pyReplace content "\x60" "\\\\\x60" ++ "\x60"
      | .strike => "~~" ++ content ++ "~~"
      | _ => content

/-- `_inline_runs_to_markdown` (arxiv_html_blocks.py). -/
def inline_runs_to_markdown : List InlineRun → String
  | [] => ""
  | r :: rest => runToMarkdown r ++ inline_runs_to_markdown rest

end

/-- `_inline_runs_have_structure` (arxiv_html_blocks.py). -/
def inlineRunsHaveStructure (runs : List InlineRun) : Bool :=
  runs.any (fun r =>
    match r with
    | .text _ => false
    | _ => true)

/-- `_HEADING_LEVEL_BY_TAG.get(tag.name, "h3")`
(arxiv_html_blocks.py). -/
def headingLevelByTag (tagName : String) : String :=
  if tagName = "h1" then "h1"
  else if tagName = "h2" then "h2"
  else "h3"

/-- A heading / paragraph / blockquote block of the arXiv parser. -/
structure ArxInlineBlock where
  bid : String
  btype : String
  text : String
  inlineMarkdown : Option String := none
  inlineRuns : Option (List InlineRun) := none

/-- The shared tail of the three text-bearing block constructors:
build the block from the (already extracted and normalised) inline
runs. -/
def buildInlineBlock (btype : String) (inlineRuns : List InlineRun)
    (blockIndex : Nat) (minLen : Nat) : Option ArxInlineBlock :=
  let text := normalize_inline_spacing (inline_runs_to_text inlineRuns)
  if text.length < minLen then none
  else
    let inlineMarkdown := normalize_inline_spacing (inline_runs_to_markdown inlineRuns)
    some
      { bid := "arxiv-" ++ toString blockIndex
        btype := btype
        text := text
        inlineMarkdown :=
          if inlineMarkdown ≠ "" ∧ inlineMarkdown ≠ text then some inlineMarkdown
          else none
        inlineRuns :=
          if inlineRunsHaveStructure inlineRuns then some inlineRuns else none }

/-- `_extract_heading_block` (arxiv_html_blocks.py), as a function of
the inline runs extracted from the tag (`_extract_inline_runs`);
minimum text length 2. -/
def extract_heading_block (tagName : String) (inlineRuns : List InlineRun)
    (blockIndex : Nat) : Option ArxInlineBlock :=
  buildInlineBlock (headingLevelByTag tagName) inlineRuns blockIndex 2

/-- The text-building tail of `_extract_paragraph_block`
(arxiv_html_blocks.py), as a function of the inline runs extracted
after the nested structural descendants were removed; minimum text
length 20. -/
def extract_paragraph_block (inlineRuns : List InlineRun)
    (blockIndex : Nat) : Option ArxInlineBlock :=
  buildInlineBlock "paragraph" inlineRuns blockIndex 20

/-- `_extract_blockquote_block` (arxiv_html_blocks.py); minimum text
length 10. -/
def extract_blockquote_block (inlineRuns : List InlineRun)
    (blockIndex : Nat) : Option ArxInlineBlock :=
  buildInlineBlock "blockquote" inlineRuns blockIndex 10

/-! ## Reference-link detection (`arxiv_html_blocks.py`) -/

/-- Upper-case hexadecimal digit. -/
def hexDigitUpper (n : Nat) : Char :=
  Char.ofNat (if n < 10 then 48 + n else 55 + n)

/-- The always-safe bytes of `urllib.parse.quote`
(ASCII letters, digits, `_.-~`). -/
def isQuoteSafeByte (b : Nat) : Bool :=
  (48 ≤ b && b ≤ 57) || (65 ≤ b && b ≤ 90) || (97 ≤ b && b ≤ 122) ||
  b == 95 || b == 46 || b == 45 || b == 126

/-- `urllib.parse.quote_plus` with the default arguments: spaces become
`+`, safe bytes pass through, every other UTF-8 byte is
percent-encoded. -/
def quote_plus (s : String) : String :=
  ⟨(s.toUTF8.toList.map UInt8.toNat).foldr (fun b acc =>
    (if b = 32 then ['+']
     else if isQuoteSafeByte b then [Char.ofNat b]
     else ['%', hexDigitUpper (b / 16), hexDigitUpper (b % 16)]) ++ acc) []⟩

/-- A detected reference link. -/
structure RefLink where
  href : String
  label : String
  kind : String
deriving DecidableEq, Repr

/-- The `append_link` closure of `_detect_reference_links`
(arxiv_html_blocks.py): skip empty fields and duplicate hrefs. -/
def appendRefLink (links : List RefLink) (href label kind : String) :
    List RefLink :=
  let normalizedHref := pyStrip href
  let normalizedLabel := pyStrip label
  if normalizedHref = "" ∨ normalizedLabel = "" then links
  else if links.any (fun l => l.href == normalizedHref) then links
  else links ++ [{ href := normalizedHref, label := normalizedLabel, kind := kind }]

/-- Oracle results of the three stdlib regex probes of
`_detect_reference_links`: `arxivSearch s` is the `identifier` group of
`re.search(r"\barXiv:(…)(?:v\d+)?\b", s, re.IGNORECASE)`; `doiSearch s`
is group 1 of the DOI search; `urlFind s` is the list of full matches
of `re.finditer(r"https?://[^\s)>\]]+", s, re.IGNORECASE)`. -/
structure RefLinkOracles where
  arxivSearch : String → Option String
  doiSearch : String → Option String
  urlFind : String → List String

/-- `_detect_reference_links` (arxiv_html_blocks.py). -/
def detect_reference_links (oracles : RefLinkOracles)
    (referenceText : String) : List RefLink :=
  let normalizedText := pyStrip referenceText
  if normalizedText = "" then []
  else
    let afterArxiv :=
      match oracles.arxivSearch normalizedText with
      | some ident0 =>
        let identifier := pyStrip ident0
        if identifier ≠ "" then
          appendRefLink [] ("https://arxiv.org/abs/" ++ identifier)
            ("arXiv:" ++ identifier) "arxiv"
        else []
      | none => []
    let afterDoi :=
      match oracles.doiSearch normalizedText with
      | some doi0 =>
        let doi := pyRstripChars ".,;)".data doi0
        if doi ≠ "" then
          appendRefLink afterArxiv ("https://doi.org/" ++ doi) "DOI" "doi"
        else afterArxiv
      | none => afterArxiv
    let afterUrls := (oracles.urlFind normalizedText).foldl (fun acc u =>
      let urlValue := pyRstripChars ".,;)".data u
      if urlValue ≠ "" then
        appendRefLink acc urlValue
          (pySlice (pyReplace (pyReplace urlValue "https://" "") "http://" "") 72)
          "url"
      else acc) afterDoi
    if afterUrls = [] then
      appendRefLink []
        ("https://scholar.google.com/scholar?q=" ++
          quote_plus (pySlice normalizedText 320))
        "Scholar" "search"
    else afterUrls

/-- `_normalize_text` (arxiv_html_blocks.py). -/
def arxNormalizeText (value : String) : String :=
  pyStrip (pyReplace (normalize_text_preserve_paragraphs value) "\n" " ")

/-- Python `str.rstrip()` (whitespace). -/
def pyRstrip (s : String) : String :=
  ⟨(s.data.reverse.dropWhile isPySpace).reverse⟩

/-- `_build_reference_anchor_id` (arxiv_html_blocks.py). -/
def build_reference_anchor_id (value : String) : String :=
  let stripped := pyStrip value
  let isAnchorChar := fun (c : Char) =>
    ('a' ≤ c && c ≤ 'z') || ('A' ≤ c && c ≤ 'Z') || ('0' ≤ c && c ≤ '9') ||
    c == '_' || c == '-'
  let replaced := collapseRunsTo (fun c => !isAnchorChar c) '-' stripped.data
  let trimmed :=
    ((replaced.dropWhile (· == '-')).reverse.dropWhile (· == '-')).reverse
  let normalized := pyLower ⟨trimmed⟩
  "article-ref-" ++ (if normalized = "" then "item" else normalized)

/-- A reference block of the arXiv parser. -/
structure ArxReferenceBlock where
  bid : String
  btype : String
  text : String
  anchorId : Option String := none
  links : List RefLink := []
deriving DecidableEq, Repr

/-- `_extract_reference_block` (arxiv_html_blocks.py), as a function of
the tag's plain text (`tag.get_text(" ", strip=True)`) and its `id`
attribute. -/
def extract_reference_block (oracles : RefLinkOracles)
    (rawText tagId : String) (blockIndex : Nat) : Option ArxReferenceBlock :=
  let referenceText0 := arxNormalizeText rawText
  if referenceText0 = "" then none
  else
    let referenceText :=
      if 1400 < referenceText0.length then pyRstrip (pySlice referenceText0 1400)
      else referenceText0
    let links := detect_reference_links oracles referenceText
    some
      { bid := "arxiv-" ++ toString blockIndex
        btype := "reference"
        text := referenceText
        anchorId :=
          if pyStrip tagId ≠ "" then some (build_reference_anchor_id tagId)
          else none
        links := links }

/-! ## Verification-side definitions -/

/-- Spec-side reading of the JSON-LD content choice, for comparison
with the implementation: the longest of the `articleBody` / `text` /
`description` string values found across all JSON-LD objects, subject
to the 120-character minimum. -/
def longestInterestingFieldSpec
    (objs : List (List (String × PyVal))) : Option String :=
  let values := objs.flatMap (fun entries =>
    ["articleBody", "text", "description"].filterMap (fun key =>
      match pyGet entries key with
      | some (.pstr v) => if 120 ≤ (pyStrip v).length then some v else none
      | _ => none))
  if values.isEmpty then none else some (maxByLenFirst values)

/-- Is a run a plain `text` run? -/
def isTextRun : InlineRun → Bool
  | .text _ => true
  | _ => false

/-- Does a run list start with a `text` run? -/
def headIsText : List InlineRun → Bool
  | [] => false
  | r :: _ => isTextRun r

/-- Does a run list end with a `text` run? -/
def lastIsText (runs : List InlineRun) : Bool :=
  match runs.getLast? with
  | some r => isTextRun r
  | none => false

mutual

/-- Run lists free of `math` runs and of links whose stripped `href` is
empty: the fragment of the inline-run model on which the normalisation
pass will be shown idempotent. -/
def plainRun : InlineRun → Bool
  | .text _ => true
  | .math _ => false
  | .link href children => pyStrip href ≠ "" && plainRunList children
  | .wrap _ children => plainRunList children

def plainRunList : List InlineRun → Bool
  | [] => true
  | r :: rest => plainRun r && plainRunList rest

end

mutual

/-- Canonical runs: the shape `_normalize_inline_run_list` produces on
plain input (sanitised non-empty text, stripped non-empty hrefs,
non-empty canonical children, no `math`). -/
def canonRun : InlineRun → Bool
  | .text t => t ≠ "" && sanitize_inline_text t == t
  | .math _ => false
  | .link href children =>
    pyStrip href == href && href ≠ "" && !children.isEmpty &&
      canonRunList children
  | .wrap _ children => !children.isEmpty && canonRunList children

/-- Canonical run lists additionally have no two adjacent `text`
runs. -/
def canonRunList : List InlineRun → Bool
  | [] => true
  | r :: rest =>
    canonRun r && canonRunList rest && !(isTextRun r && headIsText rest)

end

/-- The `promoted` flag of an `evaluate_and_promote_rule` outcome
(`False` on the early-return dicts). -/
def promotionOutcomeFlag : PromotionOutcome → Bool
  | .evaluated e => e.promoted
  | _ => false

/-- A concrete plain-text payload used to exercise `apply_rule` on a
closed input (long enough to clear the 120-character floor). -/
def c4WitnessPayload : String :=
  "The adaptive rule pipeline keeps the largest matched fragment, " ++
  "strips markup, normalises whitespace, and finally truncates the " ++
  "surviving text to the configured character budget before a candidate is built."

/-- Running `apply_rule` on the concrete payload with identity-style
oracles and a 200-character budget. -/
def c4WitnessOutcome : Except String ExtractionCandidate :=
  apply_rule
    ⟨fun _ payload => some [payload], fun _ t => some t⟩
    (fun _ u => u)
    "https://example.com/a" c4WitnessPayload "text/html"
    ⟨"example.com", ["x"], [], 9/10, "m", 0⟩ true 200

/-- The candidate produced by the concrete `apply_rule` run. -/
def c4WitnessCandidate : ExtractionCandidate :=
  match c4WitnessOutcome with
  | .ok c => c
  | .error _ =>
    { strategyName := "", url := "", canonicalUrl := "", title := none,
      contentFormat := "", rawContent := "" }

/-- A small but well-formed candidate used by the concrete orchestrator
runs below. -/
def sampleCandidate (sname : String) : ExtractionCandidate :=
  { strategyName := sname, url := "https://example.com/a",
    canonicalUrl := "https://example.com/a", title := none,
    contentFormat := "text",
    rawContent := "A short but genuine body of text." }

/-- Orchestrator configuration for the concrete runs below: the
acceptance threshold is unreachable (scores are clamped to `[0, 1]`)
and the minimum acceptable score is zero, so a run with at least one
candidate always succeeds and never stops early. -/
def lenientConfig : OrchestratorConfig :=
  { acceptanceThreshold := 2, minimumAcceptableScore := 0,
    timeoutSeconds := 30, maxChars := 120000 }

/-- Outcomes named after the five default strategies, in declared
order, with only `json_ld` succeeding. -/
def c1WitnessOuts : List StrategyOutcome :=
  [("x_status_api", Except.error "status api returned no document"),
   ("domain_adapter", Except.error "no adapter for host"),
   ("json_ld", Except.ok (sampleCandidate "json_ld")),
   ("http_readability", Except.error "page too short"),
   ("llm_adaptive", Except.error "llm disabled")]

/-- The decision of the concrete default-order run. -/
def c1WitnessDecision : ExtractionDecision :=
  match orchestratorRun lenientConfig c1WitnessOuts with
  | .ok d => d
  | .error _ => { candidate := sampleCandidate "json_ld", attempts := [] }

/-- Outcomes in which every strategy fails. -/
def c3WitnessOuts : List StrategyOutcome :=
  [("json_ld", Except.error "no json-ld blocks"),
   ("http_readability", Except.error "")]

/-- A concrete promoted adapter for the rule-store runs below. -/
def c7WitnessAdapter : PromotedAdapter :=
  { name := "llm-promoted:example.com", hostSuffixes := ["example.com"],
    containerRegexes := ["x"], dropTextPatterns := [],
    sourceModel := "m", sourceConfidence := 9/10, generatedAt := 0,
    evaluation := { promoted := true, sampleCount := 3, successful := 3,
                    errors := 0, successRate := 1, avgScore := 8/10,
                    evaluatedAt := 0 },
    host := "example.com", promotedAt := 0 }

/-- A rule store that already holds a promoted adapter for
`example.com`. -/
def c7WitnessState : RuleStoreState :=
  { promotedAdapters := [("example.com", c7WitnessAdapter)] }

/-- A promotion configuration with degenerate rate/average thresholds
but the default sample minimum. -/
def c6Config : PromotionConfig :=
  { enabled := true, minSamples := 3, maxSamples := 6,
    minSuccessRate := 0, minAvgScore := 0, minSampleScore := 3/5 }

/-- A store holding three replay samples for `example.com`. -/
def c6State : RuleStoreState :=
  { replaySamples := [("example.com",
      [{ url := "https://example.com/a", contentType := "text/html",
         payload := "x", capturedAt := 0 },
       { url := "https://example.com/b", contentType := "text/html",
         payload := "y", capturedAt := 0 },
       { url := "https://example.com/c", contentType := "text/html",
         payload := "z", capturedAt := 0 }])] }

/-- The evaluation produced on `c6State` when every replay errors. -/
def c6Eval : PromotionEvaluation :=
  { promoted := true, sampleCount := 3, successful := 0, errors := 3,
    successRate := 0, avgScore := 0, evaluatedAt := 0 }

/-- The degenerate-threshold promotion run: every `apply_rule` replay
fails, yet the rule is promoted. -/
def c6Run : PromotionOutcome × RuleStoreState :=
  evaluate_and_promote_rule c6Config ⟨fun _ _ => none, fun _ _ => none⟩
    (fun _ u => u) 0 c6State "example.com"
    ⟨"example.com", ["p"], [], 1, "m", 0⟩ 120000

/-- A 130-character `articleBody` value. -/
def c5Body : String := String.mk (List.replicate 130 'a')

/-- A 200-character `description` value. -/
def c5Desc : String := String.mk (List.replicate 200 'b')

/-- A JSON-LD object holding a shorter `articleBody` before a longer
`description`. -/
def c5Entries : List (String × PyVal) :=
  [("articleBody", PyVal.pstr c5Body), ("description", PyVal.pstr c5Desc)]

/-- A fetched page with one `application/ld+json` script block. -/
def c5Page : FetchedPage :=
  { requestedUrl := "https://example.com/a",
    finalUrl := "https://example.com/a",
    contentType := "text/html",
    payload := "<html><head><script type=\"application/ld+json\">j</script>" ++
      "</head><body>b</body></html>" }

/-- The candidate produced by the concrete JSON-LD run. -/
def c5Candidate : ExtractionCandidate :=
  match jsonLdExtract (fun _ => some (PyVal.pdict c5Entries)) (fun _ u => u)
      c5Page "https://example.com/a" 1000 with
  | .ok c => c
  | .error _ =>
    { strategyName := "", url := "", canonicalUrl := "", title := none,
      contentFormat := "", rawContent := "" }

/-- The per-object probe results over a candidate-object list: the
non-empty `_find_long_text_field` values. -/
def perObjectTexts (cs : List (List (String × PyVal))) : List String :=
  cs.filterMap (fun c =>
    match find_long_text_field (PyVal.pdict c) with
    | some t => if t ≠ "" then some t else none
    | none => none)

/-- Counterexample run list for the idempotence of
`_normalize_inline_run_list`: a text run followed by a link whose
`href` is empty. -/
def c8Bad : List InlineRun :=
  [InlineRun.text "a", InlineRun.link "" [InlineRun.text "b"]]

/-- A plain run list used to exercise the idempotence theorem. -/
def c8Plain : List InlineRun :=
  [InlineRun.text "a", InlineRun.wrap WrapKind.em [InlineRun.text "b"]]

/-! # Theorems -/

/-! ## Basic lemmas -/

theorem clamp_nonneg (x : ℚ) : 0 ≤ clamp x := le_max_left 0 _

theorem clamp_le_one (x : ℚ) : clamp x ≤ 1 := by
  unfold clamp
  exact max_le (by norm_num) (min_le_left 1 x)

theorem pySlice_length_le (s : String) (n : Nat) : (pySlice s n).length ≤ n := by
  show (s.data.take n).length ≤ n
  simp [List.length_take]

theorem stampCandidate_rawContent (c : ExtractionCandidate) :
    (stampCandidate c).rawContent = c.rawContent := rfl

theorem stampCandidate_strategyName (c : ExtractionCandidate) :
    (stampCandidate c).strategyName = c.strategyName := rfl

theorem stampCandidate_qualityScore (c : ExtractionCandidate) :
    (stampCandidate c).qualityScore = (score_candidate c).score := rfl

theorem orchLoop_nil (cfg : OrchestratorConfig) (best0 : Option ExtractionCandidate) :
    orchLoop cfg [] best0 = ([], best0) := rfl

theorem orchLoop_cons_error (cfg : OrchestratorConfig) (name : String)
    (e : String) (rest : List StrategyOutcome) (best0 : Option ExtractionCandidate) :
    orchLoop cfg ((name, Except.error e) :: rest) best0 =
      (attemptOf (name, Except.error e) :: (orchLoop cfg rest best0).1,
        (orchLoop cfg rest best0).2) := rfl

theorem orchLoop_cons_ok (cfg : OrchestratorConfig) (name : String)
    (c : ExtractionCandidate) (rest : List StrategyOutcome)
    (best0 : Option ExtractionCandidate) :
    orchLoop cfg ((name, Except.ok c) :: rest) best0 =
      (if cfg.acceptanceThreshold ≤ (score_candidate c).score then
        ([attemptOf (name, Except.ok c)], bestAfter best0 c)
      else
        (attemptOf (name, Except.ok c) ::
            (orchLoop cfg rest (bestAfter best0 c)).1,
          (orchLoop cfg rest (bestAfter best0 c)).2)) := by
  cases best0 <;> rfl

theorem bestAfter_cases (best0 : Option ExtractionCandidate)
    (c b : ExtractionCandidate) (h : bestAfter best0 c = some b) :
    b = stampCandidate c ∨ best0 = some b := by
  cases best0 with
  | none => exact Or.inl (Option.some.inj h).symm
  | some b0 =>
    have h' : (if b0.qualityScore < (score_candidate c).score then
        some (stampCandidate c) else some b0) = some b := h
    by_cases hcmp : b0.qualityScore < (score_candidate c).score
    · rw [if_pos hcmp] at h'
      exact Or.inl (Option.some.inj h').symm
    · rw [if_neg hcmp] at h'
      exact Or.inr (by rw [Option.some.inj h'])

/-- Any candidate returned by `orchLoop` is the initial best or the
stamped candidate of one of the outcomes. -/
theorem orchLoop_best_origin (cfg : OrchestratorConfig) :
    ∀ (outs : List StrategyOutcome) (best0 : Option ExtractionCandidate)
      (b : ExtractionCandidate),
      (orchLoop cfg outs best0).2 = some b →
      best0 = some b ∨
        ∃ o ∈ outs, ∃ c, o.2 = Except.ok c ∧ b = stampCandidate c := by
  intro outs
  induction outs with
  | nil =>
    intro best0 b h
    exact Or.inl h
  | cons o rest ih =>
    obtain ⟨name, outcome⟩ := o
    intro best0 b h
    cases outcome with
    | error e =>
      rw [orchLoop_cons_error] at h
      rcases ih best0 b h with h1 | ⟨o', ho', c, hc, hb⟩
      · exact Or.inl h1
      · exact Or.inr ⟨o', List.mem_cons_of_mem _ ho', c, hc, hb⟩
    | ok c =>
      rw [orchLoop_cons_ok] at h
      by_cases hthr : cfg.acceptanceThreshold ≤ (score_candidate c).score
      · rw [if_pos hthr] at h
        simp only at h
        rcases bestAfter_cases best0 c b h with h1 | h1
        · exact Or.inr ⟨(name, Except.ok c), List.mem_cons_self _ _, c, rfl, h1⟩
        · exact Or.inl h1
      · rw [if_neg hthr] at h
        simp only at h
        rcases ih (bestAfter best0 c) b h with h1 | ⟨o', ho', c', hc', hb⟩
        · rcases bestAfter_cases best0 c b h1 with h2 | h2
          · exact Or.inr ⟨(name, Except.ok c), List.mem_cons_self _ _, c, rfl, h2⟩
          · exact Or.inl h2
        · exact Or.inr ⟨o', List.mem_cons_of_mem _ ho', c', hc', hb⟩

/-- Unpacking a successful `orchestratorRun`. -/
theorem orchestratorRun_ok_unpack (cfg : OrchestratorConfig)
    (outs : List StrategyOutcome) (d : ExtractionDecision)
    (h : orchestratorRun cfg outs = .ok d) :
    (orchLoop cfg outs none).2 = some d.candidate ∧
      d.attempts = (orchLoop cfg outs none).1 ∧
      ¬d.candidate.qualityScore < cfg.minimumAcceptableScore := by
  unfold orchestratorRun at h
  match hb : (orchLoop cfg outs none).2 with
  | none => rw [hb] at h; exact absurd h (by simp)
  | some best =>
    rw [hb] at h
    simp only at h
    by_cases hlow : best.qualityScore < cfg.minimumAcceptableScore
    · rw [if_pos hlow] at h
      exact absurd h (by simp)
    · rw [if_neg hlow] at h
      injection h with hd
      rw [← hd]
      exact ⟨rfl, rfl, hlow⟩

/-! ## C4: candidate bounds -/

/-- C4: every score and confidence computed by `score_candidate` lies
in `[0, 1]`, and every candidate produced by the modelled strategies
(`apply_rule`, the HTTP-readability and JSON-LD extracts) — as well as
the candidate carried by a successful orchestrator result, provided the
strategies respected the budget — has `raw_content` of length at most
`max_chars`. -/
theorem c4_scores_bounded_and_content_truncated :
    (∀ c : ExtractionCandidate,
      0 ≤ (score_candidate c).score ∧ (score_candidate c).score ≤ 1 ∧
      0 ≤ (score_candidate c).confidence ∧ (score_candidate c).confidence ≤ 1) ∧
    (∀ reo uj url payload ct rule gen maxChars c,
      apply_rule reo uj url payload ct rule gen maxChars = .ok c →
      c.rawContent.length ≤ maxChars) ∧
    (∀ uj page ctxUrl maxChars c,
      httpReadabilityExtract uj page ctxUrl maxChars = .ok c →
      c.rawContent.length ≤ maxChars) ∧
    (∀ parse uj page ctxUrl maxChars c,
      jsonLdExtract parse uj page ctxUrl maxChars = .ok c →
      c.rawContent.length ≤ maxChars) ∧
    (∀ cfg outs d,
      orchestratorRun cfg outs = .ok d →
      (∀ o ∈ outs, ∀ c, o.2 = Except.ok c → c.rawContent.length ≤ cfg.maxChars) →
      d.candidate.rawContent.length ≤ cfg.maxChars) := by
  refine ⟨?_, ?_, ?_, ?_, ?_⟩
  · intro c
    exact ⟨clamp_nonneg _, clamp_le_one _, clamp_nonneg _, clamp_le_one _⟩
  · intro reo uj url payload ct rule gen maxChars c h
    simp only [apply_rule] at h
    repeat' split at h
    all_goals first
    | exact Except.noConfusion h
    | (injection h with hc
       rw [← hc]
       exact pySlice_length_le _ _)
  · intro uj page ctxUrl maxChars c h
    simp only [httpReadabilityExtract] at h
    repeat' split at h
    all_goals first
    | exact Except.noConfusion h
    | (injection h with hc
       rw [← hc]
       exact pySlice_length_le _ _)
  · intro parse uj page ctxUrl maxChars c h
    simp only [jsonLdExtract] at h
    repeat' split at h
    all_goals first
    | exact Except.noConfusion h
    | (injection h with hc
       rw [← hc]
       exact pySlice_length_le _ _)
  · intro cfg outs d h hbound
    have hok := orchestratorRun_ok_unpack cfg outs d h
    rcases orchLoop_best_origin cfg outs none d.candidate hok.1 with h0 | ⟨o, ho, c, hc, hb⟩
    · exact absurd h0 (by simp)
    · rw [hb, stampCandidate_rawContent]
      exact hbound o ho c hc

/-- Witness for C4: a concrete `apply_rule` success with the
`raw_content` bound checked at `max_chars = 200`. -/
theorem c4_witness :
    c4WitnessOutcome = .ok c4WitnessCandidate ∧
    c4WitnessCandidate.rawContent.length ≤ 200 := by
  constructor
  · rfl
  · exact c4_scores_bounded_and_content_truncated.2.1
      ⟨fun _ payload => some [payload], fun _ t => some t⟩ (fun _ u => u)
      "https://example.com/a" c4WitnessPayload "text/html"
      ⟨"example.com", ["x"], [], 9/10, "m", 0⟩ true 200 c4WitnessCandidate rfl

/-! ## Orchestrator loop structure -/

theorem attemptOf_strategyName (o : StrategyOutcome) :
    (attemptOf o).strategyName = o.1 := by
  obtain ⟨n, outcome⟩ := o
  cases outcome <;> rfl

theorem attempts_names : ∀ l : List StrategyOutcome,
    (l.map attemptOf).map Attempt.strategyName = l.map Prod.fst
  | [] => rfl
  | o :: l => by
    show (attemptOf o).strategyName :: _ = o.1 :: _
    rw [attemptOf_strategyName, attempts_names l]

theorem attemptOf_pointwise (o : StrategyOutcome) :
    (∀ c, o.2 = Except.ok c →
      attemptOf o = { strategyName := o.1, success := true,
                      score := some (score_candidate c).score,
                      confidence := some (score_candidate c).confidence,
                      reason := none }) ∧
    (∀ e, o.2 = Except.error e →
      attemptOf o = { strategyName := o.1, success := false, score := none,
                      confidence := none, reason := some e }) := by
  obtain ⟨n, outcome⟩ := o
  cases outcome with
  | error e0 =>
    constructor
    · intro c hc
      exact Except.noConfusion hc
    · intro e he
      have hee : e = e0 := (Except.error.inj he).symm
      rw [hee]
      rfl
  | ok c0 =>
    constructor
    · intro c hc
      have hcc : c = c0 := (Except.ok.inj hc).symm
      rw [hcc]
      rfl
    · intro e he
      exact Except.noConfusion he

theorem forall2_map_self {α β : Type} (R : β → α → Prop) (f : α → β) :
    ∀ l : List α, (∀ o ∈ l, R (f o) o) → List.Forall₂ R (l.map f) l := by
  intro l
  induction l with
  | nil => intro _; exact List.Forall₂.nil
  | cons a l ih =>
    intro h
    exact List.Forall₂.cons (h a (List.mem_cons_self _ _))
      (ih (fun o ho => h o (List.mem_cons_of_mem _ ho)))

theorem acceptsAt_true_iff (cfg : OrchestratorConfig) (o : StrategyOutcome) :
    acceptsAt cfg o = true ↔
      ∃ c, o.2 = Except.ok c ∧
        cfg.acceptanceThreshold ≤ (score_candidate c).score := by
  obtain ⟨n, outcome⟩ := o
  cases outcome with
  | error e => simp [acceptsAt]
  | ok c => simp [acceptsAt]

theorem acceptsAt_false_iff (cfg : OrchestratorConfig) (o : StrategyOutcome) :
    acceptsAt cfg o = false ↔
      ∀ c, o.2 = Except.ok c →
        (score_candidate c).score < cfg.acceptanceThreshold := by
  obtain ⟨n, outcome⟩ := o
  cases outcome with
  | error e => simp [acceptsAt]
  | ok c => simp [acceptsAt, not_le]

theorem bestAfter_some (best0 : Option ExtractionCandidate)
    (c : ExtractionCandidate) : ∃ b, bestAfter best0 c = some b := by
  cases best0 with
  | none => exact ⟨stampCandidate c, rfl⟩
  | some b0 =>
    by_cases hcmp : b0.qualityScore < (score_candidate c).score
    · exact ⟨stampCandidate c, by
        show (if b0.qualityScore < (score_candidate c).score then
          some (stampCandidate c) else some b0) = _
        rw [if_pos hcmp]⟩
    · exact ⟨b0, by
        show (if b0.qualityScore < (score_candidate c).score then
          some (stampCandidate c) else some b0) = _
        rw [if_neg hcmp]⟩

theorem bestAfter_score_le (best0 : Option ExtractionCandidate)
    (c b : ExtractionCandidate) (h : bestAfter best0 c = some b) :
    (score_candidate c).score ≤ b.qualityScore := by
  cases best0 with
  | none =>
    have hb : b = stampCandidate c := (Option.some.inj h).symm
    exact le_of_eq (by rw [hb, stampCandidate_qualityScore])
  | some b0 =>
    have h' : (if b0.qualityScore < (score_candidate c).score then
        some (stampCandidate c) else some b0) = some b := h
    by_cases hcmp : b0.qualityScore < (score_candidate c).score
    · rw [if_pos hcmp] at h'
      have hb : b = stampCandidate c := (Option.some.inj h').symm
      exact le_of_eq (by rw [hb, stampCandidate_qualityScore])
    · rw [if_neg hcmp] at h'
      have hb : b = b0 := (Option.some.inj h').symm
      rw [hb]
      exact le_of_not_lt hcmp

theorem bestAfter_mono (b0 c b : ExtractionCandidate)
    (h : bestAfter (some b0) c = some b) :
    b0.qualityScore ≤ b.qualityScore := by
  have h' : (if b0.qualityScore < (score_candidate c).score then
      some (stampCandidate c) else some b0) = some b := h
  by_cases hcmp : b0.qualityScore < (score_candidate c).score
  · rw [if_pos hcmp] at h'
    have hb : b = stampCandidate c := (Option.some.inj h').symm
    rw [hb, stampCandidate_qualityScore]
    exact le_of_lt hcmp
  · rw [if_neg hcmp] at h'
    exact le_of_eq (congrArg ExtractionCandidate.qualityScore (Option.some.inj h'))

theorem orchFoldBest_skip :
    ∀ (l : List StrategyOutcome) (best0 : Option ExtractionCandidate),
      (∀ o ∈ l, ∀ c, o.2 ≠ Except.ok c) → orchFoldBest best0 l = best0 := by
  intro l
  induction l with
  | nil => intro best0 _; rfl
  | cons o rest ih =>
    intro best0 hall
    obtain ⟨n, outcome⟩ := o
    cases outcome with
    | error e =>
      exact ih best0 (fun o' ho' => hall o' (List.mem_cons_of_mem _ ho'))
    | ok c =>
      exact absurd rfl (hall (n, Except.ok c) (List.mem_cons_self _ _) c)

theorem orchFoldBest_mono_max :
    ∀ (l : List StrategyOutcome) (best0 : Option ExtractionCandidate)
      (b : ExtractionCandidate), orchFoldBest best0 l = some b →
      (∀ c0, best0 = some c0 → c0.qualityScore ≤ b.qualityScore) ∧
      (∀ o ∈ l, ∀ c, o.2 = Except.ok c →
        (score_candidate c).score ≤ b.qualityScore) ∧
      (best0 = some b ∨
        ∃ o ∈ l, ∃ c, o.2 = Except.ok c ∧ b = stampCandidate c) := by
  intro l
  induction l with
  | nil =>
    intro best0 b h
    refine ⟨?_, ?_, Or.inl h⟩
    · intro c0 h0
      rw [h0] at h
      exact le_of_eq (congrArg ExtractionCandidate.qualityScore (Option.some.inj h))
    · intro o ho
      exact absurd ho (List.not_mem_nil o)
  | cons o rest ih =>
    intro best0 b h
    obtain ⟨n, outcome⟩ := o
    cases outcome with
    | error e =>
      have h2 : orchFoldBest best0 rest = some b := h
      obtain ⟨m1, m2, m3⟩ := ih best0 b h2
      refine ⟨m1, ?_, ?_⟩
      · intro o' ho' c hc
        rcases List.mem_cons.mp ho' with rfl | ho'
        · exact Except.noConfusion hc
        · exact m2 o' ho' c hc
      · rcases m3 with h3 | ⟨o', ho', c', hc', hb⟩
        · exact Or.inl h3
        · exact Or.inr ⟨o', List.mem_cons_of_mem _ ho', c', hc', hb⟩
    | ok c =>
      have h2 : orchFoldBest (bestAfter best0 c) rest = some b := h
      obtain ⟨m1, m2, m3⟩ := ih (bestAfter best0 c) b h2
      obtain ⟨b1, hb1⟩ := bestAfter_some best0 c
      have hcb : (score_candidate c).score ≤ b.qualityScore :=
        le_trans (bestAfter_score_le best0 c b1 hb1) (m1 b1 hb1)
      refine ⟨?_, ?_, ?_⟩
      · intro c0 h0
        subst h0
        exact le_trans (bestAfter_mono c0 c b1 hb1) (m1 b1 hb1)
      · intro o' ho' c' hc'
        rcases List.mem_cons.mp ho' with rfl | ho'
        · have hcc : c' = c := (Except.ok.inj hc').symm
          rw [hcc]
          exact hcb
        · exact m2 o' ho' c' hc'
      · rcases m3 with h3 | ⟨o', ho', c', hc', hb⟩
        · rcases bestAfter_cases best0 c b h3 with h4 | h4
          · exact Or.inr ⟨(n, Except.ok c), List.mem_cons_self _ _, c, rfl, h4⟩
          · exact Or.inl h4
        · exact Or.inr ⟨o', List.mem_cons_of_mem _ ho', c', hc', hb⟩

/-- Every `orchLoop` run processes an initial segment of the outcomes:
its attempts are the attempt records of that segment, its best
candidate is the strict-improvement fold over it, and the segment
either is the whole input with no accepting outcome on it, or ends at
the first outcome reaching the acceptance threshold. -/
theorem orchLoop_processed (cfg : OrchestratorConfig)
    (outs : List StrategyOutcome) (best0 : Option ExtractionCandidate) :
    ∃ processed : List StrategyOutcome,
      (∃ k, k ≤ outs.length ∧ processed = outs.take k) ∧
      (orchLoop cfg outs best0).1 = processed.map attemptOf ∧
      (orchLoop cfg outs best0).2 = orchFoldBest best0 processed ∧
      ((∀ o ∈ processed, acceptsAt cfg o = false) ∧ processed = outs ∨
        ∃ pre last, processed = pre ++ [last] ∧
          (∀ o ∈ pre, acceptsAt cfg o = false) ∧
          acceptsAt cfg last = true) := by
  induction outs generalizing best0 with
  | nil =>
    exact ⟨[], ⟨0, Nat.zero_le _, rfl⟩, rfl, rfl,
      Or.inl ⟨fun o ho => absurd ho (List.not_mem_nil o), rfl⟩⟩
  | cons o rest ih =>
    obtain ⟨n, outcome⟩ := o
    cases outcome with
    | error e =>
      obtain ⟨p', ⟨k', hk', hkeq⟩, h1, h2, h3⟩ := ih best0
      refine ⟨(n, Except.error e) :: p',
        ⟨k' + 1, Nat.succ_le_succ hk', by rw [hkeq, List.take_succ_cons]⟩,
        ?_, ?_, ?_⟩
      · rw [orchLoop_cons_error]
        exact congrArg (List.cons (attemptOf (n, Except.error e))) h1
      · rw [orchLoop_cons_error]
        exact h2
      · rcases h3 with ⟨hall, heq⟩ | ⟨pre, last, heq, hpre, hlast⟩
        · refine Or.inl ⟨?_, by rw [heq]⟩
          intro o' ho'
          rcases List.mem_cons.mp ho' with rfl | ho'
          · rfl
          · exact hall o' ho'
        · refine Or.inr ⟨(n, Except.error e) :: pre, last,
            by rw [heq, List.cons_append], ?_, hlast⟩
          intro o' ho'
          rcases List.mem_cons.mp ho' with rfl | ho'
          · rfl
          · exact hpre o' ho'
    | ok c =>
      by_cases hthr : cfg.acceptanceThreshold ≤ (score_candidate c).score
      · refine ⟨[(n, Except.ok c)],
          ⟨1, Nat.succ_le_succ (Nat.zero_le _), rfl⟩, ?_, ?_, ?_⟩
        · rw [orchLoop_cons_ok, if_pos hthr]
          rfl
        · rw [orchLoop_cons_ok, if_pos hthr]
          rfl
        · exact Or.inr ⟨[], (n, Except.ok c), rfl,
            fun o ho => absurd ho (List.not_mem_nil o), by simp [acceptsAt, hthr]⟩
      · obtain ⟨p', ⟨k', hk', hkeq⟩, h1, h2, h3⟩ := ih (bestAfter best0 c)
        refine ⟨(n, Except.ok c) :: p',
          ⟨k' + 1, Nat.succ_le_succ hk', by rw [hkeq, List.take_succ_cons]⟩,
          ?_, ?_, ?_⟩
        · rw [orchLoop_cons_ok, if_neg hthr]
          exact congrArg (List.cons (attemptOf (n, Except.ok c))) h1
        · rw [orchLoop_cons_ok, if_neg hthr]
          exact h2
        · rcases h3 with ⟨hall, heq⟩ | ⟨pre, last, heq, hpre, hlast⟩
          · refine Or.inl ⟨?_, by rw [heq]⟩
            intro o' ho'
            rcases List.mem_cons.mp ho' with rfl | ho'
            · simp [acceptsAt, hthr]
            · exact hall o' ho'
          · refine Or.inr ⟨(n, Except.ok c) :: pre, last,
            by rw [heq, List.cons_append], ?_, hlast⟩
            intro o' ho'
            rcases List.mem_cons.mp ho' with rfl | ho'
            · simp [acceptsAt, hthr]
            · exact hpre o' ho'

theorem orchestratorRun_some (cfg : OrchestratorConfig)
    (outs : List StrategyOutcome) (b : ExtractionCandidate)
    (hb : (orchLoop cfg outs none).2 = some b) :
    orchestratorRun cfg outs =
      if b.qualityScore < cfg.minimumAcceptableScore then
        Except.error (RunFailure.qualityBelowThreshold b.qualityScore
          cfg.minimumAcceptableScore)
      else Except.ok { candidate := b,
                       attempts := (orchLoop cfg outs none).1 } := by
  unfold orchestratorRun
  rw [hb]

theorem orchestratorRun_none (cfg : OrchestratorConfig)
    (outs : List StrategyOutcome)
    (hn : (orchLoop cfg outs none).2 = none) :
    orchestratorRun cfg outs = Except.error (RunFailure.extractionFailed
      ("Failed to extract readable article content. " ++
        joinFailureReasons ((orchLoop cfg outs none).1))) := by
  unfold orchestratorRun
  rw [hn]

/-! ## C1: strategy order of the default orchestrator -/

/-- Counterexample for C1: the default strategy list built by
`WebDocumentExtractionOrchestrator.__init__` never contains the
ArXiv-HTML strategy, so the declared order is not the six-step order
the specification states. -/
theorem c1_counterexample :
    arxivHtmlStrategyName ∉ defaultStrategyNames ∧
    defaultStrategyNames ≠
      ["x_status_api", "domain_adapter", "arxiv_html", "json_ld",
       "http_readability", "llm_adaptive"] := by decide

/-- C1 (amended): the default orchestrator iterates exactly
x_status_api, domain_adapter, json_ld, http_readability, llm_adaptive
in declared order — without any arxiv_html strategy.  A successful run
over outcomes named by that list records its attempts as an initial
segment of the declared order, no attempt is named `arxiv_html`, and
the winning candidate is the stamped candidate of one of the
outcomes. -/
theorem c1_default_order_without_arxiv
    (cfg : OrchestratorConfig) (outs : List StrategyOutcome)
    (hnames : outs.map Prod.fst = defaultStrategyNames)
    (d : ExtractionDecision)
    (h : orchestratorRun cfg outs = Except.ok d) :
    d.attempts.map Attempt.strategyName =
      defaultStrategyNames.take d.attempts.length ∧
    (∀ a ∈ d.attempts, a.strategyName ≠ arxivHtmlStrategyName) ∧
    ∃ o ∈ outs, ∃ c, o.2 = Except.ok c ∧ d.candidate = stampCandidate c := by
  obtain ⟨hcand, hatts, hmin⟩ := orchestratorRun_ok_unpack cfg outs d h
  obtain ⟨processed, ⟨k, hkle, hkeq⟩, hatt, hbest, hdisj⟩ :=
    orchLoop_processed cfg outs none
  have hda : d.attempts = processed.map attemptOf := by rw [hatts, hatt]
  have hplen : processed.length = k := by
    rw [hkeq, List.length_take]
    exact Nat.min_eq_left hkle
  have hnames2 : processed.map Prod.fst = defaultStrategyNames.take k := by
    rw [hkeq, ← hnames]
    exact List.map_take Prod.fst outs k
  refine ⟨?_, ?_, ?_⟩
  · rw [hda, attempts_names, hnames2, List.length_map, hplen]
  · intro a ha
    rw [hda] at ha
    obtain ⟨o, ho, rfl⟩ := List.mem_map.mp ha
    rw [attemptOf_strategyName]
    intro heq2
    have h1 : o.1 ∈ processed.map Prod.fst := List.mem_map_of_mem Prod.fst ho
    rw [hnames2] at h1
    have h2 : o.1 ∈ defaultStrategyNames := List.take_subset _ _ h1
    rw [heq2] at h2
    exact absurd h2 (by decide)
  · rcases orchLoop_best_origin cfg outs none d.candidate hcand with h0 | h0
    · exact absurd h0 (by simp)
    · exact h0

/-- Witness for C1: a concrete run over outcomes named after the five
default strategies, with `json_ld` succeeding. -/
theorem c1_witness :
    c1WitnessOuts.map Prod.fst = defaultStrategyNames ∧
    orchestratorRun lenientConfig c1WitnessOuts = Except.ok c1WitnessDecision ∧
    (c1WitnessDecision.attempts.map Attempt.strategyName =
        defaultStrategyNames.take c1WitnessDecision.attempts.length ∧
      (∀ a ∈ c1WitnessDecision.attempts,
        a.strategyName ≠ arxivHtmlStrategyName) ∧
      ∃ o ∈ c1WitnessOuts, ∃ c, o.2 = Except.ok c ∧
        c1WitnessDecision.candidate = stampCandidate c) :=
  ⟨by decide, by rfl,
    c1_default_order_without_arxiv lenientConfig c1WitnessOuts (by decide)
      c1WitnessDecision (by rfl)⟩

/-! ## C3: the orchestration contract -/

/-- C3: every orchestration run processes an initial segment of the
strategy outcomes; the segment is everything (when no candidate reaches
the acceptance threshold) or ends at the first candidate reaching it;
on success the attempts record exactly the processed successes (scored)
and failures (with their reasons), the returned candidate is a
highest-scoring processed candidate at or above the minimum acceptable
score; when no strategy produced a candidate the run fails with
`ExtractionFailed` carrying the joined failure reasons; and when the
best candidate scores below the minimum the run fails with
`QualityBelowThreshold`. -/
theorem c3_orchestration_contract (cfg : OrchestratorConfig)
    (outs : List StrategyOutcome) :
    ∃ processed : List StrategyOutcome,
      (∃ k, k ≤ outs.length ∧ processed = outs.take k) ∧
      ((∀ o ∈ processed, ∀ c, o.2 = Except.ok c →
          (score_candidate c).score < cfg.acceptanceThreshold) ∧
          processed = outs ∨
        ∃ pre last, processed = pre ++ [last] ∧
          (∀ o ∈ pre, ∀ c, o.2 = Except.ok c →
            (score_candidate c).score < cfg.acceptanceThreshold) ∧
          ∃ c, last.2 = Except.ok c ∧
            cfg.acceptanceThreshold ≤ (score_candidate c).score) ∧
      (∀ d, orchestratorRun cfg outs = Except.ok d →
        List.Forall₂ (fun (a : Attempt) (o : StrategyOutcome) =>
            (∀ c, o.2 = Except.ok c →
              a = { strategyName := o.1, success := true,
                    score := some (score_candidate c).score,
                    confidence := some (score_candidate c).confidence,
                    reason := none }) ∧
            (∀ e, o.2 = Except.error e →
              a = { strategyName := o.1, success := false, score := none,
                    confidence := none, reason := some e }))
          d.attempts processed ∧
        (∀ o ∈ processed, ∀ c, o.2 = Except.ok c →
          (score_candidate c).score ≤ d.candidate.qualityScore) ∧
        (∃ o ∈ processed, ∃ c, o.2 = Except.ok c ∧
          d.candidate = stampCandidate c) ∧
        cfg.minimumAcceptableScore ≤ d.candidate.qualityScore) ∧
      ((∀ o ∈ outs, ∀ c, o.2 ≠ Except.ok c) →
        orchestratorRun cfg outs = Except.error (RunFailure.extractionFailed
          ("Failed to extract readable article content. " ++
            joinFailureReasons (outs.map attemptOf)))) ∧
      (∀ b, (orchLoop cfg outs none).2 = some b →
        b.qualityScore < cfg.minimumAcceptableScore →
        orchestratorRun cfg outs = Except.error
          (RunFailure.qualityBelowThreshold b.qualityScore
            cfg.minimumAcceptableScore)) := by
  obtain ⟨processed, hk, hatt, hbest, hdisj⟩ := orchLoop_processed cfg outs none
  refine ⟨processed, hk, ?_, ?_, ?_, ?_⟩
  · rcases hdisj with ⟨hall, heq⟩ | ⟨pre, last, heq, hpre, hlast⟩
    · exact Or.inl
        ⟨fun o ho c hc => (acceptsAt_false_iff cfg o).mp (hall o ho) c hc, heq⟩
    · exact Or.inr ⟨pre, last, heq,
        fun o ho c hc => (acceptsAt_false_iff cfg o).mp (hpre o ho) c hc,
        (acceptsAt_true_iff cfg last).mp hlast⟩
  · intro d hd
    obtain ⟨hcand, hatts, hmin⟩ := orchestratorRun_ok_unpack cfg outs d hd
    have hda : d.attempts = processed.map attemptOf := by rw [hatts, hatt]
    have hdc : orchFoldBest none processed = some d.candidate := by
      rw [← hbest, hcand]
    obtain ⟨m1, m2, m3⟩ := orchFoldBest_mono_max processed none d.candidate hdc
    refine ⟨?_, m2, ?_, not_lt.mp hmin⟩
    · rw [hda]
      exact forall2_map_self _ attemptOf processed
        (fun o _ => attemptOf_pointwise o)
    · rcases m3 with h3 | h3
      · exact absurd h3 (by simp)
      · exact h3
  · intro hall
    have hacc : ∀ o ∈ outs, acceptsAt cfg o = false := by
      intro o ho
      rw [acceptsAt_false_iff]
      intro c hc
      exact absurd hc (hall o ho c)
    have hpo : processed = outs := by
      rcases hdisj with ⟨_, heq⟩ | ⟨pre, last, heq, hpre, hlast⟩
      · exact heq
      · obtain ⟨c, hc, -⟩ := (acceptsAt_true_iff cfg last).mp hlast
        obtain ⟨k, hkle, hke⟩ := hk
        have hlp : last ∈ processed := by
          rw [heq]
          exact List.mem_append_right _ (List.mem_cons_self _ _)
        have hlo : last ∈ outs := by
          rw [hke] at hlp
          exact List.take_subset k outs hlp
        exact absurd hc (hall last hlo c)
    have hnone : (orchLoop cfg outs none).2 = none := by
      rw [hbest, hpo]
      exact orchFoldBest_skip outs none hall
    rw [orchestratorRun_none cfg outs hnone, hatt, hpo]
  · intro b hb hq
    rw [orchestratorRun_some cfg outs b hb, if_pos hq]

/-- Witness for C3: a concrete all-failing run fails with the joined
failure reasons (an empty reason is reported as `unknown error`). -/
theorem c3_witness :
    orchestratorRun defaultOrchestratorConfig c3WitnessOuts =
      Except.error (RunFailure.extractionFailed
        ("Failed to extract readable article content. " ++
         "json_ld: no json-ld blocks; http_readability: unknown error")) := by
  obtain ⟨processed, -, -, -, hfail, -⟩ :=
    c3_orchestration_contract defaultOrchestratorConfig c3WitnessOuts
  have h := hfail (by
    intro o ho c hc
    simp only [c3WitnessOuts, List.mem_cons, List.not_mem_nil, or_false] at ho
    rcases ho with rfl | rfl <;> exact Except.noConfusion hc)
  exact h.trans (by rfl)

/-! ## C10: ties keep the earlier strategy -/

/-- C10: the running best candidate is replaced only on a strictly
greater score; in particular, when two successful strategies score
exactly equal (both below the acceptance threshold), the returned
result carries the candidate of the earlier strategy. -/
theorem c10_tie_keeps_earlier (cfg : OrchestratorConfig) (n1 n2 : String)
    (cA cB : ExtractionCandidate)
    (heq : (score_candidate cB).score = (score_candidate cA).score)
    (hlt : (score_candidate cA).score < cfg.acceptanceThreshold)
    (hmin : cfg.minimumAcceptableScore ≤ (score_candidate cA).score) :
    (∀ b0 c, ¬ b0.qualityScore < (score_candidate c).score →
      bestAfter (some b0) c = some b0) ∧
    orchestratorRun cfg [(n1, Except.ok cA), (n2, Except.ok cB)] =
      Except.ok { candidate := stampCandidate cA,
                  attempts := [attemptOf (n1, Except.ok cA),
                               attemptOf (n2, Except.ok cB)] } := by
  have hkeep : ∀ b0 c, ¬ b0.qualityScore < (score_candidate c).score →
      bestAfter (some b0) c = some b0 := by
    intro b0 c hc
    show (if b0.qualityScore < (score_candidate c).score then
      some (stampCandidate c) else some b0) = some b0
    rw [if_neg hc]
  refine ⟨hkeep, ?_⟩
  have hltB : (score_candidate cB).score < cfg.acceptanceThreshold := by
    rw [heq]
    exact hlt
  have hX : bestAfter (bestAfter none cA) cB = some (stampCandidate cA) := by
    show bestAfter (some (stampCandidate cA)) cB = some (stampCandidate cA)
    refine hkeep _ _ ?_
    rw [stampCandidate_qualityScore, heq]
    exact lt_irrefl _
  have h1 : orchLoop cfg [(n1, Except.ok cA), (n2, Except.ok cB)] none =
      ([attemptOf (n1, Except.ok cA), attemptOf (n2, Except.ok cB)],
        some (stampCandidate cA)) := by
    rw [orchLoop_cons_ok, if_neg (not_le.mpr hlt)]
    rw [orchLoop_cons_ok, if_neg (not_le.mpr hltB)]
    rw [orchLoop_nil, hX]
  rw [orchestratorRun_some cfg _ (stampCandidate cA) (by rw [h1])]
  rw [if_neg (not_lt.mpr (by rw [stampCandidate_qualityScore]; exact hmin))]
  rw [show (orchLoop cfg [(n1, Except.ok cA), (n2, Except.ok cB)] none).1 =
    [attemptOf (n1, Except.ok cA), attemptOf (n2, Except.ok cB)] from
    by rw [h1]]

/-- Witness for C10: two identical-content candidates from different
strategies score exactly equal, and the earlier one wins. -/
theorem c10_witness :
    orchestratorRun lenientConfig
        [("json_ld", Except.ok (sampleCandidate "json_ld")),
         ("http_readability", Except.ok (sampleCandidate "http_readability"))] =
      Except.ok { candidate := stampCandidate (sampleCandidate "json_ld"),
                  attempts := [attemptOf ("json_ld",
                                 Except.ok (sampleCandidate "json_ld")),
                               attemptOf ("http_readability",
                                 Except.ok (sampleCandidate "http_readability"))] } :=
  (c10_tie_keeps_earlier lenientConfig "json_ld" "http_readability"
    (sampleCandidate "json_ld") (sampleCandidate "http_readability")
    (by decide) (by decide) (by decide)).2

/-! ## Character-level facts for host keys -/

theorem char_toLower_toNat (c : Char) :
    (Char.toLower c).toNat =
      if 65 ≤ c.toNat ∧ c.toNat ≤ 90 then c.toNat + 32 else c.toNat := by
  rw [show Char.toLower c = if 65 ≤ c.toNat ∧ c.toNat ≤ 90 then
    Char.ofNat (c.toNat + 32) else c from rfl]
  by_cases h : 65 ≤ c.toNat ∧ c.toNat ≤ 90
  · rw [if_pos h, if_pos h]
    have hv : Nat.isValidChar (c.toNat + 32) := Or.inl (by omega)
    rw [Char.ofNat, dif_pos hv]
    rfl
  · rw [if_neg h, if_neg h]

theorem toLower_eq_self_of_not (c : Char)
    (h : ¬(65 ≤ c.toNat ∧ c.toNat ≤ 90)) : Char.toLower c = c := by
  rw [show Char.toLower c = if 65 ≤ c.toNat ∧ c.toNat ≤ 90 then
    Char.ofNat (c.toNat + 32) else c from rfl]
  rw [if_neg h]

theorem toLower_toLower (c : Char) :
    Char.toLower (Char.toLower c) = Char.toLower c := by
  by_cases h : 65 ≤ c.toNat ∧ c.toNat ≤ 90
  · have h1 : (Char.toLower c).toNat = c.toNat + 32 := by
      rw [char_toLower_toNat, if_pos h]
    exact toLower_eq_self_of_not _ (by rw [h1]; omega)
  · have h0 : Char.toLower c = c := toLower_eq_self_of_not c h
    rw [h0]
    exact h0

theorem isPySpace_false_of_bounds (c : Char) (h1 : 33 ≤ c.toNat)
    (h2 : c.toNat ≤ 132) : isPySpace c = false := by
  unfold isPySpace
  simp only [Bool.or_eq_false_iff, beq_eq_false_iff_ne, ne_eq,
    Bool.and_eq_false_iff, decide_eq_false_iff_not, not_le]
  omega

theorem isPySpace_toLower (c : Char) :
    isPySpace (Char.toLower c) = isPySpace c := by
  by_cases h : 65 ≤ c.toNat ∧ c.toNat ≤ 90
  · have ht : (Char.toLower c).toNat = c.toNat + 32 := by
      rw [char_toLower_toNat, if_pos h]
    rw [isPySpace_false_of_bounds (Char.toLower c) (by omega) (by omega),
      isPySpace_false_of_bounds c (by omega) (by omega)]
  · rw [toLower_eq_self_of_not c h]

theorem dropWhile_map_toLower (l : List Char) :
    (l.map Char.toLower).dropWhile isPySpace =
      (l.dropWhile isPySpace).map Char.toLower := by
  induction l with
  | nil => rfl
  | cons c l ih =>
    by_cases hc : isPySpace c
    · have hc2 : isPySpace (Char.toLower c) = true := by
        rw [isPySpace_toLower]
        exact hc
      rw [List.map_cons, List.dropWhile_cons_of_pos hc2,
        List.dropWhile_cons_of_pos hc, ih]
    · have hc2 : isPySpace (Char.toLower c) = false := by
        rw [isPySpace_toLower]
        exact Bool.eq_false_iff.mpr hc
      rw [List.map_cons, List.dropWhile_cons_of_neg (by rw [hc2]; exact
        Bool.false_ne_true), List.dropWhile_cons_of_neg hc]
      rfl

theorem pyStripL_map_toLower (l : List Char) :
    pyStripL (l.map Char.toLower) = (pyStripL l).map Char.toLower := by
  unfold pyStripL
  rw [dropWhile_map_toLower, ← List.map_reverse, dropWhile_map_toLower,
    ← List.map_reverse]

theorem dropWhile_head_false {α : Type} (p : α → Bool) :
    ∀ (l : List α) (a : α) (tl : List α),
      l.dropWhile p = a :: tl → p a = false := by
  intro l
  induction l with
  | nil =>
    intro a tl h
    exact absurd h (by simp)
  | cons b l ih =>
    intro a tl h
    by_cases hb : p b
    · rw [List.dropWhile_cons_of_pos hb] at h
      exact ih a tl h
    · rw [List.dropWhile_cons_of_neg hb] at h
      obtain ⟨h1, h2⟩ := List.cons.inj h
      rw [← h1]
      exact Bool.eq_false_iff.mpr hb

theorem dropWhile_eq_self_of_head {α : Type} (p : α → Bool) (l : List α)
    (h : ∀ a tl, l = a :: tl → p a = false) : l.dropWhile p = l := by
  cases l with
  | nil => rfl
  | cons a tl =>
    rw [List.dropWhile_cons_of_neg (by rw [h a tl rfl]; exact Bool.false_ne_true)]

theorem pyStripL_dropWhile (l : List Char) :
    (pyStripL l).dropWhile isPySpace = pyStripL l := by
  apply dropWhile_eq_self_of_head
  intro a tl h
  have h1 : (pyStripL l).head? = some a := by rw [h]; rfl
  unfold pyStripL at h1
  rw [List.head?_reverse] at h1
  have hne : (l.dropWhile isPySpace).reverse.dropWhile isPySpace ≠ [] := by
    intro h0
    rw [h0] at h1
    exact Option.noConfusion h1
  have h2 : ((l.dropWhile isPySpace).reverse).getLast? = some a := by
    rw [← @List.takeWhile_append_dropWhile Char isPySpace
      ((l.dropWhile isPySpace).reverse)]
    rw [List.getLast?_append_of_ne_nil _ hne]
    exact h1
  rw [List.getLast?_reverse] at h2
  cases hld : l.dropWhile isPySpace with
  | nil =>
    rw [hld] at h2
    exact Option.noConfusion h2
  | cons b tl2 =>
    rw [hld] at h2
    have hab : b = a := Option.some.inj h2
    rw [← hab]
    exact dropWhile_head_false isPySpace l b tl2 hld

theorem pyStripL_rev_dropWhile (l : List Char) :
    ((pyStripL l).reverse).dropWhile isPySpace = (pyStripL l).reverse := by
  apply dropWhile_eq_self_of_head
  intro a tl h
  have h1 : ((pyStripL l).reverse).head? = some a := by rw [h]; rfl
  unfold pyStripL at h1
  rw [List.reverse_reverse] at h1
  cases hv : (l.dropWhile isPySpace).reverse.dropWhile isPySpace with
  | nil =>
    rw [hv] at h1
    exact Option.noConfusion h1
  | cons b tl2 =>
    rw [hv] at h1
    have hab : b = a := Option.some.inj h1
    rw [← hab]
    exact dropWhile_head_false isPySpace _ b tl2 hv

theorem pyStripL_idem (l : List Char) :
    pyStripL (pyStripL l) = pyStripL l := by
  have hstep1 := pyStripL_dropWhile l
  have hstep2 := pyStripL_rev_dropWhile l
  calc pyStripL (pyStripL l)
      = (((pyStripL l).dropWhile isPySpace).reverse.dropWhile
          isPySpace).reverse := rfl
    _ = ((pyStripL l).reverse.dropWhile isPySpace).reverse := by rw [hstep1]
    _ = (pyStripL l).reverse.reverse := by rw [hstep2]
    _ = pyStripL l := List.reverse_reverse _

theorem hostKey_idem (h : String) : hostKey (hostKey h) = hostKey h := by
  show String.mk ((pyStripL ((pyStripL h.data).map Char.toLower)).map
    Char.toLower) = String.mk ((pyStripL h.data).map Char.toLower)
  rw [pyStripL_map_toLower, pyStripL_idem, List.map_map]
  have hcomp : Char.toLower ∘ Char.toLower = Char.toLower :=
    funext toLower_toLower
  rw [hcomp]

/-! ## Rule-store lookup and write lemmas -/

theorem find_map_set {β : Type} (k : String) (v : β) :
    ∀ m : List (String × β),
      ((m.map (fun p => if p.1 == k then (k, v) else p)).find?
        (fun p => p.1 == k)) =
        if m.any (fun p => p.1 == k) then some (k, v) else none := by
  intro m
  induction m with
  | nil => rfl
  | cons hd tl ih =>
    by_cases hh : hd.1 == k
    · rw [List.map_cons, if_pos hh]
      rw [List.find?_cons_of_pos _ (by simp)]
      rw [if_pos (by simp [List.any_cons, hh])]
    · rw [List.map_cons, if_neg hh]
      rw [List.find?_cons_of_neg _ (by simpa using hh)]
      rw [ih]
      have hh2 : (hd.1 == k) = false := Bool.eq_false_iff.mpr hh
      have hany : (hd :: tl).any (fun p => p.1 == k) =
          tl.any (fun p => p.1 == k) := by
        rw [List.any_cons, hh2, Bool.false_or]
      rw [hany]

theorem find_append_single {β : Type} (k : String) (v : β) :
    ∀ m : List (String × β), (∀ p ∈ m, (p.1 == k) = false) →
      (m ++ [(k, v)]).find? (fun p => p.1 == k) = some (k, v) := by
  intro m
  induction m with
  | nil =>
    intro _
    rw [List.nil_append]
    rw [List.find?_cons_of_pos _ (by simp)]
  | cons hd tl ih =>
    intro hall
    rw [List.cons_append]
    rw [List.find?_cons_of_neg _
      (by simp [hall hd (List.mem_cons_self _ _)])]
    exact ih (fun p hp => hall p (List.mem_cons_of_mem _ hp))

theorem assocFind_assocSet {β : Type} (m : List (String × β)) (k : String)
    (v : β) : assocFind (assocSet m k v) k = some v := by
  unfold assocFind assocSet
  by_cases h : m.any (fun p => p.1 == k)
  · rw [if_pos h, find_map_set, if_pos h]
    rfl
  · rw [if_neg h]
    rw [find_append_single k v m]
    · rfl
    · intro p hp
      by_contra hc
      have hc2 : (p.1 == k) = true := by
        cases hb : (p.1 == k)
        · exact absurd hb hc
        · rfl
      exact h (List.any_eq_true.mpr ⟨p, hp, hc2⟩)

theorem assocSet_keys_nodup {β : Type} (m : List (String × β)) (k : String)
    (v : β) (h : (m.map Prod.fst).Nodup) :
    ((assocSet m k v).map Prod.fst).Nodup := by
  unfold assocSet
  by_cases hm : m.any (fun p => p.1 == k)
  · rw [if_pos hm]
    have hkeys : (m.map (fun p => if p.1 == k then (k, v) else p)).map
        Prod.fst = m.map Prod.fst := by
      rw [List.map_map]
      apply List.map_congr_left
      intro p hp
      by_cases hp1 : p.1 == k
      · show ((if p.1 == k then (k, v) else p)).1 = p.1
        rw [if_pos hp1]
        exact (eq_of_beq hp1).symm
      · show ((if p.1 == k then (k, v) else p)).1 = p.1
        rw [if_neg hp1]
    rw [hkeys]
    exact h
  · rw [if_neg hm, List.map_append]
    refine List.Nodup.append h (List.nodup_singleton k) ?_
    intro a ha hb
    simp only [List.map_cons, List.map_nil, List.mem_singleton] at hb
    subst hb
    obtain ⟨p, hp, hpk⟩ := List.mem_map.mp ha
    exact hm (List.any_eq_true.mpr ⟨p, hp, by simp [hpk]⟩)

theorem save_keys_nodup (now : ℚ) (state : RuleStoreState) (host : String)
    (p : PromotedAdapter) (h : (state.promotedAdapters.map Prod.fst).Nodup) :
    (((save_promoted_adapter now state host p).promotedAdapters).map
      Prod.fst).Nodup := by
  unfold save_promoted_adapter
  by_cases hk : hostKey host = ""
  · rw [if_pos hk]
    exact h
  · rw [if_neg hk]
    exact assocSet_keys_nodup _ _ _ h

/-! ## C7: promotion is write-once per host -/

/-- C7: `evaluate_and_promote_rule` never replaces a promoted adapter:
for a host that already has one, it returns `already_promoted` and
leaves the store untouched; every evaluation preserves uniqueness of
the promoted-adapter keys (at most one adapter per host); and once the
store write of a promotion has happened, any further evaluation for the
same host returns `already_promoted` with the state unchanged, so
creating the adapter is idempotent. -/
theorem c7_promotion_write_once :
    (∀ (cfg : PromotionConfig) (reo : ReOracles) (uj : UrlJoinFn) (now : ℚ)
      (state : RuleStoreState) (host : String) (rule : AdaptiveRule)
      (maxChars : Nat),
      hostKey host ≠ "" → cfg.enabled = true →
      (get_promoted_adapter_for_host state (hostKey host)).isSome = true →
      evaluate_and_promote_rule cfg reo uj now state host rule maxChars =
        (PromotionOutcome.alreadyPromoted, state)) ∧
    (∀ (cfg : PromotionConfig) (reo : ReOracles) (uj : UrlJoinFn) (now : ℚ)
      (state : RuleStoreState) (host : String) (rule : AdaptiveRule)
      (maxChars : Nat),
      (state.promotedAdapters.map Prod.fst).Nodup →
      (((evaluate_and_promote_rule cfg reo uj now state host rule
        maxChars).2.promotedAdapters).map Prod.fst).Nodup) ∧
    (∀ (cfg : PromotionConfig) (reo : ReOracles) (uj : UrlJoinFn)
      (now now2 : ℚ) (state : RuleStoreState) (host : String)
      (rule rule2 : AdaptiveRule) (maxChars : Nat)
      (payload : PromotedAdapter),
      hostKey host ≠ "" → cfg.enabled = true →
      evaluate_and_promote_rule cfg reo uj now2
          (save_promoted_adapter now state (hostKey host) payload) host rule2
          maxChars =
        (PromotionOutcome.alreadyPromoted,
          save_promoted_adapter now state (hostKey host) payload)) := by
  have hA : ∀ (cfg : PromotionConfig) (reo : ReOracles) (uj : UrlJoinFn)
      (now : ℚ) (state : RuleStoreState) (host : String)
      (rule : AdaptiveRule) (maxChars : Nat),
      hostKey host ≠ "" → cfg.enabled = true →
      (get_promoted_adapter_for_host state (hostKey host)).isSome = true →
      evaluate_and_promote_rule cfg reo uj now state host rule maxChars =
        (PromotionOutcome.alreadyPromoted, state) := by
    intro cfg reo uj now state host rule maxChars hkey hen hsome
    unfold evaluate_and_promote_rule
    rw [if_neg hkey, if_neg (not_not_intro hen), if_pos hsome]
  refine ⟨hA, ?_, ?_⟩
  · intro cfg reo uj now state host rule maxChars h
    unfold evaluate_and_promote_rule
    dsimp only
    repeat' split
    all_goals first
      | exact h
      | exact save_keys_nodup _ _ _ _ h
  · intro cfg reo uj now now2 state host rule rule2 maxChars payload hkey hen
    have hsave : (save_promoted_adapter now state (hostKey host)
        payload).promotedAdapters =
        assocSet state.promotedAdapters (hostKey host)
          { payload with host := hostKey host, promotedAt := now } := by
      unfold save_promoted_adapter
      rw [hostKey_idem, if_neg hkey]
    have hfind : get_promoted_adapter_for_host
        (save_promoted_adapter now state (hostKey host) payload)
        (hostKey host) =
        some { payload with host := hostKey host, promotedAt := now } := by
      unfold get_promoted_adapter_for_host
      rw [hostKey_idem, if_neg hkey, hsave, assocFind_assocSet]
    exact hA cfg reo uj now2 _ host rule2 maxChars hkey hen (by
      rw [hfind]
      rfl)

/-- Witness for C7: with an adapter already stored for `example.com`,
an evaluation for host ` Example.COM` returns `already_promoted` and
leaves the store unchanged. -/
theorem c7_witness :
    evaluate_and_promote_rule defaultPromotionConfig
        ⟨fun _ _ => none, fun _ _ => none⟩ (fun _ u => u) 0 c7WitnessState
        " Example.COM" ⟨"example.com", [], [], 1, "m", 0⟩ 120000 =
      (PromotionOutcome.alreadyPromoted, c7WitnessState) :=
  c7_promotion_write_once.1 defaultPromotionConfig
    ⟨fun _ _ => none, fun _ _ => none⟩ (fun _ u => u) 0 c7WitnessState
    " Example.COM" ⟨"example.com", [], [], 1, "m", 0⟩ 120000
    (by decide) rfl (by decide)

theorem bool_and_left {a b : Bool} (h : (a && b) = true) : a = true := by
  cases a with
  | false => exact Bool.noConfusion h
  | true => rfl

theorem bool_and_right {a b : Bool} (h : (a && b) = true) : b = true := by
  cases b with
  | false =>
    cases a with
    | false => exact Bool.noConfusion h
    | true => exact Bool.noConfusion h
  | true => rfl

/-- The shape of a `promotionEvaluation` record: its sample count, the
success-rate equation, and the promotion flag as the two threshold
comparisons. -/
theorem promotionEvaluation_spec (cfg : PromotionConfig) (reo : ReOracles)
    (uj : UrlJoinFn) (now : ℚ) (rule : AdaptiveRule) (maxChars : Nat)
    (samples : List ReplaySample) :
    (promotionEvaluation cfg reo uj now rule maxChars samples).sampleCount =
      samples.length ∧
    (promotionEvaluation cfg reo uj now rule maxChars samples).successRate =
      ((promotionEvaluation cfg reo uj now rule maxChars
        samples).successful : ℚ) /
      (max 1 (promotionEvaluation cfg reo uj now rule maxChars
        samples).sampleCount : ℚ) ∧
    ((promotionEvaluation cfg reo uj now rule maxChars samples).promoted =
        true ↔
      cfg.minSuccessRate ≤
        (promotionEvaluation cfg reo uj now rule maxChars
          samples).successRate ∧
      cfg.minAvgScore ≤
        (promotionEvaluation cfg reo uj now rule maxChars
          samples).avgScore) := by
  refine ⟨rfl, rfl, ?_⟩
  constructor
  · intro hb
    exact ⟨of_decide_eq_true (bool_and_left hb),
      of_decide_eq_true (bool_and_right hb)⟩
  · intro hpair
    show (decide (cfg.minSuccessRate ≤
        (promotionEvaluation cfg reo uj now rule maxChars
          samples).successRate) &&
      decide (cfg.minAvgScore ≤
        (promotionEvaluation cfg reo uj now rule maxChars
          samples).avgScore)) = true
    rw [decide_eq_true hpair.1, decide_eq_true hpair.2]
    rfl

/-! ## C6: promotion thresholds -/

/-- Counterexample for C6: with degenerate rate/average thresholds (and
the default `min_samples = 3`), a rule whose replays all fail is still
promoted — zero samples scored at or above `min_sample_score`, yet an
adapter is written to the store. -/
theorem c6_counterexample :
    c6Run.1 = PromotionOutcome.evaluated c6Eval ∧
    c6Eval.promoted = true ∧
    c6Eval.successful = 0 ∧
    c6Config.minSamples = 3 ∧
    (get_promoted_adapter_for_host c6Run.2 "example.com").isSome = true := by
  refine ⟨by decide, by decide, by decide, by decide, by decide⟩

/-- C6 (amended): a promotion records an evaluation whose sample count
reached `min_samples`, whose success rate (successful samples over
`max 1 sample_count`) reached `min_success_rate`, and whose average
score reached `min_avg_score`; the count of samples scoring at least
`min_sample_score` is only bounded through the success rate — under the
default configuration it is at least `min_samples = 3`, but not for
arbitrary threshold configurations. -/
theorem c6_promotion_thresholds :
    (∀ (cfg : PromotionConfig) (reo : ReOracles) (uj : UrlJoinFn) (now : ℚ)
      (state : RuleStoreState) (host : String) (rule : AdaptiveRule)
      (maxChars : Nat) (e : PromotionEvaluation) (state2 : RuleStoreState),
      evaluate_and_promote_rule cfg reo uj now state host rule maxChars =
        (PromotionOutcome.evaluated e, state2) →
      e.promoted = true →
      cfg.minSamples ≤ e.sampleCount ∧
      cfg.minSuccessRate ≤ e.successRate ∧
      cfg.minAvgScore ≤ e.avgScore ∧
      e.successRate = (e.successful : ℚ) / (max 1 e.sampleCount : ℚ)) ∧
    (∀ (reo : ReOracles) (uj : UrlJoinFn) (now : ℚ)
      (state : RuleStoreState) (host : String) (rule : AdaptiveRule)
      (maxChars : Nat) (e : PromotionEvaluation) (state2 : RuleStoreState),
      evaluate_and_promote_rule defaultPromotionConfig reo uj now state host
        rule maxChars = (PromotionOutcome.evaluated e, state2) →
      e.promoted = true →
      defaultPromotionConfig.minSamples ≤ e.successful) := by
  have hA : ∀ (cfg : PromotionConfig) (reo : ReOracles) (uj : UrlJoinFn)
      (now : ℚ) (state : RuleStoreState) (host : String)
      (rule : AdaptiveRule) (maxChars : Nat) (e : PromotionEvaluation)
      (state2 : RuleStoreState),
      evaluate_and_promote_rule cfg reo uj now state host rule maxChars =
        (PromotionOutcome.evaluated e, state2) →
      e.promoted = true →
      cfg.minSamples ≤ e.sampleCount ∧
      cfg.minSuccessRate ≤ e.successRate ∧
      cfg.minAvgScore ≤ e.avgScore ∧
      e.successRate = (e.successful : ℚ) / (max 1 e.sampleCount : ℚ) := by
    intro cfg reo uj now state host rule maxChars e state2 h hflag
    unfold evaluate_and_promote_rule at h
    dsimp only at h
    split at h
    · injection h with h1 h2
      exact PromotionOutcome.noConfusion h1
    · split at h
      · injection h with h1 h2
        exact PromotionOutcome.noConfusion h1
      · split at h
        · injection h with h1 h2
          exact PromotionOutcome.noConfusion h1
        · split at h
          · injection h with h1 h2
            exact PromotionOutcome.noConfusion h1
          · rename_i hns
            split at h
            · injection h with h1 h2
              injection h1 with h3
              subst h3
              obtain ⟨hsc, hsr, hpiff⟩ :=
                promotionEvaluation_spec cfg reo uj now rule maxChars _
              obtain ⟨hr, ha⟩ := hpiff.mp hflag
              refine ⟨?_, hr, ha, hsr⟩
              rw [hsc]
              exact not_lt.mp hns
            · rename_i hnprom
              injection h with h1 h2
              injection h1 with h3
              subst h3
              exact absurd hflag hnprom
  refine ⟨hA, ?_⟩
  intro reo uj now state host rule maxChars e state2 h hflag
  obtain ⟨hn, hrate, havg, heq⟩ := hA defaultPromotionConfig reo uj now state
    host rule maxChars e state2 h hflag
  have hn3 : (3 : Nat) ≤ e.sampleCount := hn
  have hrate2 : (8/10 : ℚ) ≤ e.successRate := hrate
  show (3 : Nat) ≤ e.successful
  have hcast3 : (3 : ℚ) ≤ (e.sampleCount : ℚ) := by exact_mod_cast hn3
  have hmax : (max 1 ((e.sampleCount : Nat) : ℚ)) = ((e.sampleCount : Nat) : ℚ) :=
    max_eq_right (by linarith)
  rw [heq, hmax] at hrate2
  have hpos : (0 : ℚ) < (e.sampleCount : ℚ) := by linarith
  rw [le_div_iff₀ hpos] at hrate2
  by_contra hlt
  push_neg at hlt
  have hs2 : ((e.successful : Nat) : ℚ) ≤ 2 := by
    exact_mod_cast (by omega : e.successful ≤ 2)
  have hmul : (8/10 : ℚ) * 3 ≤ (8/10 : ℚ) * (e.sampleCount : ℚ) := by
    linarith
  linarith

/-- Witness for C6 (amended): the degenerate-threshold promotion run
satisfies the amended conclusions at its concrete evaluation. -/
theorem c6_witness :
    c6Eval.promoted = true ∧
    (c6Config.minSamples ≤ c6Eval.sampleCount ∧
      c6Config.minSuccessRate ≤ c6Eval.successRate ∧
      c6Config.minAvgScore ≤ c6Eval.avgScore ∧
      c6Eval.successRate = (c6Eval.successful : ℚ) /
        (max 1 c6Eval.sampleCount : ℚ)) :=
  ⟨by decide,
    c6_promotion_thresholds.1 c6Config ⟨fun _ _ => none, fun _ _ => none⟩
      (fun _ u => u) 0 c6State "example.com"
      ⟨"example.com", ["p"], [], 1, "m", 0⟩ 120000 c6Eval c6Run.2
      (by decide) (by decide)⟩

/-! ## C2: URL safety guard -/

/-- Counterexample for C2: the allow-list is consulted only for
DNS-resolved addresses.  A URL whose host is the literal IP
`198.18.0.1` — inside the default allow-list CIDR `198.18.0.0/15` — is
still rejected, because the literal-IP branch raises without checking
the allow-list. -/
theorem c2_counterexample :
    is_allowed_private_resolution_ip ["198.18.0.0/15"] "198.18.0.1" = true ∧
    validate_public_http_url (fun _ _ => Except.error ()) ["198.18.0.0/15"]
        "http://198.18.0.1/" =
      Except.error "Private or non-public IP addresses are not allowed." :=
  ⟨by decide, by rfl⟩

/-- C2 (amended): `validate_public_http_url` accepts only http/https
URLs and rejects localhost spellings; a host that is a literal
non-public IP is rejected unconditionally — the allow-list CIDRs are
consulted only for DNS-resolved addresses, where resolutions whose
non-public addresses all lie inside the allow-list are accepted and a
non-public resolution outside it is rejected. -/
theorem c2_url_safety (dns : DnsFn) (cidrs : List String) (url : String) :
    ((pyUrlparse url).scheme ≠ "http" ∧ (pyUrlparse url).scheme ≠ "https" →
      validate_public_http_url dns cidrs url =
        Except.error "Only http/https URLs are supported.") ∧
    (pyLower (pyStrip (urlHostname (pyUrlparse url))) = "localhost" ∨
      pyLower (pyStrip (urlHostname (pyUrlparse url))) = "127.0.0.1" ∨
      pyLower (pyStrip (urlHostname (pyUrlparse url))) = "::1" →
      ∀ ok, validate_public_http_url dns cidrs url ≠ Except.ok ok) ∧
    (((pyUrlparse url).scheme = "http" ∨ (pyUrlparse url).scheme = "https") →
      is_ip_literal (pyStrip (urlHostname (pyUrlparse url))) = true →
      is_non_public_ip (pyStrip (urlHostname (pyUrlparse url))) = true →
      validate_public_http_url dns cidrs url =
          Except.error "Localhost URLs are not allowed." ∨
        validate_public_http_url dns cidrs url =
          Except.error "Private or non-public IP addresses are not allowed.") ∧
    (∀ infos,
      ((pyUrlparse url).scheme = "http" ∨ (pyUrlparse url).scheme = "https") →
      pyStrip (urlHostname (pyUrlparse url)) ≠ "" →
      ¬(pyLower (pyStrip (urlHostname (pyUrlparse url))) = "localhost" ∨
        pyLower (pyStrip (urlHostname (pyUrlparse url))) = "127.0.0.1" ∨
        pyLower (pyStrip (urlHostname (pyUrlparse url))) = "::1") →
      is_ip_literal (pyStrip (urlHostname (pyUrlparse url))) = false →
      is_non_public_ip (pyStrip (urlHostname (pyUrlparse url))) = false →
      dns (pyStrip (urlHostname (pyUrlparse url))) (urlPort (pyUrlparse url)) =
        Except.ok infos →
      infos.dedup ≠ [] →
      ((∀ ip ∈ infos.dedup, is_non_public_ip ip = true →
          is_allowed_private_resolution_ip cidrs ip = true) →
        validate_public_http_url dns cidrs url = Except.ok ()) ∧
      (∀ ip ∈ infos.dedup, is_non_public_ip ip = true →
        is_allowed_private_resolution_ip cidrs ip = false →
        validate_public_http_url dns cidrs url =
          Except.error "Resolved host maps to a private or non-public IP.")) := by
  refine ⟨?_, ?_, ?_, ?_⟩
  · intro hbad
    unfold validate_public_http_url
    rw [if_pos hbad]
  · intro hloc ok h
    unfold validate_public_http_url at h
    dsimp only at h
    repeat' split at h
    all_goals first
      | exact Except.noConfusion h
      | exact absurd hloc (by assumption)
  · intro hscheme hlit hnp
    unfold validate_public_http_url
    dsimp only
    rw [if_neg (fun hpair => match hscheme with
      | Or.inl he => hpair.1 he
      | Or.inr he => hpair.2 he)]
    by_cases hh : pyStrip (urlHostname (pyUrlparse url)) = ""
    · rw [hh] at hlit
      exact absurd hlit (by decide)
    · rw [if_neg hh]
      by_cases hloc : pyLower (pyStrip (urlHostname (pyUrlparse url))) =
          "localhost" ∨
        pyLower (pyStrip (urlHostname (pyUrlparse url))) = "127.0.0.1" ∨
        pyLower (pyStrip (urlHostname (pyUrlparse url))) = "::1"
      · rw [if_pos hloc]
        exact Or.inl rfl
      · rw [if_neg hloc, if_pos hlit, if_pos hnp]
        exact Or.inr rfl
  · intro infos hscheme hh hloc hlit hnp hdns hne
    have hbase : validate_public_http_url dns cidrs url =
        (if infos.dedup.any is_non_public_ip then
          if infos.dedup.any (fun ip =>
              is_non_public_ip ip ∧ ¬is_allowed_private_resolution_ip cidrs ip)
          then Except.error "Resolved host maps to a private or non-public IP."
          else Except.ok ()
        else Except.ok ()) := by
      unfold validate_public_http_url
      dsimp only
      rw [if_neg (fun hpair => match hscheme with
        | Or.inl he => hpair.1 he
        | Or.inr he => hpair.2 he)]
      rw [if_neg hh, if_neg hloc]
      rw [if_neg (by rw [hlit]; exact Bool.false_ne_true)]
      rw [if_neg (by rw [hnp]; exact Bool.false_ne_true)]
      rw [hdns]
      dsimp only
      rw [if_neg hne]
    constructor
    · intro hall
      rw [hbase]
      by_cases hany : infos.dedup.any is_non_public_ip
      · have hinner : ¬(infos.dedup.any (fun ip =>
            is_non_public_ip ip ∧
              ¬is_allowed_private_resolution_ip cidrs ip) = true) := by
          intro hbad
          obtain ⟨ip, hip, hpair⟩ := List.any_eq_true.mp hbad
          have hpair2 := of_decide_eq_true hpair
          exact hpair2.2 (hall ip hip hpair2.1)
        rw [if_pos hany, if_neg hinner]
      · rw [if_neg hany]
    · intro ip hip hipnp hipnotallowed
      rw [hbase]
      rw [if_pos (List.any_eq_true.mpr ⟨ip, hip, hipnp⟩)]
      rw [if_pos (List.any_eq_true.mpr ⟨ip, hip, decide_eq_true
        ⟨hipnp, by rw [hipnotallowed]; exact Bool.false_ne_true⟩⟩)]

/-- Witness for C2: `ok.example` resolves to `198.18.0.1` (non-public
but inside the default allow-list CIDR), and validation succeeds. -/
theorem c2_witness :
    validate_public_http_url
        (fun _ _ => Except.ok ["198.18.0.1"]) ["198.18.0.0/15"]
        "https://ok.example/" = Except.ok () :=
  ((c2_url_safety (fun _ _ => Except.ok ["198.18.0.1"]) ["198.18.0.0/15"]
      "https://ok.example/").2.2.2 ["198.18.0.1"]
    (Or.inr (by decide)) (by decide) (by decide) (by decide) (by decide)
    rfl (by decide)).1 (by decide)

/-! ## C5: JSON-LD body selection -/

/-- Counterexample for C5: within one JSON-LD object the probe returns
the first of `articleBody` / `text` / `description` passing the
120-character floor, not the longest — a 130-character `articleBody`
wins over a 200-character `description`, and the extracted candidate
carries the shorter value. -/
theorem c5_counterexample :
    find_long_text_field (PyVal.pdict c5Entries) = some c5Body ∧
    longestInterestingFieldSpec [c5Entries] = some c5Desc ∧
    c5Body.length < c5Desc.length ∧
    (jsonLdExtract (fun _ => some (PyVal.pdict c5Entries)) (fun _ u => u)
        c5Page "https://example.com/a" 1000).map
      ExtractionCandidate.rawContent = Except.ok c5Body :=
  ⟨by decide, by decide, by decide, by rfl⟩

theorem optfold_some (ts : List String) :
    ∀ b : String,
      ts.foldl (fun b t =>
        match b with
        | none => some t
        | some bb => if bb.length < t.length then some t else some bb)
        (some b) =
      some (ts.foldl (fun best s =>
        if best.length < s.length then s else best) b) := by
  induction ts with
  | nil => intro b; rfl
  | cons t ts ih =>
    intro b
    show ts.foldl _ (if b.length < t.length then some t else some b) = _
    by_cases hc : b.length < t.length
    · rw [if_pos hc]
      rw [ih t]
      rw [show (List.foldl (fun best s => if best.length < s.length then s
        else best) b (t :: ts)) = List.foldl _ (if b.length < t.length then t
        else b) ts from rfl]
      rw [if_pos hc]
    · rw [if_neg hc]
      rw [ih b]
      rw [show (List.foldl (fun best s => if best.length < s.length then s
        else best) b (t :: ts)) = List.foldl _ (if b.length < t.length then t
        else b) ts from rfl]
      rw [if_neg hc]

theorem jsonLdFoldStep_snd (acc : Option String × Option String)
    (c : List (String × PyVal)) :
    (jsonLdFoldStep acc c).2 =
      match find_long_text_field (PyVal.pdict c) with
      | some text =>
        if text ≠ "" then
          match acc.2 with
          | none => some text
          | some b => if b.length < text.length then some text else some b
        else acc.2
      | none => acc.2 := rfl

theorem jsonLdFold_go (cs : List (List (String × PyVal))) :
    ∀ acc : Option String × Option String,
      (cs.foldl jsonLdFoldStep acc).2 =
        (perObjectTexts cs).foldl (fun b t =>
          match b with
          | none => some t
          | some bb => if bb.length < t.length then some t else some bb)
          acc.2 := by
  induction cs with
  | nil => intro acc; rfl
  | cons c cs ih =>
    intro acc
    rw [List.foldl_cons, ih]
    have hstep := jsonLdFoldStep_snd acc c
    unfold perObjectTexts
    rw [List.filterMap_cons]
    cases hf : find_long_text_field (PyVal.pdict c) with
    | none =>
      rw [hf] at hstep
      rw [hstep]
    | some t =>
      rw [hf] at hstep
      dsimp only at hstep
      dsimp only
      by_cases ht : t ≠ ""
      · rw [if_pos ht] at hstep
        rw [hstep, if_pos ht, List.foldl_cons]
      · rw [if_neg ht] at hstep
        rw [hstep, if_neg ht]

theorem foldl_append_flatMap {α β : Type} (f : α → List β) :
    ∀ (l : List α) (acc : List β),
      l.foldl (fun acc a => acc ++ f a) acc = acc ++ l.flatMap f := by
  intro l
  induction l with
  | nil =>
    intro acc
    rw [List.flatMap_nil, List.append_nil]
    rfl
  | cons a l ih =>
    intro acc
    rw [List.foldl_cons, ih, List.flatMap_cons, List.append_assoc]

/-- C5 (amended): the JSON-LD strategy scans every
`application/ld+json` script block, a blank or unparseable block
contributing nothing while the scan continues; the body text carried by
the candidate is the longest (first on ties) of the per-object probe
results — where each object's probe returns the first of
`articleBody` / `text` / `description` whose stripped value has at
least 120 characters, not the longest of the three — normalized and
truncated, with the title from `headline` / `name` / `title` falling
back to the page title. -/
theorem c5_jsonld_selection (parse : JsonParseFn) (uj : UrlJoinFn)
    (page : FetchedPage) (ctxUrl : String) (maxChars : Nat) :
    iter_json_candidates parse page.payload =
      (jsonLdScriptBodies page.payload.data).flatMap
        (jsonCandidatesOfBody parse) ∧
    (jsonLdFold (iter_json_candidates parse page.payload)).2 =
      (if (perObjectTexts (iter_json_candidates parse page.payload)).isEmpty
       then none
       else some (maxByLenFirst
         (perObjectTexts (iter_json_candidates parse page.payload)))) ∧
    (∀ c, jsonLdExtract parse uj page ctxUrl maxChars = Except.ok c →
      ∃ best,
        (jsonLdFold (iter_json_candidates parse page.payload)).2 =
          some best ∧
        120 ≤ (normalize_text_preserve_paragraphs best).length ∧
        c.rawContent =
          pySlice (normalize_text_preserve_paragraphs best) maxChars ∧
        c.title =
          (if titleFalsy (jsonLdFold (iter_json_candidates parse
              page.payload)).1
           then extract_title page.payload
           else (jsonLdFold (iter_json_candidates parse page.payload)).1)) := by
  refine ⟨?_, ?_, ?_⟩
  · unfold iter_json_candidates
    rw [foldl_append_flatMap (jsonCandidatesOfBody parse)
      (jsonLdScriptBodies page.payload.data) []]
    rw [List.nil_append]
  · unfold jsonLdFold
    rw [jsonLdFold_go (iter_json_candidates parse page.payload) (none, none)]
    cases hts : perObjectTexts (iter_json_candidates parse page.payload) with
    | nil => rfl
    | cons t ts =>
      rw [List.foldl_cons]
      show List.foldl _ (some t) ts = _
      rw [optfold_some ts t]
      rfl
  · intro c h
    unfold jsonLdExtract at h
    dsimp only at h
    split at h
    · exact Except.noConfusion h
    · split at h
      · exact Except.noConfusion h
      · rename_i best hbest
        split at h
        · exact Except.noConfusion h
        · rename_i hlen
          injection h with hc
          refine ⟨best, hbest, not_lt.mp hlen, ?_, ?_⟩
          · rw [← hc]
          · rw [← hc]

/-- Witness for C5: the concrete JSON-LD run satisfies the amended
candidate characterization. -/
theorem c5_witness :
    ∃ best,
      (jsonLdFold (iter_json_candidates (fun _ => some (PyVal.pdict
          c5Entries)) c5Page.payload)).2 = some best ∧
      120 ≤ (normalize_text_preserve_paragraphs best).length ∧
      c5Candidate.rawContent =
        pySlice (normalize_text_preserve_paragraphs best) 1000 ∧
      c5Candidate.title =
        (if titleFalsy (jsonLdFold (iter_json_candidates (fun _ => some
            (PyVal.pdict c5Entries)) c5Page.payload)).1
         then extract_title c5Page.payload
         else (jsonLdFold (iter_json_candidates (fun _ => some (PyVal.pdict
           c5Entries)) c5Page.payload)).1) :=
  (c5_jsonld_selection (fun _ => some (PyVal.pdict c5Entries)) (fun _ u => u)
    c5Page "https://example.com/a" 1000).2.2 c5Candidate (by rfl)

/-! ## Stripped-string and quoting facts for reference links -/

theorem length_dropWhile_le {α : Type} (p : α → Bool) :
    ∀ l : List α, (l.dropWhile p).length ≤ l.length := by
  intro l
  induction l with
  | nil => exact Nat.le_refl _
  | cons a l ih =>
    by_cases h : p a
    · rw [List.dropWhile_cons_of_pos h]
      exact Nat.le_succ_of_le ih
    · rw [List.dropWhile_cons_of_neg h]

theorem head_false_of_dropWhile_self {α : Type} (p : α → Bool)
    (l : List α) (h : l.dropWhile p = l) :
    ∀ a tl, l = a :: tl → p a = false := by
  intro a tl he
  subst he
  by_cases hp : p a
  · rw [List.dropWhile_cons_of_pos hp] at h
    have := length_dropWhile_le p tl
    rw [h] at this
    exact absurd this (by simp [Nat.lt_irrefl])
  · exact Bool.eq_false_iff.mpr hp

/-- Appending a non-blank stripped string to a prefix that starts with a
non-space character yields an already-stripped string. -/
theorem pyStripL_append_stripped (pre : List Char) (l0 : List Char)
    (hpre : ∀ a tl, pre = a :: tl → isPySpace a = false)
    (htne : pyStripL l0 ≠ []) :
    pyStripL (pre ++ pyStripL l0) = pre ++ pyStripL l0 := by
  have hfront : (pre ++ pyStripL l0).dropWhile isPySpace =
      pre ++ pyStripL l0 := by
    cases hp : pre with
    | nil =>
      rw [List.nil_append]
      exact pyStripL_dropWhile l0
    | cons a tl =>
      rw [List.cons_append]
      rw [List.dropWhile_cons_of_neg (by rw [hpre a tl hp]; exact
        Bool.false_ne_true)]
  have hback : ((pre ++ pyStripL l0).reverse).dropWhile isPySpace =
      (pre ++ pyStripL l0).reverse := by
    rw [List.reverse_append]
    cases hv : (pyStripL l0).reverse with
    | nil =>
      exact absurd (by rw [← List.reverse_reverse (pyStripL l0), hv]; rfl) htne
    | cons b tl2 =>
      have hb : isPySpace b = false :=
        head_false_of_dropWhile_self isPySpace (pyStripL l0).reverse
          (pyStripL_rev_dropWhile l0) b tl2 hv
      rw [List.cons_append]
      rw [List.dropWhile_cons_of_neg (by rw [hb]; exact Bool.false_ne_true)]
  show (((pre ++ pyStripL l0).dropWhile
    isPySpace).reverse.dropWhile isPySpace).reverse = _
  rw [hfront, hback, List.reverse_reverse]

/-- `pyStrip` form of the previous lemma, at `String` level. -/
theorem pyStrip_append_stripped (pre s0 : String)
    (hpre : ∀ a tl, pre.data = a :: tl → isPySpace a = false)
    (hne : pyStrip s0 ≠ "") :
    pyStrip (pre ++ pyStrip s0) = pre ++ pyStrip s0 := by
  have htne : pyStripL s0.data ≠ [] := by
    intro h0
    exact hne (congrArg String.mk h0)
  show String.mk (pyStripL (pre.data ++ pyStripL s0.data)) = _
  rw [pyStripL_append_stripped pre.data s0.data hpre htne]
  rfl

theorem char_ofNat_toNat (n : Nat) (h : n < 0xd800) :
    (Char.ofNat n).toNat = n := by
  have hv : Nat.isValidChar n := Or.inl h
  rw [Char.ofNat, dif_pos hv]
  rfl

theorem isQuoteSafeByte_bounds (b : Nat) (h : isQuoteSafeByte b = true) :
    33 ≤ b ∧ b ≤ 132 := by
  simp only [isQuoteSafeByte, Bool.or_eq_true, Bool.and_eq_true,
    decide_eq_true_eq, beq_iff_eq] at h
  omega

theorem hexDigitUpper_not_space (n : Nat) (h : n ≤ 15) :
    isPySpace (hexDigitUpper n) = false := by
  unfold hexDigitUpper
  by_cases h10 : n < 10
  · rw [if_pos h10]
    apply isPySpace_false_of_bounds
    · rw [char_ofNat_toNat _ (by omega)]
      omega
    · rw [char_ofNat_toNat _ (by omega)]
      omega
  · rw [if_neg h10]
    apply isPySpace_false_of_bounds
    · rw [char_ofNat_toNat _ (by omega)]
      omega
    · rw [char_ofNat_toNat _ (by omega)]
      omega

/-- Every character of `quote_plus` output is non-whitespace. -/
theorem quote_plus_no_space_aux (bl : List Nat) (hb : ∀ b ∈ bl, b < 256) :
    ∀ c ∈ bl.foldr (fun b acc =>
      (if b = 32 then ['+']
       else if isQuoteSafeByte b then [Char.ofNat b]
       else ['%', hexDigitUpper (b / 16), hexDigitUpper (b % 16)]) ++ acc)
      [], isPySpace c = false := by
  induction bl with
  | nil => intro c hc; exact absurd hc (List.not_mem_nil c)
  | cons b bl ih =>
    intro c hc
    rw [List.foldr_cons] at hc
    rcases List.mem_append.mp hc with hc1 | hc2
    · by_cases hb32 : b = 32
      · rw [if_pos hb32] at hc1
        simp only [List.mem_singleton] at hc1
        subst hc1
        decide
      · rw [if_neg hb32] at hc1
        by_cases hsafe : isQuoteSafeByte b
        · rw [if_pos hsafe] at hc1
          simp only [List.mem_singleton] at hc1
          subst hc1
          obtain ⟨hb1, hb2⟩ := isQuoteSafeByte_bounds b hsafe
          apply isPySpace_false_of_bounds
          · rw [char_ofNat_toNat _ (by omega)]
            omega
          · rw [char_ofNat_toNat _ (by omega)]
            omega
        · rw [if_neg hsafe] at hc1
          simp only [List.mem_cons, List.not_mem_nil, or_false] at hc1
          have hblt : b < 256 := hb b (List.mem_cons_self _ _)
          rcases hc1 with rfl | rfl | rfl
          · decide
          · exact hexDigitUpper_not_space _ (by omega)
          · exact hexDigitUpper_not_space _ (by omega)
    · exact ih (fun b hbm => hb b (List.mem_cons_of_mem _ hbm)) c hc2

theorem quote_plus_no_space (s : String) :
    ∀ c ∈ (quote_plus s).data, isPySpace c = false := by
  show ∀ c ∈ (s.toUTF8.toList.map UInt8.toNat).foldr _ [], _
  apply quote_plus_no_space_aux
  intro b hbm
  obtain ⟨u, hu, hub⟩ := List.mem_map.mp hbm
  rw [← hub]
  exact u.toNat_lt

/-! ## C9: reference-link detection -/

theorem appendRefLink_nodup (links : List RefLink) (h l k : String)
    (hn : (links.map RefLink.href).Nodup) :
    ((appendRefLink links h l k).map RefLink.href).Nodup := by
  unfold appendRefLink
  dsimp only
  by_cases h1 : pyStrip h = "" ∨ pyStrip l = ""
  · rw [if_pos h1]
    exact hn
  · rw [if_neg h1]
    by_cases h2 : links.any (fun x => x.href == pyStrip h)
    · rw [if_pos h2]
      exact hn
    · rw [if_neg h2]
      rw [List.map_append]
      refine List.Nodup.append hn (List.nodup_singleton _) ?_
      intro a ha hb
      simp only [List.map_cons, List.map_nil, List.mem_singleton] at hb
      subst hb
      obtain ⟨x, hx, hxh⟩ := List.mem_map.mp ha
      exact h2 (List.any_eq_true.mpr ⟨x, hx, by simp [hxh]⟩)

theorem appendRefLink_shape (links : List RefLink) (h l k : String) :
    appendRefLink links h l k = links ∨
    appendRefLink links h l k =
      links ++ [{ href := pyStrip h, label := pyStrip l, kind := k }] := by
  unfold appendRefLink
  dsimp only
  by_cases h1 : pyStrip h = "" ∨ pyStrip l = ""
  · rw [if_pos h1]
    exact Or.inl rfl
  · rw [if_neg h1]
    by_cases h2 : links.any (fun x => x.href == pyStrip h)
    · rw [if_pos h2]
      exact Or.inl rfl
    · rw [if_neg h2]
      exact Or.inr rfl

theorem refUrlFold_nodup (us : List String) :
    ∀ acc : List RefLink, (acc.map RefLink.href).Nodup →
      ((us.foldl (fun acc u =>
        let urlValue := pyRstripChars ".,;)".data u
        if urlValue ≠ "" then
          appendRefLink acc urlValue
            (pySlice (pyReplace (pyReplace urlValue "https://" "")
              "http://" "") 72) "url"
        else acc) acc).map RefLink.href).Nodup := by
  induction us with
  | nil => intro acc h; exact h
  | cons u us ih =>
    intro acc h
    rw [List.foldl_cons]
    apply ih
    dsimp only
    by_cases hu : pyRstripChars ".,;)".data u ≠ ""
    · rw [if_pos hu]
      exact appendRefLink_nodup _ _ _ _ h
    · rw [if_neg hu]
      exact h

theorem refUrlFold_shape (us : List String) :
    ∀ acc : List RefLink, ∃ suffix : List RefLink,
      us.foldl (fun acc u =>
        let urlValue := pyRstripChars ".,;)".data u
        if urlValue ≠ "" then
          appendRefLink acc urlValue
            (pySlice (pyReplace (pyReplace urlValue "https://" "")
              "http://" "") 72) "url"
        else acc) acc = acc ++ suffix ∧
      ∀ x ∈ suffix, x.kind = "url" := by
  induction us with
  | nil =>
    intro acc
    exact ⟨[], (List.append_nil acc).symm, fun x hx =>
      absurd hx (List.not_mem_nil x)⟩
  | cons u us ih =>
    intro acc
    rw [List.foldl_cons]
    dsimp only
    by_cases hu : pyRstripChars ".,;)".data u ≠ ""
    · rw [if_pos hu]
      rcases appendRefLink_shape acc (pyRstripChars ".,;)".data u)
          (pySlice (pyReplace (pyReplace (pyRstripChars ".,;)".data u)
            "https://" "") "http://" "") 72) "url" with hs | hs
      · rw [hs]
        exact ih acc
      · rw [hs]
        obtain ⟨suffix, hfold, hkinds⟩ := ih (acc ++
          [{ href := pyStrip (pyRstripChars ".,;)".data u),
              label := pyStrip (pySlice (pyReplace (pyReplace
                (pyRstripChars ".,;)".data u) "https://" "") "http://" "") 72),
              kind := "url" }])
        refine ⟨{ href := pyStrip (pyRstripChars ".,;)".data u),
                  label := pyStrip (pySlice (pyReplace (pyReplace
                    (pyRstripChars ".,;)".data u) "https://" "") "http://" "")
                    72),
                  kind := "url" } :: suffix, ?_, ?_⟩
        · rw [hfold, List.append_assoc]
          rfl
        · intro x hx
          rcases List.mem_cons.mp hx with hx1 | hx2
          · rw [hx1]
          · exact hkinds x hx2
    · rw [if_neg hu]
      exact ih acc

theorem pre_head_not_space (c : Char) (rest : List Char)
    (hc : isPySpace c = false) :
    ∀ a tl, (c :: rest) = a :: tl → isPySpace a = false := by
  intro a tl hp
  obtain ⟨h1, -⟩ := List.cons.inj hp
  rw [← h1]
  exact hc

theorem pyStripL_of_no_space (l : List Char)
    (h : ∀ c ∈ l, isPySpace c = false) : pyStripL l = l := by
  have hfront := dropWhile_eq_self_of_head isPySpace l
    (fun a tl he => h a (he ▸ List.mem_cons_self a tl))
  have hback := dropWhile_eq_self_of_head isPySpace l.reverse
    (fun a tl he => h a (List.mem_reverse.mp (he ▸ List.mem_cons_self a tl)))
  show ((l.dropWhile isPySpace).reverse.dropWhile isPySpace).reverse = l
  rw [hfront, hback, List.reverse_reverse]

/-- The Scholar fallback append on an empty link list yields exactly one
search link. -/
theorem scholar_singleton (q : String) :
    appendRefLink [] ("https://scholar.google.com/scholar?q=" ++
      quote_plus q) "Scholar" "search" =
    [{ href := "https://scholar.google.com/scholar?q=" ++ quote_plus q,
       label := "Scholar", kind := "search" }] := by
  have hqp : ∀ c ∈ ("https://scholar.google.com/scholar?q=" ++
      quote_plus q).data, isPySpace c = false := by
    intro c hc
    rcases List.mem_append.mp hc with h1 | h1
    · exact (by decide :
        ∀ c ∈ "https://scholar.google.com/scholar?q=".data,
          isPySpace c = false) c h1
    · exact quote_plus_no_space q c h1
  have hstrip : pyStrip ("https://scholar.google.com/scholar?q=" ++
      quote_plus q) =
      "https://scholar.google.com/scholar?q=" ++ quote_plus q := by
    show String.mk (pyStripL ("https://scholar.google.com/scholar?q=" ++
      quote_plus q).data) = _
    rw [pyStripL_of_no_space _ hqp]
  have hne : "https://scholar.google.com/scholar?q=" ++ quote_plus q ≠ "" :=
    fun he => List.noConfusion (congrArg String.data he)
  unfold appendRefLink
  dsimp only
  rw [hstrip]
  rw [show pyStrip "Scholar" = "Scholar" from by decide]
  rw [if_neg (fun hor => hor.elim hne (by decide))]
  rw [if_neg (by simp)]
  rfl

/-- C9: reference-link detection: the detected links are pairwise
distinct by href; an arXiv identifier yields
`https://arxiv.org/abs/<id>` as the first link; the links come in
priority order (at most one arXiv link, then at most one DOI link, then
plain URLs) unless nothing is found, in which case the result is
exactly one Google-Scholar search link built from the first 320
characters of the normalized text. -/
theorem c9_reference_links (oracles : RefLinkOracles) (t : String) :
    ((detect_reference_links oracles t).map RefLink.href).Nodup ∧
    (∀ ident0, oracles.arxivSearch (pyStrip t) = some ident0 →
      pyStrip t ≠ "" → pyStrip ident0 ≠ "" →
      (detect_reference_links oracles t).head? = some
        { href := "https://arxiv.org/abs/" ++ pyStrip ident0,
          label := "arXiv:" ++ pyStrip ident0, kind := "arxiv" }) ∧
    (pyStrip t ≠ "" →
      (∃ a d u : List RefLink,
        detect_reference_links oracles t = a ++ (d ++ u) ∧
        a.length ≤ 1 ∧ d.length ≤ 1 ∧
        (∀ x ∈ a, x.kind = "arxiv") ∧ (∀ x ∈ d, x.kind = "doi") ∧
        (∀ x ∈ u, x.kind = "url")) ∨
      detect_reference_links oracles t =
        [{ href := "https://scholar.google.com/scholar?q=" ++
             quote_plus (pySlice (pyStrip t) 320),
           label := "Scholar", kind := "search" }]) ∧
    (pyStrip t ≠ "" → oracles.arxivSearch (pyStrip t) = none →
      oracles.doiSearch (pyStrip t) = none →
      oracles.urlFind (pyStrip t) = [] →
      detect_reference_links oracles t =
        [{ href := "https://scholar.google.com/scholar?q=" ++
             quote_plus (pySlice (pyStrip t) 320),
           label := "Scholar", kind := "search" }]) := by
  refine ⟨?_, ?_, ?_, ?_⟩
  · unfold detect_reference_links
    dsimp only
    by_cases ht : pyStrip t = ""
    · rw [if_pos ht]
      simp
    · rw [if_neg ht]
      have hA : ((match oracles.arxivSearch (pyStrip t) with
          | some ident0 =>
            if pyStrip ident0 ≠ "" then
              appendRefLink [] ("https://arxiv.org/abs/" ++ pyStrip ident0)
                ("arXiv:" ++ pyStrip ident0) "arxiv"
            else []
          | none => ([] : List RefLink)).map RefLink.href).Nodup := by
        cases oracles.arxivSearch (pyStrip t) with
        | none => simp
        | some ident0 =>
          dsimp only
          by_cases hi : pyStrip ident0 ≠ ""
          · rw [if_pos hi]
            exact appendRefLink_nodup _ _ _ _ (by simp)
          · rw [if_neg hi]
            simp
      have hD : ((match oracles.doiSearch (pyStrip t) with
          | some doi0 =>
            if pyRstripChars ".,;)".data doi0 ≠ "" then
              appendRefLink (match oracles.arxivSearch (pyStrip t) with
                | some ident0 =>
                  if pyStrip ident0 ≠ "" then
                    appendRefLink []
                      ("https://arxiv.org/abs/" ++ pyStrip ident0)
                      ("arXiv:" ++ pyStrip ident0) "arxiv"
                  else []
                | none => ([] : List RefLink))
                ("https://doi.org/" ++ pyRstripChars ".,;)".data doi0)
                "DOI" "doi"
            else (match oracles.arxivSearch (pyStrip t) with
              | some ident0 =>
                if pyStrip ident0 ≠ "" then
                  appendRefLink []
                    ("https://arxiv.org/abs/" ++ pyStrip ident0)
                    ("arXiv:" ++ pyStrip ident0) "arxiv"
                else []
              | none => ([] : List RefLink))
          | none => (match oracles.arxivSearch (pyStrip t) with
            | some ident0 =>
              if pyStrip ident0 ≠ "" then
                appendRefLink []
                  ("https://arxiv.org/abs/" ++ pyStrip ident0)
                  ("arXiv:" ++ pyStrip ident0) "arxiv"
              else []
            | none => ([] : List RefLink))).map RefLink.href).Nodup := by
        cases oracles.doiSearch (pyStrip t) with
        | none => exact hA
        | some doi0 =>
          dsimp only
          by_cases hdd : pyRstripChars ".,;)".data doi0 ≠ ""
          · rw [if_pos hdd]
            exact appendRefLink_nodup _ _ _ _ hA
          · rw [if_neg hdd]
            exact hA
      split
      · exact appendRefLink_nodup _ _ _ _ (by simp)
      · exact refUrlFold_nodup _ _ hD
  · intro ident0 ha ht hi
    have hh : pyStrip ("https://arxiv.org/abs/" ++ pyStrip ident0) =
        "https://arxiv.org/abs/" ++ pyStrip ident0 :=
      pyStrip_append_stripped _ _ (pre_head_not_space 'h' _ (by decide)) hi
    have hl : pyStrip ("arXiv:" ++ pyStrip ident0) =
        "arXiv:" ++ pyStrip ident0 :=
      pyStrip_append_stripped _ _ (pre_head_not_space 'a' _ (by decide)) hi
    have hne1 : "https://arxiv.org/abs/" ++ pyStrip ident0 ≠ "" := fun he =>
      List.noConfusion (congrArg String.data he)
    have hne2 : "arXiv:" ++ pyStrip ident0 ≠ "" := fun he =>
      List.noConfusion (congrArg String.data he)
    have harr : appendRefLink [] ("https://arxiv.org/abs/" ++ pyStrip ident0)
        ("arXiv:" ++ pyStrip ident0) "arxiv" =
        [{ href := "https://arxiv.org/abs/" ++ pyStrip ident0,
           label := "arXiv:" ++ pyStrip ident0, kind := "arxiv" }] := by
      unfold appendRefLink
      dsimp only
      rw [hh, hl]
      rw [if_neg (fun hor => hor.elim hne1 hne2)]
      rw [if_neg (by simp)]
      rfl
    unfold detect_reference_links
    dsimp only
    rw [if_neg ht, ha]
    dsimp only
    rw [if_pos hi, harr]
    generalize ({ href := "https://arxiv.org/abs/" ++ pyStrip ident0,
                  label := "arXiv:" ++ pyStrip ident0,
                  kind := "arxiv" } : RefLink) = arec
    cases hd : oracles.doiSearch (pyStrip t) with
    | none =>
      dsimp only
      obtain ⟨suffix, hfold, -⟩ :=
        refUrlFold_shape (oracles.urlFind (pyStrip t)) [arec]
      rw [hfold]
      rw [if_neg (by simp)]
      rfl
    | some doi0 =>
      dsimp only
      by_cases hdd : pyRstripChars ".,;)".data doi0 ≠ ""
      · rw [if_pos hdd]
        rcases appendRefLink_shape [arec]
            ("https://doi.org/" ++ pyRstripChars ".,;)".data doi0)
            "DOI" "doi" with hs | hs
        · rw [hs]
          obtain ⟨suffix, hfold, -⟩ :=
            refUrlFold_shape (oracles.urlFind (pyStrip t)) [arec]
          rw [hfold]
          rw [if_neg (by simp)]
          rfl
        · rw [hs]
          obtain ⟨suffix, hfold, -⟩ :=
            refUrlFold_shape (oracles.urlFind (pyStrip t)) ([arec] ++
              [{ href :=
                   pyStrip ("https://doi.org/" ++
                     pyRstripChars ".,;)".data doi0),
                 label := pyStrip "DOI", kind := "doi" }])
          rw [hfold]
          rw [if_neg (by simp)]
          rfl
      · rw [if_neg hdd]
        obtain ⟨suffix, hfold, -⟩ :=
          refUrlFold_shape (oracles.urlFind (pyStrip t)) [arec]
        rw [hfold]
        rw [if_neg (by simp)]
        rfl
  · intro ht
    unfold detect_reference_links
    dsimp only
    rw [if_neg ht]
    split
    · exact Or.inr (scholar_singleton (pySlice (pyStrip t) 320))
    · left
      have hAA : ∃ a : List RefLink,
          (match oracles.arxivSearch (pyStrip t) with
          | some ident0 =>
            if pyStrip ident0 ≠ "" then
              appendRefLink [] ("https://arxiv.org/abs/" ++ pyStrip ident0)
                ("arXiv:" ++ pyStrip ident0) "arxiv"
            else []
          | none => ([] : List RefLink)) = a ∧ a.length ≤ 1 ∧
          ∀ x ∈ a, x.kind = "arxiv" := by
        cases oracles.arxivSearch (pyStrip t) with
        | none => exact ⟨[], rfl, by simp, by simp⟩
        | some i0 =>
          dsimp only
          by_cases hi : pyStrip i0 ≠ ""
          · rw [if_pos hi]
            rcases appendRefLink_shape []
                ("https://arxiv.org/abs/" ++ pyStrip i0)
                ("arXiv:" ++ pyStrip i0) "arxiv" with hs | hs
            · exact ⟨[], hs, by simp, by simp⟩
            · refine ⟨[{ href :=
                           pyStrip ("https://arxiv.org/abs/" ++ pyStrip i0),
                         label := pyStrip ("arXiv:" ++ pyStrip i0),
                         kind := "arxiv" }], hs, by simp, ?_⟩
              intro x hx
              simp only [List.mem_singleton] at hx
              rw [hx]
          · rw [if_neg hi]
            exact ⟨[], rfl, by simp, by simp⟩
      obtain ⟨a, haeq, halen, hak⟩ := hAA
      rw [haeq]
      have hDD : ∃ d : List RefLink,
          (match oracles.doiSearch (pyStrip t) with
          | some doi0 =>
            if pyRstripChars ".,;)".data doi0 ≠ "" then
              appendRefLink a
                ("https://doi.org/" ++ pyRstripChars ".,;)".data doi0)
                "DOI" "doi"
            else a
          | none => a) = a ++ d ∧ d.length ≤ 1 ∧
          ∀ x ∈ d, x.kind = "doi" := by
        cases oracles.doiSearch (pyStrip t) with
        | none => exact ⟨[], (List.append_nil a).symm, by simp, by simp⟩
        | some doi0 =>
          dsimp only
          by_cases hdd : pyRstripChars ".,;)".data doi0 ≠ ""
          · rw [if_pos hdd]
            rcases appendRefLink_shape a
                ("https://doi.org/" ++ pyRstripChars ".,;)".data doi0)
                "DOI" "doi" with hs | hs
            · exact ⟨[], by rw [hs, List.append_nil], by simp, by simp⟩
            · refine ⟨[{ href :=
                           pyStrip ("https://doi.org/" ++
                             pyRstripChars ".,;)".data doi0),
                         label := pyStrip "DOI",
                         kind := "doi" }], hs, by simp, ?_⟩
              intro x hx
              simp only [List.mem_singleton] at hx
              rw [hx]
          · rw [if_neg hdd]
            exact ⟨[], (List.append_nil a).symm, by simp, by simp⟩
      obtain ⟨d, hdeq, hdlen, hdk⟩ := hDD
      rw [hdeq]
      obtain ⟨u, hueq, huk⟩ :=
        refUrlFold_shape (oracles.urlFind (pyStrip t)) (a ++ d)
      rw [hueq]
      exact ⟨a, d, u, by rw [List.append_assoc], halen, hdlen, hak, hdk, huk⟩
  · intro ht ha hd hu
    unfold detect_reference_links
    dsimp only
    rw [if_neg ht, ha, hd, hu]
    simp only [List.foldl_nil]
    rw [if_pos trivial]
    exact scholar_singleton (pySlice (pyStrip t) 320)

/-- Witness for C9: a reference text carrying `arXiv:2401.01234` yields
`https://arxiv.org/abs/2401.01234` as its first detected link. -/
theorem c9_witness :
    (detect_reference_links
        ⟨fun _ => some "2401.01234", fun _ => none, fun _ => []⟩
        "A. Author. A paper title. arXiv:2401.01234, 2024.").head? = some
      { href := "https://arxiv.org/abs/" ++ pyStrip "2401.01234",
        label := "arXiv:" ++ pyStrip "2401.01234", kind := "arxiv" } :=
  (c9_reference_links
    ⟨fun _ => some "2401.01234", fun _ => none, fun _ => []⟩
    "A. Author. A paper title. arXiv:2401.01234, 2024.").2.1 "2401.01234"
    rfl (by decide) (by decide)

/-! ## C8: inline-run normalisation -/

theorem bool_not_true {x : Bool} (h : (!x) = true) : x = false := by
  cases x with
  | false => rfl
  | true => exact Bool.noConfusion h

theorem sanitizeChar_stable (c d : Char) (h : sanitizeChar c = some d) :
    sanitizeChar d = some d := by
  by_cases h1 : c.toNat = 0xa0
  · have hd : d = ' ' := by
      unfold sanitizeChar at h
      rw [if_pos h1] at h
      exact (Option.some.inj h).symm
    rw [hd]
    decide
  · by_cases h2 : c.toNat = 0x200b ∨ c.toNat = 0xfeff
    · have hn : sanitizeChar c = none := by
        unfold sanitizeChar
        rw [if_neg h1, if_pos h2]
      rw [hn] at h
      exact Option.noConfusion h
    · have hd : d = c := by
        unfold sanitizeChar at h
        rw [if_neg h1, if_neg h2] at h
        exact (Option.some.inj h).symm
      rw [hd]
      unfold sanitizeChar
      rw [if_neg h1, if_neg h2]

theorem filterMap_sanitize_idem : ∀ l : List Char,
    (l.filterMap sanitizeChar).filterMap sanitizeChar =
      l.filterMap sanitizeChar := by
  intro l
  induction l with
  | nil => rfl
  | cons c l ih =>
    rw [List.filterMap_cons]
    cases hc : sanitizeChar c with
    | none => exact ih
    | some d =>
      rw [List.filterMap_cons, sanitizeChar_stable c d hc, ih]

theorem sanitize_inline_text_idem (t : String) :
    sanitize_inline_text (sanitize_inline_text t) = sanitize_inline_text t := by
  show String.mk ((t.data.filterMap sanitizeChar).filterMap sanitizeChar) = _
  rw [filterMap_sanitize_idem]
  rfl

theorem sanitize_inline_text_append (a b : String) :
    sanitize_inline_text (a ++ b) =
      sanitize_inline_text a ++ sanitize_inline_text b := by
  show String.mk ((a.data ++ b.data).filterMap sanitizeChar) = _
  rw [List.filterMap_append]
  rfl

theorem pyStrip_idem (s : String) : pyStrip (pyStrip s) = pyStrip s := by
  show String.mk (pyStripL (pyStripL s.data)) = _
  rw [pyStripL_idem]
  rfl

theorem getLast?_some_split {α : Type} :
    ∀ (l : List α) (a : α), l.getLast? = some a → l = l.dropLast ++ [a] := by
  intro l
  induction l with
  | nil =>
    intro a h
    exact Option.noConfusion h
  | cons b l ih =>
    intro a h
    cases l with
    | nil =>
      have hb : b = a := by
        have h2 : some b = some a := h
        exact Option.some.inj h2
      rw [hb]
      rfl
    | cons c l2 =>
      have h2 : (c :: l2).getLast? = some a := by
        rw [← List.getLast?_cons_cons]
        exact h
      have h3 := ih a h2
      show b :: (c :: l2) = (b :: c :: l2).dropLast ++ [a]
      rw [show (b :: c :: l2).dropLast = b :: (c :: l2).dropLast from rfl]
      rw [List.cons_append]
      rw [← h3]

theorem lastIsText_cons_cons (a b : InlineRun) (l : List InlineRun) :
    lastIsText (a :: b :: l) = lastIsText (b :: l) := by
  unfold lastIsText
  rw [List.getLast?_cons_cons]

theorem canon_append_one : ∀ (acc : List InlineRun) (r : InlineRun),
    canonRunList acc = true → canonRun r = true →
    (lastIsText acc && isTextRun r) = false →
    canonRunList (acc ++ [r]) = true := by
  intro acc
  induction acc with
  | nil =>
    intro r hcl hr hb
    show (canonRun r && canonRunList [] && !(isTextRun r && headIsText [])) =
      true
    rw [hr]
    cases hxx : isTextRun r <;> rfl
  | cons a acc ih =>
    intro r hca hr hb
    have ha : canonRun a = true := bool_and_left (bool_and_left hca)
    cases acc with
    | nil =>
      have hb2 : (isTextRun a && isTextRun r) = false := hb
      show (canonRun a && canonRunList [r] && !(isTextRun a && isTextRun r)) =
        true
      have h1 : canonRunList [r] = true := by
        show (canonRun r && canonRunList [] && !(isTextRun r && headIsText [])) =
          true
        rw [hr]
        cases hxx : isTextRun r <;> rfl
      rw [ha, h1, hb2]
      rfl
    | cons b acc2 =>
      have hca2 : canonRunList (b :: acc2) = true :=
        bool_and_right (bool_and_left hca)
      have hadj : (isTextRun a && headIsText (b :: acc2)) = false :=
        bool_not_true (bool_and_right hca)
      have hb2 : (lastIsText (b :: acc2) && isTextRun r) = false := by
        rw [← lastIsText_cons_cons a b acc2]
        exact hb
      have h1 := ih r hca2 hr hb2
      have hadj2 : (isTextRun a && isTextRun b) = false := hadj
      show (canonRun a && canonRunList ((b :: acc2) ++ [r]) &&
        !(isTextRun a && isTextRun b)) = true
      rw [ha, h1, hadj2]
      rfl

theorem canon_append_one_inv : ∀ (l : List InlineRun) (r : InlineRun),
    canonRunList (l ++ [r]) = true →
    canonRunList l = true ∧ canonRun r = true ∧
      (lastIsText l && isTextRun r) = false := by
  intro l
  induction l with
  | nil =>
    intro r h
    exact ⟨rfl, bool_and_left (bool_and_left h), rfl⟩
  | cons a l ih =>
    intro r h
    have ha : canonRun a = true := bool_and_left (bool_and_left h)
    have h2 : canonRunList (l ++ [r]) = true := bool_and_right (bool_and_left h)
    have hadj : (isTextRun a && headIsText (l ++ [r])) = false :=
      bool_not_true (bool_and_right h)
    obtain ⟨hl, hr, hbd⟩ := ih r h2
    cases l with
    | nil =>
      refine ⟨?_, hr, ?_⟩
      · show (canonRun a && canonRunList [] &&
          !(isTextRun a && headIsText [])) = true
        rw [ha]
        cases hxx : isTextRun a <;> rfl
      · exact hadj
    | cons b l2 =>
      have hadj2 : (isTextRun a && headIsText (b :: l2)) = false := hadj
      refine ⟨?_, hr, ?_⟩
      · show (canonRun a && canonRunList (b :: l2) &&
          !(isTextRun a && headIsText (b :: l2))) = true
        rw [ha, hl, hadj2]
        rfl
      · rw [lastIsText_cons_cons]
        exact hbd

theorem canonRun_text (t : String) (ht : t ≠ "")
    (hs : sanitize_inline_text t = t) : canonRun (.text t) = true := by
  show (decide (t ≠ "") && (sanitize_inline_text t == t)) = true
  rw [hs, decide_eq_true ht, beq_self_eq_true]
  rfl

theorem canonRun_text_inv (t : String) (h : canonRun (.text t) = true) :
    t ≠ "" ∧ sanitize_inline_text t = t :=
  ⟨of_decide_eq_true (bool_and_left h), eq_of_beq (bool_and_right h)⟩

theorem str_append_ne (t0 t : String) (h : t0 ≠ "") : t0 ++ t ≠ "" := by
  intro hc
  apply h
  have hd := congrArg String.data hc
  rw [String.data_append] at hd
  have h0 : t0.data = [] := (List.append_eq_nil.mp hd).1
  cases t0 with
  | mk d => exact congrArg String.mk h0

theorem pushTextRun_canon (acc : List InlineRun) (t : String)
    (hacc : canonRunList acc = true) (ht : t ≠ "")
    (hs : sanitize_inline_text t = t) :
    canonRunList (pushTextRun acc t) = true := by
  unfold pushTextRun
  cases hg : acc.getLast? with
  | none =>
    have hl : lastIsText acc = false := by
      unfold lastIsText
      rw [hg]
    exact canon_append_one acc _ hacc (canonRun_text t ht hs)
      (by rw [hl]; rfl)
  | some r0 =>
    cases r0 with
    | text t0 =>
      have hsplit : acc = acc.dropLast ++ [InlineRun.text t0] :=
        getLast?_some_split acc _ hg
      obtain ⟨hdl, ht0, hbd⟩ :=
        canon_append_one_inv acc.dropLast (.text t0)
          (by rw [← hsplit]; exact hacc)
      obtain ⟨ht0ne, ht0s⟩ := canonRun_text_inv t0 ht0
      apply canon_append_one acc.dropLast _ hdl
      · exact canonRun_text (t0 ++ t) (str_append_ne t0 t ht0ne)
          (by rw [sanitize_inline_text_append, ht0s, hs])
      · exact hbd
    | math m =>
      apply canon_append_one acc _ hacc (canonRun_text t ht hs)
      have hl : lastIsText acc = false := by
        unfold lastIsText
        rw [hg]
        rfl
      rw [hl]
      rfl
    | link h c =>
      apply canon_append_one acc _ hacc (canonRun_text t ht hs)
      have hl : lastIsText acc = false := by
        unfold lastIsText
        rw [hg]
        rfl
      rw [hl]
      rfl
    | wrap k c =>
      apply canon_append_one acc _ hacc (canonRun_text t ht hs)
      have hl : lastIsText acc = false := by
        unfold lastIsText
        rw [hg]
        rfl
      rw [hl]
      rfl

mutual

theorem normStep_canonical : ∀ (r : InlineRun), canonRun r = true →
    ∀ acc : List InlineRun, (lastIsText acc && isTextRun r) = false →
    normStep acc r = acc ++ [r]
  | .text t, hr, acc, hb => by
    obtain ⟨ht, hs⟩ := canonRun_text_inv t hr
    show (if sanitize_inline_text t = "" then acc
      else pushTextRun acc (sanitize_inline_text t)) = acc ++ [InlineRun.text t]
    rw [hs, if_neg ht]
    have hacc : lastIsText acc = false := by
      cases hlt : lastIsText acc with
      | false => rfl
      | true =>
        rw [hlt] at hb
        exact Bool.noConfusion hb
    unfold pushTextRun
    cases hg : acc.getLast? with
    | none => rfl
    | some r0 =>
      cases r0 with
      | text t0 =>
        exfalso
        have hlt : lastIsText acc = true := by
          unfold lastIsText
          rw [hg]
          rfl
        rw [hacc] at hlt
        exact Bool.noConfusion hlt
      | math m => rfl
      | link h c => rfl
      | wrap k c => rfl
  | .math tex, hr, acc, hb => Bool.noConfusion hr
  | .link href children, hr, acc, hb => by
    have hstrip : pyStrip href = href :=
      eq_of_beq (bool_and_left (bool_and_left (bool_and_left hr)))
    have hne : href ≠ "" :=
      of_decide_eq_true (bool_and_right (bool_and_left (bool_and_left hr)))
    have hnemp : children.isEmpty = false :=
      bool_not_true (bool_and_right (bool_and_left hr))
    have hcs : canonRunList children = true := bool_and_right hr
    have hgo : normGo [] children = children :=
      normGo_canonical children hcs [] rfl
    show (if pyStrip href = "" then
        (if (normGo [] children).isEmpty then acc else acc ++ normGo [] children)
      else if (normGo [] children).isEmpty then acc
      else acc ++ [InlineRun.link (pyStrip href) (normGo [] children)]) =
      acc ++ [InlineRun.link href children]
    rw [hgo, hstrip, if_neg hne,
      if_neg (fun hc => Bool.noConfusion (hnemp ▸ hc))]
  | .wrap kind children, hr, acc, hb => by
    have hnemp : children.isEmpty = false := bool_not_true (bool_and_left hr)
    have hcs : canonRunList children = true := bool_and_right hr
    have hgo : normGo [] children = children :=
      normGo_canonical children hcs [] rfl
    show (if (normGo [] children).isEmpty then acc
      else acc ++ [InlineRun.wrap kind (normGo [] children)]) =
      acc ++ [InlineRun.wrap kind children]
    rw [hgo, if_neg (fun hc => Bool.noConfusion (hnemp ▸ hc))]

theorem normGo_canonical : ∀ (rs : List InlineRun), canonRunList rs = true →
    ∀ acc : List InlineRun, (lastIsText acc && headIsText rs) = false →
    normGo acc rs = acc ++ rs
  | [], _, acc, _ => by rw [List.append_nil]; rfl
  | r :: rest, hrs, acc, hb => by
    have hr : canonRun r = true := bool_and_left (bool_and_left hrs)
    have hrest : canonRunList rest = true := bool_and_right (bool_and_left hrs)
    have hnadj : (isTextRun r && headIsText rest) = false :=
      bool_not_true (bool_and_right hrs)
    have hb1 : (lastIsText acc && isTextRun r) = false := hb
    have hstep := normStep_canonical r hr acc hb1
    show normGo (normStep acc r) rest = acc ++ (r :: rest)
    rw [hstep]
    have hlast : lastIsText (acc ++ [r]) = isTextRun r := by
      unfold lastIsText
      rw [List.getLast?_concat]
    rw [normGo_canonical rest hrest (acc ++ [r]) (by rw [hlast]; exact hnadj)]
    rw [List.append_assoc]
    rfl

end

mutual

theorem normStep_plain : ∀ (r : InlineRun), plainRun r = true →
    ∀ acc : List InlineRun, canonRunList acc = true →
    canonRunList (normStep acc r) = true
  | .text t, hp, acc, hacc => by
    show canonRunList (if sanitize_inline_text t = "" then acc
      else pushTextRun acc (sanitize_inline_text t)) = true
    by_cases h0 : sanitize_inline_text t = ""
    · rw [if_pos h0]
      exact hacc
    · rw [if_neg h0]
      exact pushTextRun_canon acc _ hacc h0 (sanitize_inline_text_idem t)
  | .math tex, hp, acc, hacc => Bool.noConfusion hp
  | .link href children, hp, acc, hacc => by
    have hne : pyStrip href ≠ "" := of_decide_eq_true (bool_and_left hp)
    have hpc : plainRunList children = true := bool_and_right hp
    have hcs : canonRunList (normGo [] children) = true :=
      normGo_plain children hpc [] rfl
    show canonRunList (if pyStrip href = "" then
        (if (normGo [] children).isEmpty then acc else acc ++ normGo [] children)
      else if (normGo [] children).isEmpty then acc
      else acc ++ [InlineRun.link (pyStrip href) (normGo [] children)]) = true
    rw [if_neg hne]
    by_cases he : (normGo [] children).isEmpty = true
    · rw [if_pos he]
      exact hacc
    · rw [if_neg he]
      have he2 : (normGo [] children).isEmpty = false := by
        cases hh : (normGo [] children).isEmpty with
        | false => rfl
        | true => exact absurd hh he
      apply canon_append_one acc _ hacc
      · show (pyStrip (pyStrip href) == pyStrip href &&
          decide (pyStrip href ≠ "") && !(normGo [] children).isEmpty &&
          canonRunList (normGo [] children)) = true
        rw [pyStrip_idem, beq_self_eq_true, decide_eq_true hne, he2, hcs]
        rfl
      · cases hlt : lastIsText acc <;> rfl
  | .wrap kind children, hp, acc, hacc => by
    have hpc : plainRunList children = true := hp
    have hcs : canonRunList (normGo [] children) = true :=
      normGo_plain children hpc [] rfl
    show canonRunList (if (normGo [] children).isEmpty then acc
      else acc ++ [InlineRun.wrap kind (normGo [] children)]) = true
    by_cases he : (normGo [] children).isEmpty = true
    · rw [if_pos he]
      exact hacc
    · rw [if_neg he]
      have he2 : (normGo [] children).isEmpty = false := by
        cases hh : (normGo [] children).isEmpty with
        | false => rfl
        | true => exact absurd hh he
      apply canon_append_one acc _ hacc
      · show (!(normGo [] children).isEmpty &&
          canonRunList (normGo [] children)) = true
        rw [he2, hcs]
        rfl
      · cases hlt : lastIsText acc <;> rfl

theorem normGo_plain : ∀ (rs : List InlineRun), plainRunList rs = true →
    ∀ acc : List InlineRun, canonRunList acc = true →
    canonRunList (normGo acc rs) = true
  | [], _, acc, hacc => hacc
  | r :: rest, hp, acc, hacc => by
    have hr : plainRun r = true := bool_and_left hp
    have hrest : plainRunList rest = true := bool_and_right hp
    show canonRunList (normGo (normStep acc r) rest) = true
    exact normGo_plain rest hrest (normStep acc r) (normStep_plain r hr acc hacc)

end

theorem normalize_idem_plain (rs : List InlineRun)
    (h : plainRunList rs = true) :
    normalizeInlineRunList (normalizeInlineRunList rs) =
      normalizeInlineRunList rs := by
  have hcanon : canonRunList (normalizeInlineRunList rs) = true :=
    normGo_plain rs h [] rfl
  show normGo [] (normalizeInlineRunList rs) = normalizeInlineRunList rs
  rw [normGo_canonical (normalizeInlineRunList rs) hcanon [] rfl]
  rw [List.nil_append]

theorem buildInlineBlock_text (bt : String) (rs : List InlineRun)
    (i m : Nat) (b : ArxInlineBlock)
    (h : buildInlineBlock bt rs i m = some b) :
    b.text = normalize_inline_spacing (inline_runs_to_text rs) ∧
    (∀ rs0, b.inlineRuns = some rs0 → rs0 = rs) := by
  unfold buildInlineBlock at h
  dsimp only at h
  split at h
  · exact Option.noConfusion h
  · injection h with hb
    rw [← hb]
    refine ⟨rfl, ?_⟩
    intro rs0 h0
    dsimp only at h0
    split at h0
    · injection h0 with he
      exact he.symm
    · exact Option.noConfusion h0

/-- C8 counterexample: the inline-run normalisation pass of the arXiv
parser is not idempotent in general. On `[text "a", link "" [text "b"]]`
the first pass elides the href-less link and splices its children into
the output next to the existing text run without merging, leaving two
adjacent text runs; a second pass merges them into one. -/
theorem c8_counterexample :
    (normalizeInlineRunList c8Bad).length = 2 ∧
    (normalizeInlineRunList (normalizeInlineRunList c8Bad)).length = 1 ∧
    ¬ (∀ rs : List InlineRun,
        normalizeInlineRunList (normalizeInlineRunList rs) =
          normalizeInlineRunList rs) := by
  refine ⟨by decide, by decide, ?_⟩
  intro hall
  have h := congrArg List.length (hall c8Bad)
  have h1 : (normalizeInlineRunList (normalizeInlineRunList c8Bad)).length =
      1 := by decide
  have h2 : (normalizeInlineRunList c8Bad).length = 2 := by decide
  rw [h1, h2] at h
  exact absurd h (by decide)

/-- C8: every heading, paragraph or blockquote block emitted by the
arXiv structural parser has `text` equal to the plain-text projection of
its inline runs after inline-whitespace normalisation (the stored
`inline_runs`, when present, are exactly the runs the block was built
from). The inline-run normalisation pass is idempotent on plain run
lists - those free of math runs and of links with empty stripped href -
but not in general (`c8_counterexample`). -/
theorem c8_block_text_and_idempotence :
    (∀ tag rs i b, extract_heading_block tag rs i = some b →
      b.text = normalize_inline_spacing (inline_runs_to_text rs) ∧
      ∀ rs0, b.inlineRuns = some rs0 → rs0 = rs) ∧
    (∀ rs i b, extract_paragraph_block rs i = some b →
      b.text = normalize_inline_spacing (inline_runs_to_text rs) ∧
      ∀ rs0, b.inlineRuns = some rs0 → rs0 = rs) ∧
    (∀ rs i b, extract_blockquote_block rs i = some b →
      b.text = normalize_inline_spacing (inline_runs_to_text rs) ∧
      ∀ rs0, b.inlineRuns = some rs0 → rs0 = rs) ∧
    (∀ rs, plainRunList rs = true →
      normalizeInlineRunList (normalizeInlineRunList rs) =
        normalizeInlineRunList rs) := by
  refine ⟨?_, ?_, ?_, normalize_idem_plain⟩
  · intro tag rs i b h
    exact buildInlineBlock_text _ rs i 2 b h
  · intro rs i b h
    exact buildInlineBlock_text _ rs i 20 b h
  · intro rs i b h
    exact buildInlineBlock_text _ rs i 10 b h

/-- Witness for C8: the idempotence conjunct applied to the concrete
plain run list `c8Plain`. -/
theorem c8_witness :
    plainRunList c8Plain = true ∧
    normalizeInlineRunList (normalizeInlineRunList c8Plain) =
      normalizeInlineRunList c8Plain :=
  ⟨by decide, c8_block_text_and_idempotence.2.2.2 c8Plain (by decide)⟩

end OpenPaper
